import Mathlib

/-!
# Portal geometry of `endless` (include/portal.h)

A shallow embedding of the portal transform core: `Portal::Portal`,
`Portal::linkTo`, `Portal::linkPortals`, `Portal::isCrossing`,
`Portal::transformPosition` and `Portal::transformCamera`.

Conventions of the embedding.

* `float` is an arbitrary linearly ordered field `K` (exact arithmetic); the
  definitions run as they stand on `ℚ`, and the theorems hold in particular
  for `ℝ`.
* The C math library calls made through glm (`sqrt`, `cos`, `sin`, `asin`,
  `atan2`) are passed in as a record `Libm K`; theorems that depend on them
  assume the exact laws collected in `Libm.Exact`, which `Real.sqrt`,
  `Real.cos`, `Real.sin` satisfy.
* `Portal*` is an address (`Nat`) into a memory `Mem K = Nat → Portal K`;
  `nullptr` is `none`.
* OpenGL handles, vertex buffers and console output carry no geometry and
  are left out of the state.
-/

namespace Endless

/-! ## glm vectors and matrices -/

/-- The type `glm::vec3`. -/
@[ext] structure Vec3 (K : Type) where
  x : K
  y : K
  z : K
deriving DecidableEq, Repr

namespace Vec3

variable {K : Type}

instance [Zero K] : Zero (Vec3 K) := ⟨⟨0, 0, 0⟩⟩
instance [Add K] : Add (Vec3 K) := ⟨fun a b => ⟨a.x + b.x, a.y + b.y, a.z + b.z⟩⟩
instance [Sub K] : Sub (Vec3 K) := ⟨fun a b => ⟨a.x - b.x, a.y - b.y, a.z - b.z⟩⟩
instance [Neg K] : Neg (Vec3 K) := ⟨fun a => ⟨-a.x, -a.y, -a.z⟩⟩
/-- Scalar times vector, `float * glm::vec3`. -/
instance [Mul K] : SMul K (Vec3 K) := ⟨fun s a => ⟨s * a.x, s * a.y, s * a.z⟩⟩

/-- The function `glm::dot` on `vec3`. -/
def dot [Add K] [Mul K] (a b : Vec3 K) : K :=
  a.x * b.x + a.y * b.y + a.z * b.z

/-- The function `glm::cross`. -/
def cross [Sub K] [Mul K] (a b : Vec3 K) : Vec3 K :=
  ⟨a.y * b.z - b.y * a.z, a.z * b.x - b.z * a.x, a.x * b.y - b.x * a.y⟩

/-- Vector times scalar, `glm::vec3 * float`. -/
def scale [Mul K] (a : Vec3 K) (s : K) : Vec3 K :=
  ⟨a.x * s, a.y * s, a.z * s⟩

end Vec3

/-- The type `glm::vec4`. -/
@[ext] structure Vec4 (K : Type) where
  x : K
  y : K
  z : K
  w : K
deriving DecidableEq, Repr

namespace Vec4

variable {K : Type}

instance [Add K] : Add (Vec4 K) :=
  ⟨fun a b => ⟨a.x + b.x, a.y + b.y, a.z + b.z, a.w + b.w⟩⟩

/-- Vector times scalar, `glm::vec4 * float`. -/
def scale [Mul K] (a : Vec4 K) (s : K) : Vec4 K :=
  ⟨a.x * s, a.y * s, a.z * s, a.w * s⟩

/-- The constructor `glm::vec4(vec3, float)`. -/
def ofVec3 (v : Vec3 K) (w : K) : Vec4 K := ⟨v.x, v.y, v.z, w⟩

/-- The conversion `glm::vec3(vec4)`, which drops `w`. -/
def xyz (v : Vec4 K) : Vec3 K := ⟨v.x, v.y, v.z⟩

end Vec4

/-- The type `glm::mat3`, stored by columns; `Mat3.mk c0 c1 c2` is the column
constructor `glm::mat3(c0, c1, c2)`. -/
@[ext] structure Mat3 (K : Type) where
  c0 : Vec3 K
  c1 : Vec3 K
  c2 : Vec3 K
deriving DecidableEq, Repr

namespace Mat3

variable {K : Type}

/-- The product `glm::mat3 * glm::vec3`. -/
def mulVec [Add K] [Mul K] (m : Mat3 K) (v : Vec3 K) : Vec3 K :=
  ⟨m.c0.x * v.x + m.c1.x * v.y + m.c2.x * v.z,
   m.c0.y * v.x + m.c1.y * v.y + m.c2.y * v.z,
   m.c0.z * v.x + m.c1.z * v.y + m.c2.z * v.z⟩

/-- The product `glm::mat3 * glm::mat3`. -/
def mul [Add K] [Mul K] (a b : Mat3 K) : Mat3 K :=
  ⟨⟨a.c0.x * b.c0.x + a.c1.x * b.c0.y + a.c2.x * b.c0.z,
    a.c0.y * b.c0.x + a.c1.y * b.c0.y + a.c2.y * b.c0.z,
    a.c0.z * b.c0.x + a.c1.z * b.c0.y + a.c2.z * b.c0.z⟩,
   ⟨a.c0.x * b.c1.x + a.c1.x * b.c1.y + a.c2.x * b.c1.z,
    a.c0.y * b.c1.x + a.c1.y * b.c1.y + a.c2.y * b.c1.z,
    a.c0.z * b.c1.x + a.c1.z * b.c1.y + a.c2.z * b.c1.z⟩,
   ⟨a.c0.x * b.c2.x + a.c1.x * b.c2.y + a.c2.x * b.c2.z,
    a.c0.y * b.c2.x + a.c1.y * b.c2.y + a.c2.y * b.c2.z,
    a.c0.z * b.c2.x + a.c1.z * b.c2.y + a.c2.z * b.c2.z⟩⟩

/-- The identity `glm::mat3(1.0f)`. -/
def one [Zero K] [One K] : Mat3 K := ⟨⟨1, 0, 0⟩, ⟨0, 1, 0⟩, ⟨0, 0, 1⟩⟩

/-- The elementary rotation about the X axis with cosine `c` and sine `s`. -/
def rotX [Zero K] [One K] [Neg K] (c s : K) : Mat3 K :=
  ⟨⟨1, 0, 0⟩, ⟨0, c, s⟩, ⟨0, -s, c⟩⟩

/-- The elementary rotation about the Y axis with cosine `c` and sine `s`. -/
def rotY [Zero K] [One K] [Neg K] (c s : K) : Mat3 K :=
  ⟨⟨c, 0, -s⟩, ⟨0, 1, 0⟩, ⟨s, 0, c⟩⟩

/-- The elementary rotation about the Z axis with cosine `c` and sine `s`. -/
def rotZ [Zero K] [One K] [Neg K] (c s : K) : Mat3 K :=
  ⟨⟨c, s, 0⟩, ⟨-s, c, 0⟩, ⟨0, 0, 1⟩⟩

/-- The columns are of unit length and pairwise orthogonal. -/
def ColsOrthonormal [Zero K] [One K] [Add K] [Mul K] (m : Mat3 K) : Prop :=
  Vec3.dot m.c0 m.c0 = 1 ∧ Vec3.dot m.c1 m.c1 = 1 ∧ Vec3.dot m.c2 m.c2 = 1 ∧
  Vec3.dot m.c0 m.c1 = 0 ∧ Vec3.dot m.c0 m.c2 = 0 ∧ Vec3.dot m.c1 m.c2 = 0

end Mat3

/-- The type `glm::mat4`, stored by columns. -/
@[ext] structure Mat4 (K : Type) where
  c0 : Vec4 K
  c1 : Vec4 K
  c2 : Vec4 K
  c3 : Vec4 K
deriving DecidableEq, Repr

namespace Mat4

variable {K : Type}

/-- The identity `glm::mat4(1.0f)`. -/
def one [Zero K] [One K] : Mat4 K :=
  ⟨⟨1, 0, 0, 0⟩, ⟨0, 1, 0, 0⟩, ⟨0, 0, 1, 0⟩, ⟨0, 0, 0, 1⟩⟩

/-- The product `glm::mat4 * glm::vec4`:
`(m[0]*v[0] + m[1]*v[1]) + (m[2]*v[2] + m[3]*v[3])`. -/
def mulVec [Add K] [Mul K] (m : Mat4 K) (v : Vec4 K) : Vec4 K :=
  (m.c0.scale v.x + m.c1.scale v.y) + (m.c2.scale v.z + m.c3.scale v.w)

/-- The upper-left 3x3 block, `glm::mat3(m)`. -/
def upper (m : Mat4 K) : Mat3 K := ⟨m.c0.xyz, m.c1.xyz, m.c2.xyz⟩

end Mat4

/-- The C math functions reached through glm.  They are arguments of the
embedding, so that every definition below is a program over any field. -/
structure Libm (K : Type) where
  sqrt : K → K
  cos : K → K
  sin : K → K
  asin : K → K
  atan2 : K → K → K

/-- The exact-arithmetic laws of the math functions that the theorems use:
`sqrt` is the non-negative square root on non-negative arguments and
`(cos a, sin a)` lies on the unit circle. -/
structure Libm.Exact {K : Type} [LinearOrderedField K] (M : Libm K) : Prop where
  sqrt_nonneg : ∀ x : K, 0 ≤ x → 0 ≤ M.sqrt x
  sqrt_mul_self : ∀ x : K, 0 ≤ x → M.sqrt x * M.sqrt x = x
  cos_sq_add_sin_sq : ∀ a : K, M.cos a * M.cos a + M.sin a * M.sin a = 1

namespace glm

variable {K : Type} [LinearOrderedField K]

/-- The function `glm::inversesqrt`: `1 / sqrt(x)`. -/
def inversesqrt (M : Libm K) (x : K) : K := 1 / M.sqrt x

/-- The function `glm::length`: `sqrt(dot(v, v))`. -/
def length (M : Libm K) (v : Vec3 K) : K := M.sqrt (Vec3.dot v v)

/-- The function `glm::normalize`: `v * inversesqrt(dot(v, v))`. -/
def normalize (M : Libm K) (v : Vec3 K) : Vec3 K :=
  v.scale (inversesqrt M (Vec3.dot v v))

/-- The function `glm::degrees`. -/
def degrees (radians : K) : K :=
  radians * (57.295779513082320876798154814105 : K)

/-- The function `glm::rotate(m, angle, v)` of gtc/matrix_transform: the matrix
`m` times the rotation by `angle` about the normalised axis `v`. -/
def rotate (M : Libm K) (m : Mat4 K) (angle : K) (v : Vec3 K) : Mat4 K :=
  let a := angle
  let c := M.cos a
  let s := M.sin a
  let axis := normalize M v
  let temp := (1 - c) • axis
  let r00 := c + temp.x * axis.x
  let r01 := temp.x * axis.y + s * axis.z
  let r02 := temp.x * axis.z - s * axis.y
  let r10 := temp.y * axis.x - s * axis.z
  let r11 := c + temp.y * axis.y
  let r12 := temp.y * axis.z + s * axis.x
  let r20 := temp.z * axis.x + s * axis.y
  let r21 := temp.z * axis.y - s * axis.x
  let r22 := c + temp.z * axis.z
  { c0 := (m.c0.scale r00 + m.c1.scale r01) + m.c2.scale r02
    c1 := (m.c0.scale r10 + m.c1.scale r11) + m.c2.scale r12
    c2 := (m.c0.scale r20 + m.c1.scale r21) + m.c2.scale r22
    c3 := m.c3 }

end glm

/-! ## The portal object -/

/-- The geometric and linking members of `class Portal`.  `destination` is the
`Portal*` member: `none` is `nullptr`, `some a` is the address of a portal. -/
structure Portal (K : Type) where
  position : Vec3 K
  normal : Vec3 K
  up : Vec3 K
  width : K
  height : K
  destination : Option Nat
  scaleEffect : K
  rotationEffect : Vec3 K
  right : Vec3 K

/-- Memory holding the portal objects, by address. -/
abbrev Mem (K : Type) := Nat → Portal K

/-- The members of `class Camera` (Camera.h) that portal.h reads or writes. -/
structure Camera (K : Type) where
  Position : Vec3 K
  Front : Vec3 K
  Up : Vec3 K
  Right : Vec3 K
  Yaw : K
  Pitch : K
  MovementSpeed : K
  currentScale : K

namespace Portal

variable {K : Type} [LinearOrderedField K]

/-- The constructor `Portal::Portal` (portal.h 34-50), named `ctor` because the
type already has the name.  The colour and the
screen size only feed the OpenGL resources; `scale` defaults to `1` and
`rotation` to the zero vector in the source. -/
def ctor (M : Libm K) (pos norm upVec : Vec3 K) (w h : K) (scale : K)
    (rotation : Vec3 K) : Portal K :=
  let normal := glm.normalize M norm
  let up := glm.normalize M upVec
  let right := glm.normalize M (Vec3.cross up normal)
  let up := glm.normalize M (Vec3.cross normal right)
  { position := pos
    normal := normal
    up := up
    width := w
    height := h
    destination := none
    scaleEffect := scale
    rotationEffect := rotation
    right := right }

/-- The method `Portal::linkTo` (portal.h 64-66) on the portal at address
`self`. -/
def linkTo (mem : Mem K) (self : Nat) (dest : Option Nat) : Mem K :=
  Function.update mem self { mem self with destination := dest }

/-- The static method `Portal::linkPortals` (portal.h 69-72). -/
def linkPortals (mem : Mem K) (a b : Nat) : Mem K :=
  let mem := linkTo mem a (some b)
  linkTo mem b (some a)

/-- The method `Portal::isCrossing` (portal.h 88-113); `collisionRadius`
defaults to `0.5` in the source, and `abs` is the `float` absolute value. -/
def isCrossing (self : Portal K) (prevPos newPos : Vec3 K) (collisionRadius : K) : Bool :=
  let movement := newPos - prevPos
  let dotNormalMovement := Vec3.dot self.normal movement
  if dotNormalMovement ≥ 0 then false
  else
    let dotNormalPrevPos := Vec3.dot self.normal (prevPos - self.position)
    let t := (-dotNormalPrevPos) / dotNormalMovement
    if t < 0 ∨ t > 1 then false
    else
      let intersection := prevPos + t • movement
      let relativePos := intersection - self.position
      let rightProj := Vec3.dot relativePos self.right
      let upProj := Vec3.dot relativePos self.up
      decide (|rightProj| ≤ self.width / 2 + collisionRadius) &&
        decide (|upProj| ≤ self.height / 2 + collisionRadius)

/-- Float division that reports whether it was reached with a zero divisor. -/
def checkedDiv (a b : K) : Option K :=
  if b = 0 then none else some (a / b)

/-- The body of `Portal::isCrossing` again, statement for statement, with the
quotient formed by `checkedDiv`: the result is `none` exactly when the division
is evaluated with a zero divisor. -/
def isCrossingChecked (self : Portal K) (prevPos newPos : Vec3 K) (collisionRadius : K) :
    Option Bool :=
  let movement := newPos - prevPos
  let dotNormalMovement := Vec3.dot self.normal movement
  if dotNormalMovement ≥ 0 then some false
  else
    let dotNormalPrevPos := Vec3.dot self.normal (prevPos - self.position)
    match checkedDiv (-dotNormalPrevPos) dotNormalMovement with
    | none => none
    | some t =>
      if t < 0 ∨ t > 1 then some false
      else
        let intersection := prevPos + t • movement
        let relativePos := intersection - self.position
        let rightProj := Vec3.dot relativePos self.right
        let upProj := Vec3.dot relativePos self.up
        some (decide (|rightProj| ≤ self.width / 2 + collisionRadius) &&
          decide (|upProj| ≤ self.height / 2 + collisionRadius))

/-- `Portal::transformPosition` (portal.h 116-139), with `self` the receiver and
`mem` the memory its `destination` pointer is read from. -/
def transformPosition (mem : Mem K) (self : Portal K) (pos : Vec3 K) : Vec3 K :=
  match self.destination with
  | none => pos
  | some d =>
    let destination := mem d
    let relativePos := pos - self.position
    let distanceFromPlane := Vec3.dot relativePos self.normal
    let rightProj := Vec3.dot relativePos self.right
    let upProj := Vec3.dot relativePos self.up
    let rightProj := rightProj * destination.scaleEffect
    let upProj := upProj * destination.scaleEffect
    let distanceFromPlane := distanceFromPlane * destination.scaleEffect
    let newRelativePos :=
      (-distanceFromPlane) • destination.normal +
      rightProj • destination.right +
      upProj • destination.up
    destination.position + newRelativePos

/-- `Portal::transformCamera` (portal.h 142-217): the camera after the call.
The console output of the source is not part of the state. -/
def transformCamera (M : Libm K) (mem : Mem K) (self : Portal K) (camera : Camera K) :
    Camera K :=
  match self.destination with
  | none => camera
  | some d =>
    let destination := mem d
    let originalSpeed := camera.MovementSpeed
    let relativePos := camera.Position - self.position
    let distanceFromPlane := Vec3.dot relativePos self.normal
    let rightProj := Vec3.dot relativePos self.right
    let upProj := Vec3.dot relativePos self.up
    let rightProj := rightProj * destination.scaleEffect
    let upProj := upProj * destination.scaleEffect
    let distanceFromPlane := distanceFromPlane * destination.scaleEffect
    let newRelativePos :=
      (-distanceFromPlane) • destination.normal +
      rightProj • destination.right +
      upProj • destination.up
    let camera := { camera with Position := destination.position + newRelativePos }
    let rotMat :=
      Mat3.mul (Mat3.mk destination.right destination.up destination.normal)
        (Mat3.mk self.right self.up self.normal)
    let camera :=
      if glm.length M destination.rotationEffect > (0.0001 : K) then
        let additionalRot : Mat4 K := Mat4.one
        let additionalRot := glm.rotate M additionalRot destination.rotationEffect.x ⟨1, 0, 0⟩
        let additionalRot := glm.rotate M additionalRot destination.rotationEffect.y ⟨0, 1, 0⟩
        let additionalRot := glm.rotate M additionalRot destination.rotationEffect.z ⟨0, 0, 1⟩
        let rotatedFront := additionalRot.mulVec (Vec4.ofVec3 camera.Front 0)
        let rotatedRight := additionalRot.mulVec (Vec4.ofVec3 camera.Right 0)
        let rotatedUp := additionalRot.mulVec (Vec4.ofVec3 camera.Up 0)
        { camera with
          Front := glm.normalize M (rotMat.mulVec rotatedFront.xyz)
          Right := glm.normalize M (rotMat.mulVec rotatedRight.xyz)
          Up := glm.normalize M (rotMat.mulVec rotatedUp.xyz) }
      else
        { camera with
          Front := glm.normalize M (rotMat.mulVec camera.Front)
          Right := glm.normalize M (rotMat.mulVec camera.Right)
          Up := glm.normalize M (rotMat.mulVec camera.Up) }
    let camera := { camera with Pitch := glm.degrees (M.asin camera.Front.y) }
    let camera :=
      { camera with Yaw := glm.degrees (M.atan2 camera.Front.z camera.Front.x) }
    let camera := { camera with MovementSpeed := originalSpeed * destination.scaleEffect }
    { camera with currentScale := destination.scaleEffect }

/-- The point transform as the specification words it (section 4.1): identity
when unlinked; otherwise decompose `p - entry.position` along the entry's
normal/right/up, scale by the exit's factor and rebuild in the exit's frame
with the depth negated. -/
def transformPositionSpec (entry : Portal K) (exit : Option (Portal K)) (p : Vec3 K) :
    Vec3 K :=
  match exit with
  | none => p
  | some e =>
    let rel := p - entry.position
    let d := Vec3.dot rel entry.normal
    let r := Vec3.dot rel entry.right
    let u := Vec3.dot rel entry.up
    let s := e.scaleEffect
    ((e.position + (-(s * d)) • e.normal) + (s * r) • e.right) + (s * u) • e.up

/-- The stored `right`, `up`, `normal` are of unit length and pairwise
orthogonal. -/
def OrthonormalBasis (p : Portal K) : Prop :=
  Vec3.dot p.right p.right = 1 ∧ Vec3.dot p.up p.up = 1 ∧ Vec3.dot p.normal p.normal = 1 ∧
  Vec3.dot p.right p.up = 0 ∧ Vec3.dot p.right p.normal = 0 ∧ Vec3.dot p.up p.normal = 0

instance (p : Portal K) : Decidable p.OrthonormalBasis := by
  unfold OrthonormalBasis; infer_instance

/-- The matrix `glm::mat3(right, up, normal)` of a portal. -/
abbrev basis (p : Portal K) : Mat3 K := Mat3.mk p.right p.up p.normal

end Portal

namespace Camera

variable {K : Type} [LinearOrderedField K]

/-- The camera's `Front`, `Right`, `Up` are of unit length and pairwise
orthogonal. -/
def OrthonormalBasis (c : Camera K) : Prop :=
  Vec3.dot c.Front c.Front = 1 ∧ Vec3.dot c.Right c.Right = 1 ∧ Vec3.dot c.Up c.Up = 1 ∧
  Vec3.dot c.Front c.Right = 0 ∧ Vec3.dot c.Front c.Up = 0 ∧ Vec3.dot c.Right c.Up = 0

instance (c : Camera K) : Decidable c.OrthonormalBasis := by
  unfold OrthonormalBasis; infer_instance

end Camera

/-! ## Visibility, the virtual view and the crossing loop -/

namespace glm

variable {K : Type} [LinearOrderedField K]

/-- The function `glm::lookAt(eye, center, up)` (right-handed, the default). -/
def lookAt (M : Libm K) (eye center up : Vec3 K) : Mat4 K :=
  let f := normalize M (center - eye)
  let s := normalize M (Vec3.cross f up)
  let u := Vec3.cross s f
  { c0 := ⟨s.x, u.x, -f.x, 0⟩
    c1 := ⟨s.y, u.y, -f.y, 0⟩
    c2 := ⟨s.z, u.z, -f.z, 0⟩
    c3 := ⟨-Vec3.dot s eye, -Vec3.dot u eye, Vec3.dot f eye, 1⟩ }

end glm

/-- The locals `newCamPos`, `newCamFront`, `newCamUp` of `Portal::getPortalView`
at its call `glm::lookAt(newCamPos, newCamPos + newCamFront, newCamUp)`. -/
structure VirtualCamera (K : Type) where
  newCamPos : Vec3 K
  newCamFront : Vec3 K
  newCamUp : Vec3 K

/-- The linking calls of the public interface of `Portal`, as data:
`a->linkTo(dest)` and `Portal::linkPortals(a, b)`. -/
inductive LinkCall where
  | linkTo (self : Nat) (dest : Option Nat)
  | linkPortals (a b : Nat)
deriving DecidableEq, Repr

/-- The state of the crossing loop of `processInput`: the globals `camera` and
`prevPosition`, with two ghost lists recording on which portals `isCrossing`
was called and on which `transformCamera` was called, in order. -/
structure LoopState (K : Type) where
  camera : Camera K
  prevPosition : Vec3 K
  tested : List Nat
  applied : List Nat

namespace Portal

variable {K : Type} [LinearOrderedField K]

/-- The method `Portal::isVisible` (portal.h 75-85); `maxDistance` defaults to
`50` in the source. -/
def isVisible (M : Libm K) (self : Portal K) (camera : Camera K) (maxDistance : K) : Bool :=
  let distance := glm.length M (camera.Position - self.position)
  if distance > maxDistance then false
  else
    let cameraToPortal := glm.normalize M (self.position - camera.Position)
    let dotProduct := Vec3.dot camera.Front cameraToPortal
    decide (dotProduct > (0.1 : K))

/-- The call `isVisible(camera)` with the default argument `maxDistance = 50.0f`. -/
def isVisibleDefault (M : Libm K) (self : Portal K) (camera : Camera K) : Bool :=
  isVisible M self camera 50

/-- The linked branch of `Portal::getPortalView` (portal.h 224-277) up to the
call of `glm::lookAt`, for the destination at address `d`. -/
def getPortalViewCamera (M : Libm K) (mem : Mem K) (self : Portal K) (d : Nat)
    (camera : Camera K) : VirtualCamera K :=
  let destination := mem d
  let relativeCamPos := camera.Position - self.position
  let distanceFromPlane := Vec3.dot relativeCamPos self.normal
  let rightCoord := Vec3.dot relativeCamPos self.right
  let upCoord := Vec3.dot relativeCamPos self.up
  let newRelativeCamPos :=
    (-distanceFromPlane) • destination.normal +
    rightCoord • destination.right +
    upCoord • destination.up
  let newRelativeCamPos := newRelativeCamPos.scale destination.scaleEffect
  let newCamPos := destination.position + newRelativeCamPos
  let rotMat :=
    Mat3.mul (Mat3.mk destination.right destination.up destination.normal)
      (Mat3.mk self.right self.up self.normal)
  let newCamFront := rotMat.mulVec camera.Front
  let newCamUp := rotMat.mulVec camera.Up
  if glm.length M destination.rotationEffect > (0.0001 : K) then
    let additionalRot : Mat4 K := Mat4.one
    let additionalRot := glm.rotate M additionalRot destination.rotationEffect.x ⟨1, 0, 0⟩
    let additionalRot := glm.rotate M additionalRot destination.rotationEffect.y ⟨0, 1, 0⟩
    let additionalRot := glm.rotate M additionalRot destination.rotationEffect.z ⟨0, 0, 1⟩
    let newCamFront := (additionalRot.mulVec (Vec4.ofVec3 newCamFront 0)).xyz
    let newCamUp := (additionalRot.mulVec (Vec4.ofVec3 newCamUp 0)).xyz
    ⟨newCamPos, newCamFront, newCamUp⟩
  else
    ⟨newCamPos, newCamFront, newCamUp⟩

/-- The method `Portal::getPortalView` (portal.h 221-278).  `GetViewMatrix` is
`Camera::GetViewMatrix` of Camera.h, which the unlinked branch returns. -/
def getPortalView (M : Libm K) (GetViewMatrix : Camera K → Mat4 K) (mem : Mem K)
    (self : Portal K) (camera : Camera K) : Mat4 K :=
  match self.destination with
  | none => GetViewMatrix camera
  | some d =>
    let v := getPortalViewCamera M mem self d camera
    glm.lookAt M v.newCamPos (v.newCamPos + v.newCamFront) v.newCamUp

/-- One linking call applied to the memory. -/
def applyLinkCall (mem : Mem K) : LinkCall → Mem K
  | LinkCall.linkTo self dest => linkTo mem self dest
  | LinkCall.linkPortals a b => linkPortals mem a b

/-- A sequence of linking calls applied in order. -/
def applyLinkCalls (mem : Mem K) (calls : List LinkCall) : Mem K :=
  calls.foldl applyLinkCall mem

/-- A sequence of `Portal::linkPortals(a, b)` calls applied in order. -/
def linkPairs (mem : Mem K) (pairs : List (Nat × Nat)) : Mem K :=
  pairs.foldl (fun m p => linkPortals m p.1 p.2) mem

/-- Every portal of the memory is as the constructor leaves it: unlinked. -/
def Fresh (mem : Mem K) : Prop := ∀ a, (mem a).destination = none

/-- The link relation is symmetric: `A.destination = B` implies
`B.destination = A`. -/
def LinkSymmetric (mem : Mem K) : Prop :=
  ∀ a b, (mem a).destination = some b → (mem b).destination = some a

/-- The portals `a` and `b` are each unlinked or already linked to the other. -/
def Linkable (mem : Mem K) (a b : Nat) : Prop :=
  ((mem a).destination = none ∨ (mem a).destination = some b) ∧
  ((mem b).destination = none ∨ (mem b).destination = some a)

instance (mem : Mem K) (a b : Nat) : Decidable (Linkable mem a b) := by
  unfold Linkable; infer_instance

/-- Every call of a `linkPortals` sequence is made on a linkable pair. -/
def PairsLinkable (mem : Mem K) : List (Nat × Nat) → Prop
  | [] => True
  | p :: rest => Linkable mem p.1 p.2 ∧ PairsLinkable (linkPortals mem p.1 p.2) rest

end Portal

/-- The crossing loop of `processInput` (main.cpp 354-364) over the portal
addresses still to visit: the first portal whose `isCrossing(preMovementPos,
camera.Position)` holds (default radius `0.5`) transforms the camera, sets
`prevPosition` and breaks. -/
def crossingLoop {K : Type} [LinearOrderedField K] (M : Libm K) (mem : Mem K)
    (preMovementPos : Vec3 K) : List Nat → LoopState K → LoopState K
  | [], st => st
  | portal :: rest, st =>
    if (mem portal).isCrossing preMovementPos st.camera.Position (1 / 2) then
      let camera := (mem portal).transformCamera M mem st.camera
      { camera := camera
        prevPosition := camera.Position
        tested := st.tested ++ [portal]
        applied := st.applied ++ [portal] }
    else
      crossingLoop M mem preMovementPos rest
        { st with tested := st.tested ++ [portal] }

/-! ## The two orientation branches, angle laws and the room manager -/

/-- The exact laws of `asin` and `atan2` that the Euler-angle theorem uses:
`asin` inverts `sin` on `[-1, 1]` with a non-negative cosine, and `atan2(y, x)`
is an angle of the point `(x, y)`. -/
structure Libm.ExactAngles {K : Type} [LinearOrderedField K] (M : Libm K) : Prop where
  sin_asin : ∀ y : K, -1 ≤ y → y ≤ 1 → M.sin (M.asin y) = y
  cos_asin : ∀ y : K, -1 ≤ y → y ≤ 1 → M.cos (M.asin y) = M.sqrt (1 - y * y)
  cos_atan2 : ∀ y x : K, M.cos (M.atan2 y x) * M.sqrt (x * x + y * y) = x
  sin_atan2 : ∀ y x : K, M.sin (M.atan2 y x) * M.sqrt (x * x + y * y) = y

/-- The function `glm::radians`. -/
def glm.radians {K : Type} [LinearOrderedField K] (degrees : K) : K :=
  degrees * (0.01745329251994329576923690768489 : K)

namespace Portal

variable {K : Type} [LinearOrderedField K]

/-- The local `rotMat` of `transformCamera` (portal.h 171-179) for the receiver
`self` and its destination `dst`:
`mat3(dst.right, dst.up, dst.normal) * mat3(self.right, self.up, self.normal)`. -/
def rotMat (self dst : Portal K) : Mat3 K :=
  Mat3.mul (Mat3.mk dst.right dst.up dst.normal) (Mat3.mk self.right self.up self.normal)

/-- The general branch of `transformCamera` (portal.h 182-196) on its own: the
camera with `Front`, `Right`, `Up` rotated by `rotationEffect`, multiplied by
`rotMat` and normalised. -/
def rotatedOrientation (M : Libm K) (rotMat : Mat3 K) (rotationEffect : Vec3 K)
    (camera : Camera K) : Camera K :=
  let additionalRot : Mat4 K := Mat4.one
  let additionalRot := glm.rotate M additionalRot rotationEffect.x ⟨1, 0, 0⟩
  let additionalRot := glm.rotate M additionalRot rotationEffect.y ⟨0, 1, 0⟩
  let additionalRot := glm.rotate M additionalRot rotationEffect.z ⟨0, 0, 1⟩
  let rotatedFront := additionalRot.mulVec (Vec4.ofVec3 camera.Front 0)
  let rotatedRight := additionalRot.mulVec (Vec4.ofVec3 camera.Right 0)
  let rotatedUp := additionalRot.mulVec (Vec4.ofVec3 camera.Up 0)
  { camera with
    Front := glm.normalize M (rotMat.mulVec rotatedFront.xyz)
    Right := glm.normalize M (rotMat.mulVec rotatedRight.xyz)
    Up := glm.normalize M (rotMat.mulVec rotatedUp.xyz) }

/-- The shortcut branch of `transformCamera` (portal.h 197-201) on its own. -/
def directOrientation (M : Libm K) (rotMat : Mat3 K) (camera : Camera K) : Camera K :=
  { camera with
    Front := glm.normalize M (rotMat.mulVec camera.Front)
    Right := glm.normalize M (rotMat.mulVec camera.Right)
    Up := glm.normalize M (rotMat.mulVec camera.Up) }

/-- The matrix by which `transformCamera` (portal.h 171-201) multiplies `Front`,
`Right` and `Up` before `glm::normalize`, for the receiver `self` and its
destination `dst`: `rotMat * (Rx * Ry * Rz)` of `dst.rotationEffect` in the
general branch, `rotMat` in the shortcut branch. -/
def orientationMat (M : Libm K) (self dst : Portal K) : Mat3 K :=
  if glm.length M dst.rotationEffect > 0.0001 then
    Mat3.mul (rotMat self dst)
      (Mat3.mul
        (Mat3.mul (Mat3.rotX (M.cos dst.rotationEffect.x) (M.sin dst.rotationEffect.x))
          (Mat3.rotY (M.cos dst.rotationEffect.y) (M.sin dst.rotationEffect.y)))
        (Mat3.rotZ (M.cos dst.rotationEffect.z) (M.sin dst.rotationEffect.z)))
  else rotMat self dst

end Portal

/-- The type `struct Room` (room.h 13-21). -/
structure Room (K : Type) where
  spawnPosition : Vec3 K
  spawnYaw : K
  spawnPitch : K
  name : String
  nonEuclideanIntensity : K
  ambientColor : Vec4 K
  hasGravity : Bool

/-- The data members of `class RoomManager` (room.h 51-52). -/
structure RoomManager (K : Type) where
  rooms : List (Room K)
  currentRoom : Int

/-- Everything `RoomManager::teleportToRoom` can write: the manager and the
objects passed by reference. -/
structure TeleportState (K : Type) where
  manager : RoomManager K
  camera : Camera K
  nonEuclideanFactor : K
  flightMode : Bool
  verticalVelocity : K

/-- The conversion of an `int` to `size_t` (64 bits), as in `roomIndex <
rooms.size()` and `rooms[currentRoom]`. -/
def toSizeT (i : Int) : Nat := (i % 2 ^ 64).toNat

namespace RoomManager

variable {K : Type} [LinearOrderedField K]

/-- The method `RoomManager::getRoomCount` (RoomManager.cpp 161-163). -/
def getRoomCount (self : RoomManager K) : Nat := self.rooms.length

/-- The method `RoomManager::teleportToRoom` (RoomManager.cpp 127-151).
`updateCameraVectors` is `Camera::updateCameraVectors` of Camera.h; the result
is `none` if `rooms[currentRoom]` reads outside the vector; the console output
is not part of the state. -/
def teleportToRoom (updateCameraVectors : Camera K → Camera K) (roomIndex : Int)
    (st : TeleportState K) : Option (TeleportState K) :=
  if roomIndex ≥ 0 ∧ toSizeT roomIndex < st.manager.rooms.length then
    let manager := { st.manager with currentRoom := roomIndex }
    match manager.rooms[toSizeT manager.currentRoom]? with
    | none => none
    | some room =>
      let camera := { st.camera with Position := room.spawnPosition }
      let camera := { camera with Yaw := room.spawnYaw }
      let camera := { camera with Pitch := room.spawnPitch }
      let camera := updateCameraVectors camera
      some
        { manager := manager
          camera := camera
          nonEuclideanFactor := room.nonEuclideanIntensity
          flightMode := !room.hasGravity
          verticalVelocity := 0 }
  else some st

end RoomManager

/-! ## Concrete data used to evaluate the definitions -/

namespace Example

variable (K : Type) [LinearOrderedField K]

/-- A portal at `(5,1,0)` facing `+x`, factor `2`, linked to address `1`. -/
def portalA : Portal K :=
  ⟨⟨5, 1, 0⟩, ⟨1, 0, 0⟩, ⟨0, 1, 0⟩, 2, 4, some 1, 2, ⟨0, 0, 0⟩, ⟨0, 0, -1⟩⟩

/-- A portal at `(20,1,0)` facing `-x`, factor `3`, linked to address `0`. -/
def portalB : Portal K :=
  ⟨⟨20, 1, 0⟩, ⟨-1, 0, 0⟩, ⟨0, 1, 0⟩, 2, 4, some 0, 3, ⟨0, 0, 0⟩, ⟨0, 0, 1⟩⟩

/-- A memory with `portalA` at address `0` and `portalB` everywhere else. -/
def memAB : Mem K := fun i => if i = 0 then portalA K else portalB K

/-- A portal at the origin facing `+z`, factor `1`, no rotation effect, linked
to address `1`; its basis matrix is the identity. -/
def portalFront : Portal K :=
  ⟨⟨0, 0, 0⟩, ⟨0, 0, 1⟩, ⟨0, 1, 0⟩, 2, 4, some 1, 1, ⟨0, 0, 0⟩, ⟨1, 0, 0⟩⟩

/-- A portal at `(10,0,0)` facing `+x`, factor `1`, no rotation effect, linked
to address `0`. -/
def portalSide : Portal K :=
  ⟨⟨10, 0, 0⟩, ⟨1, 0, 0⟩, ⟨0, 1, 0⟩, 2, 4, some 0, 1, ⟨0, 0, 0⟩, ⟨0, 0, -1⟩⟩

/-- A memory with `portalFront` at address `0` and `portalSide` everywhere
else. -/
def memFS : Mem K := fun i => if i = 0 then portalFront K else portalSide K

/-- A portal like `portalB` with a rotation effect of one radian about `y`. -/
def portalR : Portal K :=
  ⟨⟨20, 1, 0⟩, ⟨-1, 0, 0⟩, ⟨0, 1, 0⟩, 2, 4, some 0, 3, ⟨0, 1, 0⟩, ⟨0, 0, 1⟩⟩

/-- A memory with `portalA` at address `0` and `portalR` everywhere else. -/
def memAR : Mem K := fun i => if i = 0 then portalA K else portalR K

/-- A portal like `portalA` with factor `1`. -/
def portalUnit : Portal K :=
  ⟨⟨5, 1, 0⟩, ⟨1, 0, 0⟩, ⟨0, 1, 0⟩, 2, 4, some 1, 1, ⟨0, 0, 0⟩, ⟨0, 0, -1⟩⟩

/-- A portal like `portalB` with factor `1` and a rotation effect of `angle`
about `x`. -/
def portalTurn (angle : K) : Portal K :=
  ⟨⟨20, 1, 0⟩, ⟨-1, 0, 0⟩, ⟨0, 1, 0⟩, 2, 4, some 0, 1, ⟨angle, 0, 0⟩,
    ⟨0, 0, 1⟩⟩

/-- A memory with `portalUnit` at address `0` and `portalTurn angle` everywhere
else. -/
def memUT (angle : K) : Mem K := fun i => if i = 0 then portalUnit K else portalTurn K angle

/-- The surface of the crossing test of the specification: at the origin,
normal `(1,0,0)`, up `(0,1,0)`, width `2`, height `2`, unlinked. -/
def unitSurface : Portal K :=
  ⟨⟨0, 0, 0⟩, ⟨1, 0, 0⟩, ⟨0, 1, 0⟩, 2, 2, none, 1, ⟨0, 0, 0⟩, ⟨0, 0, -1⟩⟩

/-- A memory of freshly constructed portals: every address holds the unlinked
`unitSurface`. -/
def memFresh : Mem K := fun _ => unitSurface K

/-- A portal like `portalSide` with a rotation effect of `angle` about `x`. -/
def portalSideTurn (angle : K) : Portal K :=
  ⟨⟨10, 0, 0⟩, ⟨1, 0, 0⟩, ⟨0, 1, 0⟩, 2, 4, some 0, 1, ⟨angle, 0, 0⟩,
    ⟨0, 0, -1⟩⟩

/-- A memory with `portalFront` at address `0` and `portalSideTurn angle`
everywhere else. -/
def memFT (angle : K) : Mem K :=
  fun i => if i = 0 then portalFront K else portalSideTurn K angle

/-- A portal like `portalA` one unit further back, at `(4,1,0)`, linked to
address `0`. -/
def portalBehindA : Portal K :=
  ⟨⟨4, 1, 0⟩, ⟨1, 0, 0⟩, ⟨0, 1, 0⟩, 2, 4, some 0, 2, ⟨0, 0, 0⟩, ⟨0, 0, -1⟩⟩

/-- A memory with `portalA` at address `0` and `portalBehindA` everywhere else:
a step from `(6,1,0)` to `(3,1,0)` pierces both rectangles. -/
def memAA : Mem K := fun i => if i = 0 then portalA K else portalBehindA K

/-- A portal like `portalB` with the degenerate factor `0`. -/
def portalFlat : Portal K :=
  ⟨⟨20, 1, 0⟩, ⟨-1, 0, 0⟩, ⟨0, 1, 0⟩, 2, 4, some 0, 0, ⟨0, 0, 0⟩, ⟨0, 0, 1⟩⟩

/-- A memory with `portalA` at address `0` and `portalFlat` everywhere else. -/
def memAF : Mem K := fun i => if i = 0 then portalA K else portalFlat K

/-- Portal A of `main` (main.cpp 126-135) as the constructor and
`linkPortals` leave it, at address `0`: position `(5, 1.5, 0)`, normal `+x`,
width `2.5`, height `4`, factor `0.2`, rotation effect `radians(5)` about `y`. -/
def mainA : Portal K :=
  ⟨⟨5, 3 / 2, 0⟩, ⟨1, 0, 0⟩, ⟨0, 1, 0⟩, 5 / 2, 4, some 1, 1 / 5,
    ⟨0, glm.radians 5, 0⟩, ⟨0, 0, -1⟩⟩

/-- Portal B of `main` (main.cpp 138-147) as the constructor and
`linkPortals` leave it, at address `1`: position `(15, 1.5, 0)`, normal `-x`,
width `2.5`, height `4`, factor `5`, rotation effect `radians(-5)` about `y`. -/
def mainB : Portal K :=
  ⟨⟨15, 3 / 2, 0⟩, ⟨-1, 0, 0⟩, ⟨0, 1, 0⟩, 5 / 2, 4, some 0, 5,
    ⟨0, glm.radians (-5), 0⟩, ⟨0, 0, 1⟩⟩

/-- A memory with `mainA` at address `0` and `mainB` everywhere else. -/
def memMain : Mem K := fun i => if i = 0 then mainA K else mainB K

/-- Two rooms in the manner of `initializeRooms`: one with gravity, one
without. -/
def rooms : List (Room K) :=
  [⟨⟨0, 1, 0⟩, -90, 0, "Development Space", 0, ⟨1 / 10, 1 / 10, 1 / 10, 1⟩, true⟩,
   ⟨⟨100, 1, 100⟩, -90, 0, "Hyperbolic Space", 3 / 2, ⟨0, 0, 1 / 10, 1⟩, false⟩]

/-- A state in room `0`, walking, with the camera at `(7,2,3)`. -/
def teleportState (camera : Camera K) : TeleportState K :=
  ⟨⟨rooms K, 0⟩, camera, 0, false, -3⟩

/-- A camera at `(7,2,3)` looking along `-z`. -/
def camera : Camera K :=
  ⟨⟨7, 2, 3⟩, ⟨0, 0, -1⟩, ⟨0, 1, 0⟩, ⟨1, 0, 0⟩, -90, 0, 5 / 2, 1⟩

end Example

/-! ## Component lemmas -/

namespace Vec3

variable {K : Type}

@[simp] theorem zero_x [Zero K] : (0 : Vec3 K).x = 0 := rfl
@[simp] theorem zero_y [Zero K] : (0 : Vec3 K).y = 0 := rfl
@[simp] theorem zero_z [Zero K] : (0 : Vec3 K).z = 0 := rfl
@[simp] theorem add_x [Add K] (a b : Vec3 K) : (a + b).x = a.x + b.x := rfl
@[simp] theorem add_y [Add K] (a b : Vec3 K) : (a + b).y = a.y + b.y := rfl
@[simp] theorem add_z [Add K] (a b : Vec3 K) : (a + b).z = a.z + b.z := rfl
@[simp] theorem sub_x [Sub K] (a b : Vec3 K) : (a - b).x = a.x - b.x := rfl
@[simp] theorem sub_y [Sub K] (a b : Vec3 K) : (a - b).y = a.y - b.y := rfl
@[simp] theorem sub_z [Sub K] (a b : Vec3 K) : (a - b).z = a.z - b.z := rfl
@[simp] theorem neg_x [Neg K] (a : Vec3 K) : (-a).x = -a.x := rfl
@[simp] theorem neg_y [Neg K] (a : Vec3 K) : (-a).y = -a.y := rfl
@[simp] theorem neg_z [Neg K] (a : Vec3 K) : (-a).z = -a.z := rfl
@[simp] theorem smul_x [Mul K] (s : K) (a : Vec3 K) : (s • a).x = s * a.x := rfl
@[simp] theorem smul_y [Mul K] (s : K) (a : Vec3 K) : (s • a).y = s * a.y := rfl
@[simp] theorem smul_z [Mul K] (s : K) (a : Vec3 K) : (s • a).z = s * a.z := rfl
@[simp] theorem scale_x [Mul K] (a : Vec3 K) (s : K) : (a.scale s).x = a.x * s := rfl
@[simp] theorem scale_y [Mul K] (a : Vec3 K) (s : K) : (a.scale s).y = a.y * s := rfl
@[simp] theorem scale_z [Mul K] (a : Vec3 K) (s : K) : (a.scale s).z = a.z * s := rfl

end Vec3

namespace Vec4

variable {K : Type}

@[simp] theorem v4_add_x [Add K] (a b : Vec4 K) : (a + b).x = a.x + b.x := rfl
@[simp] theorem v4_add_y [Add K] (a b : Vec4 K) : (a + b).y = a.y + b.y := rfl
@[simp] theorem v4_add_z [Add K] (a b : Vec4 K) : (a + b).z = a.z + b.z := rfl
@[simp] theorem v4_add_w [Add K] (a b : Vec4 K) : (a + b).w = a.w + b.w := rfl

end Vec4

/-! ## Orthonormal triples -/

section Orthonormal

variable {K : Type} [LinearOrderedField K]

/-- A square matrix whose columns are orthonormal has orthonormal rows
(`Eᵀ * E = 1` gives `E * Eᵀ = 1`), written out for the nine entries. -/
theorem gram_rows_of_gram_cols (a b c d e f g h i : K)
    (h00 : a * a + d * d + g * g = 1) (h11 : b * b + e * e + h * h = 1)
    (h22 : c * c + f * f + i * i = 1) (h01 : a * b + d * e + g * h = 0)
    (h02 : a * c + d * f + g * i = 0) (h12 : b * c + e * f + h * i = 0) :
    (a * a + b * b + c * c = 1 ∧ d * d + e * e + f * f = 1 ∧ g * g + h * h + i * i = 1) ∧
    (a * d + b * e + c * f = 0 ∧ a * g + b * h + c * i = 0 ∧ d * g + e * h + f * i = 0) := by
  let E : Matrix (Fin 3) (Fin 3) K := !![a, b, c; d, e, f; g, h, i]
  let Et : Matrix (Fin 3) (Fin 3) K := !![a, d, g; b, e, h; c, f, i]
  have h1 : Et * E = 1 := by
    ext i j
    fin_cases i <;> fin_cases j <;>
      simp [E, Et, Matrix.mul_apply, Fin.sum_univ_three, Matrix.one_apply] <;> linarith
  have h2 : E * Et = 1 := (Matrix.mul_eq_one_comm).mp h1
  have e00 := congrFun (congrFun h2 0) 0
  have e11 := congrFun (congrFun h2 1) 1
  have e22 := congrFun (congrFun h2 2) 2
  have e01 := congrFun (congrFun h2 0) 1
  have e02 := congrFun (congrFun h2 0) 2
  have e12 := congrFun (congrFun h2 1) 2
  simp [E, Et, Matrix.mul_apply, Fin.sum_univ_three] at e00 e11 e22 e01 e02 e12
  exact ⟨⟨e00, e11, e22⟩, e01, e02, e12⟩

/-- Completeness of an orthonormal triple: a vector is the sum of its
projections. -/
theorem orthonormal_expand (r u n v : Vec3 K)
    (hrr : Vec3.dot r r = 1) (huu : Vec3.dot u u = 1) (hnn : Vec3.dot n n = 1)
    (hru : Vec3.dot r u = 0) (hrn : Vec3.dot r n = 0) (hun : Vec3.dot u n = 0) :
    (Vec3.dot v n) • n + (Vec3.dot v r) • r + (Vec3.dot v u) • u = v := by
  simp only [Vec3.dot] at hrr huu hnn hru hrn hun
  obtain ⟨⟨d0, d1, d2⟩, o01, o02, o12⟩ :=
    gram_rows_of_gram_cols r.x u.x n.x r.y u.y n.y r.z u.z n.z hrr huu hnn hru hrn hun
  ext <;> simp only [Vec3.add_x, Vec3.add_y, Vec3.add_z, Vec3.smul_x, Vec3.smul_y,
    Vec3.smul_z, Vec3.dot]
  · linear_combination v.x * d0 + v.y * o01 + v.z * o02
  · linear_combination v.x * o01 + v.y * d1 + v.z * o12
  · linear_combination v.x * o02 + v.y * o12 + v.z * d2

/-- Dot products of combinations of an orthonormal triple. -/
theorem dot_combination (a b c : Vec3 K) (x y z x2 y2 z2 : K)
    (haa : Vec3.dot a a = 1) (hbb : Vec3.dot b b = 1) (hcc : Vec3.dot c c = 1)
    (hab : Vec3.dot a b = 0) (hac : Vec3.dot a c = 0) (hbc : Vec3.dot b c = 0) :
    Vec3.dot (x • a + y • b + z • c) (x2 • a + y2 • b + z2 • c) =
      x * x2 + y * y2 + z * z2 := by
  simp only [Vec3.dot, Vec3.add_x, Vec3.add_y, Vec3.add_z, Vec3.smul_x, Vec3.smul_y,
    Vec3.smul_z] at *
  linear_combination (x * x2) * haa + (y * y2) * hbb + (z * z2) * hcc +
    (x * y2 + y * x2) * hab + (x * z2 + z * x2) * hac + (y * z2 + z * y2) * hbc

end Orthonormal

/-! ## Square roots and normalisation -/

section Normalize

variable {K : Type} [LinearOrderedField K]

theorem Libm.Exact.sqrt_pos {M : Libm K} (hM : M.Exact) {x : K} (hx : 0 < x) :
    0 < M.sqrt x := by
  have h0 := hM.sqrt_nonneg x hx.le
  have h1 := hM.sqrt_mul_self x hx.le
  rcases h0.lt_or_eq with h | h
  · exact h
  · rw [← h] at h1
    simp at h1
    exact absurd h1 hx.ne

theorem Libm.Exact.sqrt_one {M : Libm K} (hM : M.Exact) : M.sqrt 1 = 1 := by
  have h0 := hM.sqrt_pos zero_lt_one
  have h1 := hM.sqrt_mul_self 1 zero_le_one
  have h2 : (M.sqrt 1 - 1) * (M.sqrt 1 + 1) = 0 := by linear_combination h1
  rcases mul_eq_zero.mp h2 with h | h
  · linarith
  · linarith

theorem Libm.Exact.sqrt_zero {M : Libm K} (hM : M.Exact) : M.sqrt 0 = 0 := by
  have h1 := hM.sqrt_mul_self 0 le_rfl
  exact mul_self_eq_zero.mp h1

/-- The laws of `Libm.Exact` hold for the real square root, cosine and sine. -/
theorem real_libm_exact (as : ℝ → ℝ) (at2 : ℝ → ℝ → ℝ) :
    (Libm.mk Real.sqrt Real.cos Real.sin as at2).Exact where
  sqrt_nonneg := fun x _ => Real.sqrt_nonneg x
  sqrt_mul_self := fun _ hx => Real.mul_self_sqrt hx
  cos_sq_add_sin_sq := fun a => by
    have h := Real.cos_sq_add_sin_sq a
    linear_combination h

theorem dot_self_nonneg (v : Vec3 K) : 0 ≤ Vec3.dot v v := by
  unfold Vec3.dot
  nlinarith [mul_self_nonneg v.x, mul_self_nonneg v.y, mul_self_nonneg v.z]

theorem dot_self_pos {v : Vec3 K} (hv : v ≠ 0) : 0 < Vec3.dot v v := by
  rcases (dot_self_nonneg v).lt_or_eq with h | h
  · exact h
  · exfalso
    apply hv
    unfold Vec3.dot at h
    have hx : v.x = 0 := by
      nlinarith [mul_self_nonneg v.x, mul_self_nonneg v.y, mul_self_nonneg v.z]
    have hy : v.y = 0 := by
      nlinarith [mul_self_nonneg v.x, mul_self_nonneg v.y, mul_self_nonneg v.z]
    have hz : v.z = 0 := by
      nlinarith [mul_self_nonneg v.x, mul_self_nonneg v.y, mul_self_nonneg v.z]
    ext <;> simp [hx, hy, hz]

theorem dot_comm (a b : Vec3 K) : Vec3.dot a b = Vec3.dot b a := by
  unfold Vec3.dot; ring

theorem dot_scale_left (v w : Vec3 K) (k : K) :
    Vec3.dot (v.scale k) w = k * Vec3.dot v w := by
  simp only [Vec3.dot, Vec3.scale_x, Vec3.scale_y, Vec3.scale_z]; ring

theorem dot_scale_right (v w : Vec3 K) (k : K) :
    Vec3.dot v (w.scale k) = k * Vec3.dot v w := by
  simp only [Vec3.dot, Vec3.scale_x, Vec3.scale_y, Vec3.scale_z]; ring

theorem dot_cross_self_left (a b : Vec3 K) : Vec3.dot (Vec3.cross a b) a = 0 := by
  simp only [Vec3.dot, Vec3.cross]; ring

theorem dot_cross_self_right (a b : Vec3 K) : Vec3.dot (Vec3.cross a b) b = 0 := by
  simp only [Vec3.dot, Vec3.cross]; ring

/-- Lagrange's identity for the cross product. -/
theorem dot_cross_cross (a b : Vec3 K) :
    Vec3.dot (Vec3.cross a b) (Vec3.cross a b) =
      Vec3.dot a a * Vec3.dot b b - Vec3.dot a b * Vec3.dot a b := by
  simp only [Vec3.dot, Vec3.cross]; ring

theorem cross_scale_scale (a b : Vec3 K) (s t : K) :
    Vec3.cross (a.scale s) (b.scale t) = (Vec3.cross a b).scale (s * t) := by
  ext <;> simp only [Vec3.cross, Vec3.scale_x, Vec3.scale_y, Vec3.scale_z] <;> ring

theorem dot_normalize_left (M : Libm K) (v w : Vec3 K) :
    Vec3.dot (glm.normalize M v) w = glm.inversesqrt M (Vec3.dot v v) * Vec3.dot v w := by
  rw [glm.normalize, dot_scale_left]

/-- A normalised vector of positive squared length has unit length. -/
theorem normalize_dot_self {M : Libm K} (hM : M.Exact) {v : Vec3 K}
    (hv : 0 < Vec3.dot v v) :
    Vec3.dot (glm.normalize M v) (glm.normalize M v) = 1 := by
  have hs := hM.sqrt_pos hv
  have hsq := hM.sqrt_mul_self _ hv.le
  rw [glm.normalize, dot_scale_left, dot_scale_right, glm.inversesqrt]
  field_simp
  linear_combination -hsq

/-- Normalising a unit vector returns it. -/
theorem normalize_of_unit {M : Libm K} (hM : M.Exact) {v : Vec3 K}
    (hv : Vec3.dot v v = 1) : glm.normalize M v = v := by
  rw [glm.normalize, glm.inversesqrt, hv, hM.sqrt_one]
  ext <;> simp

end Normalize

/-! ## Matrices with orthonormal columns -/

section Rotation

variable {K : Type} [LinearOrderedField K]

theorem mulVec_mul (a b : Mat3 K) (v : Vec3 K) :
    (Mat3.mul a b).mulVec v = a.mulVec (b.mulVec v) := by
  ext <;> simp only [Mat3.mul, Mat3.mulVec] <;> ring

/-- A matrix with orthonormal columns preserves dot products. -/
theorem mulVec_dot (m : Mat3 K) (hm : m.ColsOrthonormal) (v w : Vec3 K) :
    Vec3.dot (m.mulVec v) (m.mulVec w) = Vec3.dot v w := by
  obtain ⟨h00, h11, h22, h01, h02, h12⟩ := hm
  simp only [Vec3.dot, Mat3.mulVec] at *
  linear_combination (v.x * w.x) * h00 + (v.y * w.y) * h11 + (v.z * w.z) * h22 +
    (v.x * w.y + v.y * w.x) * h01 + (v.x * w.z + v.z * w.x) * h02 +
    (v.y * w.z + v.z * w.y) * h12

/-- Applying a `mat4` to a direction `vec4(v, 0)` and dropping `w` is the upper
3x3 block applied to `v`. -/
theorem mat4_mulVec_direction (m : Mat4 K) (v : Vec3 K) :
    (m.mulVec (Vec4.ofVec3 v 0)).xyz = m.upper.mulVec v := by
  ext <;> simp [Mat4.mulVec, Mat4.upper, Vec4.xyz, Vec4.ofVec3, Vec4.scale, Mat3.mulVec]

/-- `glm::rotate` about the X axis multiplies the upper block by `rotX`. -/
theorem rotate_x_upper {M : Libm K} (hM : M.Exact) (m : Mat4 K) (a : K) :
    (glm.rotate M m a ⟨1, 0, 0⟩).upper = Mat3.mul m.upper (Mat3.rotX (M.cos a) (M.sin a)) := by
  have hax : glm.normalize M (⟨1, 0, 0⟩ : Vec3 K) = ⟨1, 0, 0⟩ :=
    normalize_of_unit hM (by simp [Vec3.dot])
  simp only [glm.rotate, hax, Mat4.upper, Mat3.mul, Mat3.rotX, Vec4.xyz, Vec4.scale,
    Vec4.v4_add_x, Vec4.v4_add_y, Vec4.v4_add_z, Vec3.smul_x, Vec3.smul_y, Vec3.smul_z]
  ext <;> simp only [] <;> ring

/-- `glm::rotate` about the Y axis multiplies the upper block by `rotY`. -/
theorem rotate_y_upper {M : Libm K} (hM : M.Exact) (m : Mat4 K) (a : K) :
    (glm.rotate M m a ⟨0, 1, 0⟩).upper = Mat3.mul m.upper (Mat3.rotY (M.cos a) (M.sin a)) := by
  have hax : glm.normalize M (⟨0, 1, 0⟩ : Vec3 K) = ⟨0, 1, 0⟩ :=
    normalize_of_unit hM (by simp [Vec3.dot])
  simp only [glm.rotate, hax, Mat4.upper, Mat3.mul, Mat3.rotY, Vec4.xyz, Vec4.scale,
    Vec4.v4_add_x, Vec4.v4_add_y, Vec4.v4_add_z, Vec3.smul_x, Vec3.smul_y, Vec3.smul_z]
  ext <;> simp only [] <;> ring

/-- `glm::rotate` about the Z axis multiplies the upper block by `rotZ`. -/
theorem rotate_z_upper {M : Libm K} (hM : M.Exact) (m : Mat4 K) (a : K) :
    (glm.rotate M m a ⟨0, 0, 1⟩).upper = Mat3.mul m.upper (Mat3.rotZ (M.cos a) (M.sin a)) := by
  have hax : glm.normalize M (⟨0, 0, 1⟩ : Vec3 K) = ⟨0, 0, 1⟩ :=
    normalize_of_unit hM (by simp [Vec3.dot])
  simp only [glm.rotate, hax, Mat4.upper, Mat3.mul, Mat3.rotZ, Vec4.xyz, Vec4.scale,
    Vec4.v4_add_x, Vec4.v4_add_y, Vec4.v4_add_z, Vec3.smul_x, Vec3.smul_y, Vec3.smul_z]
  ext <;> simp only [] <;> ring

/-- The fixed rotation of `transformCamera` applied to a direction is
`Rx * (Ry * (Rz * v))`. -/
theorem additionalRot_apply {M : Libm K} (hM : M.Exact) (r : Vec3 K) (v : Vec3 K) :
    ((glm.rotate M (glm.rotate M (glm.rotate M Mat4.one r.x ⟨1, 0, 0⟩) r.y ⟨0, 1, 0⟩)
      r.z ⟨0, 0, 1⟩).mulVec (Vec4.ofVec3 v 0)).xyz =
    (Mat3.rotX (M.cos r.x) (M.sin r.x)).mulVec
      ((Mat3.rotY (M.cos r.y) (M.sin r.y)).mulVec
        ((Mat3.rotZ (M.cos r.z) (M.sin r.z)).mulVec v)) := by
  rw [mat4_mulVec_direction, rotate_z_upper hM, rotate_y_upper hM, rotate_x_upper hM,
    mulVec_mul, mulVec_mul, mulVec_mul]
  ext <;> simp [Mat4.one, Mat4.upper, Vec4.xyz, Mat3.mulVec]

theorem upper_one_cols : (Mat4.one : Mat4 K).upper.ColsOrthonormal := by
  simp [Mat4.one, Mat4.upper, Mat3.ColsOrthonormal, Vec4.xyz, Vec3.dot]

theorem rotate_x_cols {M : Libm K} (hM : M.Exact) (m : Mat4 K) (a : K)
    (hm : m.upper.ColsOrthonormal) :
    (glm.rotate M m a ⟨1, 0, 0⟩).upper.ColsOrthonormal := by
  have hax : glm.normalize M (⟨1, 0, 0⟩ : Vec3 K) = ⟨1, 0, 0⟩ :=
    normalize_of_unit hM (by simp [Vec3.dot])
  have hcs := hM.cos_sq_add_sin_sq a
  obtain ⟨h00, h11, h22, h01, h02, h12⟩ := hm
  simp only [glm.rotate, hax, Mat4.upper, Mat3.ColsOrthonormal, Vec4.xyz, Vec3.dot,
    Vec4.scale, Vec4.v4_add_x, Vec4.v4_add_y, Vec4.v4_add_z, Vec3.smul_x, Vec3.smul_y,
    Vec3.smul_z] at *
  generalize M.cos a = c at *
  generalize M.sin a = s at *
  refine ⟨?_, ?_, ?_, ?_, ?_, ?_⟩
  · linear_combination h00
  · linear_combination (c * c) * h11 + (2 * c * s) * h12 + (s * s) * h22 + hcs
  · linear_combination (s * s) * h11 - (2 * c * s) * h12 + (c * c) * h22 + hcs
  · linear_combination c * h01 + s * h02
  · linear_combination (-s) * h01 + c * h02
  · linear_combination (-(c * s)) * h11 + (c * c - s * s) * h12 + (c * s) * h22

theorem rotate_y_cols {M : Libm K} (hM : M.Exact) (m : Mat4 K) (a : K)
    (hm : m.upper.ColsOrthonormal) :
    (glm.rotate M m a ⟨0, 1, 0⟩).upper.ColsOrthonormal := by
  have hax : glm.normalize M (⟨0, 1, 0⟩ : Vec3 K) = ⟨0, 1, 0⟩ :=
    normalize_of_unit hM (by simp [Vec3.dot])
  have hcs := hM.cos_sq_add_sin_sq a
  obtain ⟨h00, h11, h22, h01, h02, h12⟩ := hm
  simp only [glm.rotate, hax, Mat4.upper, Mat3.ColsOrthonormal, Vec4.xyz, Vec3.dot,
    Vec4.scale, Vec4.v4_add_x, Vec4.v4_add_y, Vec4.v4_add_z, Vec3.smul_x, Vec3.smul_y,
    Vec3.smul_z] at *
  generalize M.cos a = c at *
  generalize M.sin a = s at *
  refine ⟨?_, ?_, ?_, ?_, ?_, ?_⟩
  · linear_combination (c * c) * h00 - (2 * c * s) * h02 + (s * s) * h22 + hcs
  · linear_combination h11
  · linear_combination (s * s) * h00 + (2 * c * s) * h02 + (c * c) * h22 + hcs
  · linear_combination c * h01 - s * h12
  · linear_combination (c * s) * h00 + (c * c - s * s) * h02 - (c * s) * h22
  · linear_combination s * h01 + c * h12

theorem rotate_z_cols {M : Libm K} (hM : M.Exact) (m : Mat4 K) (a : K)
    (hm : m.upper.ColsOrthonormal) :
    (glm.rotate M m a ⟨0, 0, 1⟩).upper.ColsOrthonormal := by
  have hax : glm.normalize M (⟨0, 0, 1⟩ : Vec3 K) = ⟨0, 0, 1⟩ :=
    normalize_of_unit hM (by simp [Vec3.dot])
  have hcs := hM.cos_sq_add_sin_sq a
  obtain ⟨h00, h11, h22, h01, h02, h12⟩ := hm
  simp only [glm.rotate, hax, Mat4.upper, Mat3.ColsOrthonormal, Vec4.xyz, Vec3.dot,
    Vec4.scale, Vec4.v4_add_x, Vec4.v4_add_y, Vec4.v4_add_z, Vec3.smul_x, Vec3.smul_y,
    Vec3.smul_z] at *
  generalize M.cos a = c at *
  generalize M.sin a = s at *
  refine ⟨?_, ?_, ?_, ?_, ?_, ?_⟩
  · linear_combination (c * c) * h00 + (2 * c * s) * h01 + (s * s) * h11 + hcs
  · linear_combination (s * s) * h00 - (2 * c * s) * h01 + (c * c) * h11 + hcs
  · linear_combination h22
  · linear_combination (-(c * s)) * h00 + (c * c - s * s) * h01 + (c * s) * h11
  · linear_combination c * h02 + s * h12
  · linear_combination (-s) * h02 + c * h12

end Rotation

/-! ## Theorems -/

section PointTransform

variable {K : Type} [LinearOrderedField K]

/-- C1: `Portal::transformPosition` agrees with the reference point transform:
it returns `p` when the destination is null, and otherwise
`exit.position + (-(s*d))*exit.normal + (s*r)*exit.right + (s*u)*exit.up`
with `s` the exit's `scaleEffect`. -/
theorem transformPosition_eq_spec (mem : Mem K) (entry : Portal K) (p : Vec3 K) :
    Portal.transformPosition mem entry p =
      Portal.transformPositionSpec entry (entry.destination.map mem) p := by
  unfold Portal.transformPosition Portal.transformPositionSpec
  cases h : entry.destination with
  | none => simp
  | some d =>
    ext <;> simp [Vec3.dot] <;> ring

/-- The mirror transform of `Portal::transformPosition` applied forth and back
between two orthonormal frames scales the offset from the first frame's origin
by the product of the two factors. -/
theorem mirror_round_trip (pa ra ua na pb rb ub nb p : Vec3 K) (sa sb : K)
    (hArr : Vec3.dot ra ra = 1) (hAuu : Vec3.dot ua ua = 1) (hAnn : Vec3.dot na na = 1)
    (hAru : Vec3.dot ra ua = 0) (hArn : Vec3.dot ra na = 0) (hAun : Vec3.dot ua na = 0)
    (hBrr : Vec3.dot rb rb = 1) (hBuu : Vec3.dot ub ub = 1) (hBnn : Vec3.dot nb nb = 1)
    (hBru : Vec3.dot rb ub = 0) (hBrn : Vec3.dot rb nb = 0) (hBun : Vec3.dot ub nb = 0)
    (q : Vec3 K)
    (hq : q = pb + ((-(Vec3.dot (p - pa) na * sb)) • nb + (Vec3.dot (p - pa) ra * sb) • rb +
      (Vec3.dot (p - pa) ua * sb) • ub)) :
    pa + ((-(Vec3.dot (q - pb) nb * sa)) • na + (Vec3.dot (q - pb) rb * sa) • ra +
      (Vec3.dot (q - pb) ub * sa) • ua) = pa + (sa * sb) • (p - pa) := by
  have hexp := orthonormal_expand ra ua na (p - pa) hArr hAuu hAnn hAru hArn hAun
  have hx := congrArg Vec3.x hexp
  have hy := congrArg Vec3.y hexp
  have hz := congrArg Vec3.z hexp
  subst hq
  simp only [Vec3.dot, Vec3.add_x, Vec3.add_y, Vec3.add_z, Vec3.smul_x, Vec3.smul_y,
    Vec3.smul_z, Vec3.sub_x, Vec3.sub_y, Vec3.sub_z] at *
  generalize hd : (p.x - pa.x) * na.x + (p.y - pa.y) * na.y + (p.z - pa.z) * na.z = d at *
  generalize hr : (p.x - pa.x) * ra.x + (p.y - pa.y) * ra.y + (p.z - pa.z) * ra.z = r at *
  generalize hu : (p.x - pa.x) * ua.x + (p.y - pa.y) * ua.y + (p.z - pa.z) * ua.z = u at *
  ext <;> simp only [Vec3.add_x, Vec3.add_y, Vec3.add_z, Vec3.smul_x, Vec3.smul_y,
    Vec3.smul_z, Vec3.sub_x, Vec3.sub_y, Vec3.sub_z]
  · linear_combination (sa * sb) * hx +
      sa * (-na.x) * (-(d * sb) * hBnn + (r * sb) * hBrn + (u * sb) * hBun) +
      sa * ra.x * (-(d * sb) * hBrn + (r * sb) * hBrr + (u * sb) * hBru) +
      sa * ua.x * (-(d * sb) * hBun + (r * sb) * hBru + (u * sb) * hBuu)
  · linear_combination (sa * sb) * hy +
      sa * (-na.y) * (-(d * sb) * hBnn + (r * sb) * hBrn + (u * sb) * hBun) +
      sa * ra.y * (-(d * sb) * hBrn + (r * sb) * hBrr + (u * sb) * hBru) +
      sa * ua.y * (-(d * sb) * hBun + (r * sb) * hBru + (u * sb) * hBuu)
  · linear_combination (sa * sb) * hz +
      sa * (-na.z) * (-(d * sb) * hBnn + (r * sb) * hBrn + (u * sb) * hBun) +
      sa * ra.z * (-(d * sb) * hBrn + (r * sb) * hBrr + (u * sb) * hBru) +
      sa * ua.z * (-(d * sb) * hBun + (r * sb) * hBru + (u * sb) * hBuu)

/-- C2: for portals `A`, `B` linked to each other with orthonormal bases, the
round trip of a point is `A.position + (sA * sB) * (p - A.position)`, and it
is the identity when `sA * sB = 1`. -/
theorem transformPosition_round_trip (mem : Mem K) (a b : Nat) (p : Vec3 K)
    (hab : (mem a).destination = some b) (hba : (mem b).destination = some a)
    (hA : (mem a).OrthonormalBasis) (hB : (mem b).OrthonormalBasis) :
    Portal.transformPosition mem (mem b) (Portal.transformPosition mem (mem a) p) =
        (mem a).position +
          ((mem a).scaleEffect * (mem b).scaleEffect) • (p - (mem a).position) ∧
      ((mem a).scaleEffect * (mem b).scaleEffect = 1 →
        Portal.transformPosition mem (mem b) (Portal.transformPosition mem (mem a) p) = p) := by
  obtain ⟨hArr, hAuu, hAnn, hAru, hArn, hAun⟩ := hA
  obtain ⟨hBrr, hBuu, hBnn, hBru, hBrn, hBun⟩ := hB
  have key : Portal.transformPosition mem (mem b) (Portal.transformPosition mem (mem a) p) =
      (mem a).position +
        ((mem a).scaleEffect * (mem b).scaleEffect) • (p - (mem a).position) := by
    simp only [Portal.transformPosition, hab, hba]
    exact mirror_round_trip _ _ _ _ _ _ _ _ p _ _ hArr hAuu hAnn hAru hArn hAun
      hBrr hBuu hBnn hBru hBrn hBun _ rfl
  refine ⟨key, fun h1 => ?_⟩
  rw [key, h1]
  ext <;> simp

/-- C2 at the concrete pair `Example.portalA`, `Example.portalB` (factors `2`
and `3`): the point `(7,2,3)` returns to `(5,1,0) + 6 * (2,1,3)`. -/
theorem transformPosition_round_trip_witness :
    ((Example.memAB ℚ 0).destination = some 1 ∧ (Example.memAB ℚ 1).destination = some 0 ∧
      (Example.memAB ℚ 0).OrthonormalBasis ∧ (Example.memAB ℚ 1).OrthonormalBasis) ∧
    Portal.transformPosition (Example.memAB ℚ) (Example.memAB ℚ 1)
        (Portal.transformPosition (Example.memAB ℚ) (Example.memAB ℚ 0) ⟨7, 2, 3⟩) =
      (⟨17, 7, 18⟩ : Vec3 ℚ) := by
  have h0 : (Example.memAB ℚ 0).destination = some 1 := rfl
  have h1 : (Example.memAB ℚ 1).destination = some 0 := rfl
  have hA : (Example.memAB ℚ 0).OrthonormalBasis := by
    simp [Example.memAB, Example.portalA, Portal.OrthonormalBasis, Vec3.dot]
  have hB : (Example.memAB ℚ 1).OrthonormalBasis := by
    simp [Example.memAB, Example.portalB, Portal.OrthonormalBasis, Vec3.dot]
  refine ⟨⟨h0, h1, hA, hB⟩, ?_⟩
  rw [(transformPosition_round_trip (Example.memAB ℚ) 0 1 ⟨7, 2, 3⟩ h0 h1 hA hB).1]
  ext <;> simp [Example.memAB, Example.portalA, Example.portalB] <;> norm_num

end PointTransform

section Crossing

variable {K : Type} [LinearOrderedField K]

/-- C4: `Portal::isCrossing` is true exactly when the movement has `dn < 0`, the
plane parameter `t = -dot(normal, prevPos - position) / dn` lies in `[0,1]`, and
the intersection point projects within `width/2 + radius` along `right` and
`height/2 + radius` along `up`; and the quotient is never formed with a zero
divisor (the checked run always returns a value, the same one). -/
theorem isCrossing_iff (self : Portal K) (prevPos newPos : Vec3 K) (radius : K) :
    (Portal.isCrossing self prevPos newPos radius = true ↔
      Vec3.dot self.normal (newPos - prevPos) < 0 ∧
      0 ≤ (-Vec3.dot self.normal (prevPos - self.position)) /
            Vec3.dot self.normal (newPos - prevPos) ∧
      (-Vec3.dot self.normal (prevPos - self.position)) /
            Vec3.dot self.normal (newPos - prevPos) ≤ 1 ∧
      |Vec3.dot
          ((prevPos + ((-Vec3.dot self.normal (prevPos - self.position)) /
            Vec3.dot self.normal (newPos - prevPos)) • (newPos - prevPos)) - self.position)
          self.right| ≤ self.width / 2 + radius ∧
      |Vec3.dot
          ((prevPos + ((-Vec3.dot self.normal (prevPos - self.position)) /
            Vec3.dot self.normal (newPos - prevPos)) • (newPos - prevPos)) - self.position)
          self.up| ≤ self.height / 2 + radius) ∧
    Portal.isCrossingChecked self prevPos newPos radius =
      some (Portal.isCrossing self prevPos newPos radius) := by
  constructor
  · unfold Portal.isCrossing
    by_cases hdn : Vec3.dot self.normal (newPos - prevPos) ≥ 0
    · simp only [hdn, if_true]
      constructor
      · intro h; exact absurd h (by simp)
      · rintro ⟨h, -⟩; exact absurd hdn (not_le.mpr h)
    · simp only [hdn, if_false]
      by_cases ht : (-Vec3.dot self.normal (prevPos - self.position)) /
          Vec3.dot self.normal (newPos - prevPos) < 0 ∨
          (-Vec3.dot self.normal (prevPos - self.position)) /
          Vec3.dot self.normal (newPos - prevPos) > 1
      · simp only [ht, if_true]
        constructor
        · intro h; exact absurd h (by simp)
        · rintro ⟨-, h0, h1, -⟩
          rcases ht with ht | ht
          · exact absurd h0 (not_le.mpr ht)
          · exact absurd h1 (not_le.mpr ht)
      · simp only [ht, if_false, Bool.and_eq_true, decide_eq_true_eq]
        push_neg at ht hdn
        constructor
        · rintro ⟨hr, hu⟩; exact ⟨hdn, ht.1, ht.2, hr, hu⟩
        · rintro ⟨-, -, -, hr, hu⟩; exact ⟨hr, hu⟩
  · unfold Portal.isCrossingChecked Portal.isCrossing Portal.checkedDiv
    by_cases hdn : Vec3.dot self.normal (newPos - prevPos) ≥ 0
    · simp only [hdn, if_true]
    · have hne : Vec3.dot self.normal (newPos - prevPos) ≠ 0 := by
        intro h0; exact hdn (le_of_eq h0.symm)
      simp only [hdn, if_false, hne]
      split <;> rfl

/-- C5: when `prevPos` is strictly behind the surface, `isCrossing` is false. -/
theorem isCrossing_back_face (self : Portal K) (prevPos newPos : Vec3 K) (radius : K)
    (hback : Vec3.dot self.normal (prevPos - self.position) < 0) :
    Portal.isCrossing self prevPos newPos radius = false := by
  unfold Portal.isCrossing
  by_cases hdn : Vec3.dot self.normal (newPos - prevPos) ≥ 0
  · simp only [hdn, if_true]
  · simp only [hdn, if_false]
    push_neg at hdn
    have ht : (-Vec3.dot self.normal (prevPos - self.position)) /
        Vec3.dot self.normal (newPos - prevPos) < 0 :=
      div_neg_of_pos_of_neg (by linarith) hdn
    simp only [ht, true_or, if_true]

/-- C5 at `Example.unitSurface`: starting at `(-1,0,0)`, behind the surface, a
step to `(-3,0,0)` is no crossing. -/
theorem isCrossing_back_face_witness :
    Vec3.dot (Example.unitSurface ℚ).normal
        ((⟨-1, 0, 0⟩ : Vec3 ℚ) - (Example.unitSurface ℚ).position) < 0 ∧
    Portal.isCrossing (Example.unitSurface ℚ) ⟨-1, 0, 0⟩ ⟨-3, 0, 0⟩ (1 / 2) = false := by
  have h : Vec3.dot (Example.unitSurface ℚ).normal
      ((⟨-1, 0, 0⟩ : Vec3 ℚ) - (Example.unitSurface ℚ).position) < 0 := by
    simp [Example.unitSurface, Vec3.dot]
  exact ⟨h,
    isCrossing_back_face (Example.unitSurface ℚ) ⟨-1, 0, 0⟩ ⟨-3, 0, 0⟩ (1 / 2) h⟩

/-- C6 fails as stated: on `Example.unitSurface` the step from `(-1,0,0)` to
`(1,0,0)` with radius `0.5` is not reported as a crossing. -/
theorem isCrossing_forward_case_refuted :
    ¬ (Portal.isCrossing (Example.unitSurface ℚ) ⟨-1, 0, 0⟩ ⟨1, 0, 0⟩ (1 / 2) =
      true) := by
  simp [Portal.isCrossing, Example.unitSurface, Vec3.dot]

/-- C6 amended: for a surface at the origin with normal `(1,0,0)`, width `2`,
height `2` and any up and right vectors, `isCrossing((-1,0,0), (1,0,0), 0.5)` is
false: the step runs along the normal (`dn = 2 >= 0`). -/
theorem isCrossing_along_normal_false (up right rotation : Vec3 K) (dest : Option Nat)
    (scale : K) :
    Portal.isCrossing
      (⟨⟨0, 0, 0⟩, ⟨1, 0, 0⟩, up, 2, 2, dest, scale, rotation, right⟩ : Portal K)
      ⟨-1, 0, 0⟩ ⟨1, 0, 0⟩ (1 / 2) = false := by
  simp [Portal.isCrossing, Vec3.dot]

/-- C7 fails as stated: on `Example.unitSurface` the step from `(1,0,0)` to
`(-1,0,0)` with radius `0.5` is reported as a crossing. -/
theorem isCrossing_reverse_case_refuted :
    ¬ (Portal.isCrossing (Example.unitSurface ℚ) ⟨1, 0, 0⟩ ⟨-1, 0, 0⟩ (1 / 2) =
      false) := by
  simp [Portal.isCrossing, Example.unitSurface, Vec3.dot]
  norm_num

/-- C7 amended: for a surface at the origin with normal `(1,0,0)`, width `2`,
height `2` and any up and right vectors, `isCrossing((1,0,0), (-1,0,0), 0.5)` is
true: the step runs against the normal and meets the plane at the centre. -/
theorem isCrossing_against_normal_true (up right rotation : Vec3 K) (dest : Option Nat)
    (scale : K) :
    Portal.isCrossing
      (⟨⟨0, 0, 0⟩, ⟨1, 0, 0⟩, up, 2, 2, dest, scale, rotation, right⟩ : Portal K)
      ⟨1, 0, 0⟩ ⟨-1, 0, 0⟩ (1 / 2) = true := by
  simp [Portal.isCrossing, Vec3.dot]
  norm_num

end Crossing

section Construction

variable {K : Type} [LinearOrderedField K]

/-- C8: for constructor input whose normal and up vectors are non-zero and not
parallel, the stored `right`, `up`, `normal` are of unit length and pairwise
orthogonal (with exact square roots). -/
theorem ctor_orthonormal (M : Libm K) (hM : M.Exact) (pos norm upVec : Vec3 K)
    (w h scale : K) (rotation : Vec3 K)
    (hnorm : norm ≠ 0) (hup : upVec ≠ 0) (hpar : Vec3.cross upVec norm ≠ 0) :
    (Portal.ctor M pos norm upVec w h scale rotation).OrthonormalBasis := by
  have hn1 : Vec3.dot (glm.normalize M norm) (glm.normalize M norm) = 1 :=
    normalize_dot_self hM (dot_self_pos hnorm)
  have ha : 0 < glm.inversesqrt M (Vec3.dot norm norm) :=
    one_div_pos.mpr (hM.sqrt_pos (dot_self_pos hnorm))
  have hb : 0 < glm.inversesqrt M (Vec3.dot upVec upVec) :=
    one_div_pos.mpr (hM.sqrt_pos (dot_self_pos hup))
  have hc : 0 < Vec3.dot (Vec3.cross (glm.normalize M upVec) (glm.normalize M norm))
      (Vec3.cross (glm.normalize M upVec) (glm.normalize M norm)) := by
    rw [glm.normalize, glm.normalize, cross_scale_scale, dot_scale_left, dot_scale_right]
    have := dot_self_pos hpar
    positivity
  have hr1 := normalize_dot_self hM hc
  have hrn : Vec3.dot
      (glm.normalize M (Vec3.cross (glm.normalize M upVec) (glm.normalize M norm)))
      (glm.normalize M norm) = 0 := by
    rw [dot_normalize_left, dot_cross_self_right, mul_zero]
  have hw : Vec3.dot
      (Vec3.cross (glm.normalize M norm)
        (glm.normalize M (Vec3.cross (glm.normalize M upVec) (glm.normalize M norm))))
      (Vec3.cross (glm.normalize M norm)
        (glm.normalize M (Vec3.cross (glm.normalize M upVec) (glm.normalize M norm)))) = 1 := by
    rw [dot_cross_cross, hn1, hr1, dot_comm, hrn]; ring
  have hupeq := normalize_of_unit hM hw
  unfold Portal.OrthonormalBasis Portal.ctor
  simp only [hupeq]
  refine ⟨hr1, hw, hn1, ?_, hrn, ?_⟩
  · rw [dot_comm]; exact dot_cross_self_right _ _
  · exact dot_cross_self_left _ _

/-- C8 over the reals, for the input normal `(2,0,0)` and up `(0,3,0)`. -/
theorem ctor_orthonormal_witness :
    ((Libm.mk Real.sqrt Real.cos Real.sin Real.arcsin (fun y x => Complex.arg ⟨x, y⟩)).Exact ∧
      (⟨2, 0, 0⟩ : Vec3 ℝ) ≠ 0 ∧ (⟨0, 3, 0⟩ : Vec3 ℝ) ≠ 0 ∧
      Vec3.cross (⟨0, 3, 0⟩ : Vec3 ℝ) ⟨2, 0, 0⟩ ≠ 0) ∧
    (Portal.ctor
      (Libm.mk Real.sqrt Real.cos Real.sin Real.arcsin (fun y x => Complex.arg ⟨x, y⟩))
      ⟨5, 1, 0⟩ ⟨2, 0, 0⟩ ⟨0, 3, 0⟩ 2 4 1 ⟨0, 0, 0⟩).OrthonormalBasis := by
  have h1 : (⟨2, 0, 0⟩ : Vec3 ℝ) ≠ 0 := by
    intro h; have := congrArg Vec3.x h; simp at this
  have h2 : (⟨0, 3, 0⟩ : Vec3 ℝ) ≠ 0 := by
    intro h; have := congrArg Vec3.y h; simp at this
  have h3 : Vec3.cross (⟨0, 3, 0⟩ : Vec3 ℝ) ⟨2, 0, 0⟩ ≠ 0 := by
    intro h; have := congrArg Vec3.z h; simp [Vec3.cross] at this
  exact ⟨⟨real_libm_exact _ _, h1, h2, h3⟩,
    ctor_orthonormal _ (real_libm_exact _ _) _ _ _ _ _ _ _ h1 h2 h3⟩

/-- C10: a freshly constructed portal has no destination, and after
`Portal::linkPortals(a, b)` the portal at `a` points to `b` and the portal at
`b` points to `a`. -/
theorem linkPortals_post (M : Libm K) (pos norm upVec : Vec3 K) (w h scale : K)
    (rotation : Vec3 K) (mem : Mem K) (a b : Nat) :
    (Portal.ctor M pos norm upVec w h scale rotation).destination = none ∧
    (Portal.linkPortals mem a b a).destination = some b ∧
    (Portal.linkPortals mem a b b).destination = some a := by
  refine ⟨rfl, ?_, ?_⟩
  · unfold Portal.linkPortals Portal.linkTo
    by_cases hab : a = b
    · subst hab; simp
    · simp [Function.update, hab]
  · unfold Portal.linkPortals Portal.linkTo
    simp

end Construction

section PoseTransform

variable {K : Type} [LinearOrderedField K]

/-- Three vectors that are the images of an orthonormal triple under a map
preserving dot products stay orthonormal after `glm::normalize`. -/
theorem normalize_images_orthonormal {M : Libm K} (hM : M.Exact) (f : Vec3 K → Vec3 K)
    (hf : ∀ v w, Vec3.dot (f v) (f w) = Vec3.dot v w) (a b c : Vec3 K)
    (haa : Vec3.dot a a = 1) (hbb : Vec3.dot b b = 1) (hcc : Vec3.dot c c = 1)
    (hab : Vec3.dot a b = 0) (hac : Vec3.dot a c = 0) (hbc : Vec3.dot b c = 0) :
    glm.normalize M (f a) = f a ∧ glm.normalize M (f b) = f b ∧
    glm.normalize M (f c) = f c ∧
    Vec3.dot (f a) (f a) = 1 ∧ Vec3.dot (f b) (f b) = 1 ∧ Vec3.dot (f c) (f c) = 1 ∧
    Vec3.dot (f a) (f b) = 0 ∧ Vec3.dot (f a) (f c) = 0 ∧ Vec3.dot (f b) (f c) = 0 := by
  have h1 : Vec3.dot (f a) (f a) = 1 := by rw [hf, haa]
  have h2 : Vec3.dot (f b) (f b) = 1 := by rw [hf, hbb]
  have h3 : Vec3.dot (f c) (f c) = 1 := by rw [hf, hcc]
  refine ⟨normalize_of_unit hM h1, normalize_of_unit hM h2, normalize_of_unit hM h3,
    h1, h2, h3, ?_, ?_, ?_⟩
  · rw [hf, hab]
  · rw [hf, hac]
  · rw [hf, hbc]

/-- The basis-change matrix of `transformCamera` preserves dot products when
both portal bases are orthonormal. -/
theorem rotMat_dot (self dst : Portal K) (hs : self.OrthonormalBasis)
    (hd : dst.OrthonormalBasis) (v w : Vec3 K) :
    Vec3.dot
      ((Mat3.mul (Mat3.mk dst.right dst.up dst.normal)
        (Mat3.mk self.right self.up self.normal)).mulVec v)
      ((Mat3.mul (Mat3.mk dst.right dst.up dst.normal)
        (Mat3.mk self.right self.up self.normal)).mulVec w) = Vec3.dot v w := by
  have hd2 : (Mat3.mk dst.right dst.up dst.normal).ColsOrthonormal := hd
  have hs2 : (Mat3.mk self.right self.up self.normal).ColsOrthonormal := hs
  rw [mulVec_mul, mulVec_mul, mulVec_dot _ hd2, mulVec_dot _ hs2]

/-- The fixed rotation built from `rotationEffect` preserves dot products. -/
theorem additionalRot_dot {M : Libm K} (hM : M.Exact) (r : Vec3 K) (v w : Vec3 K) :
    Vec3.dot
      (((glm.rotate M (glm.rotate M (glm.rotate M Mat4.one r.x ⟨1, 0, 0⟩) r.y ⟨0, 1, 0⟩)
        r.z ⟨0, 0, 1⟩).mulVec (Vec4.ofVec3 v 0)).xyz)
      (((glm.rotate M (glm.rotate M (glm.rotate M Mat4.one r.x ⟨1, 0, 0⟩) r.y ⟨0, 1, 0⟩)
        r.z ⟨0, 0, 1⟩).mulVec (Vec4.ofVec3 w 0)).xyz) = Vec3.dot v w := by
  rw [mat4_mulVec_direction, mat4_mulVec_direction]
  exact mulVec_dot _
    (rotate_z_cols hM _ _ (rotate_y_cols hM _ _ (rotate_x_cols hM _ _ upper_one_cols))) v w

/-- C9: for a linked portal whose basis and whose destination's basis are
orthonormal, any `rotationEffect`, and a camera with orthonormal
`Front`/`Right`/`Up`, the camera after `transformCamera` again has unit,
pairwise orthogonal `Front`/`Right`/`Up`. -/
theorem transformCamera_orthonormal (M : Libm K) (hM : M.Exact) (mem : Mem K)
    (self : Portal K) (camera : Camera K) (d : Nat)
    (hlink : self.destination = some d)
    (hs : self.OrthonormalBasis) (hd : (mem d).OrthonormalBasis)
    (hc : camera.OrthonormalBasis) :
    (Portal.transformCamera M mem self camera).OrthonormalBasis := by
  obtain ⟨hff, hrr, huu, hfr, hfu, hru⟩ := hc
  simp only [Portal.transformCamera, hlink]
  split_ifs with hcond
  · obtain ⟨e1, e2, e3, h1, h2, h3, h12, h13, h23⟩ :=
      normalize_images_orthonormal hM
        (fun v =>
          (Mat3.mul (Mat3.mk (mem d).right (mem d).up (mem d).normal)
            (Mat3.mk self.right self.up self.normal)).mulVec
            (((glm.rotate M (glm.rotate M (glm.rotate M Mat4.one (mem d).rotationEffect.x
              ⟨1, 0, 0⟩) (mem d).rotationEffect.y ⟨0, 1, 0⟩)
              (mem d).rotationEffect.z ⟨0, 0, 1⟩).mulVec (Vec4.ofVec3 v 0)).xyz))
        (fun v w => by
          rw [rotMat_dot self (mem d) hs hd, additionalRot_dot hM])
        camera.Front camera.Right camera.Up hff hrr huu hfr hfu hru
    simp only [Camera.OrthonormalBasis] at *
    simp only [e1, e2, e3]
    exact ⟨h1, h2, h3, h12, h13, h23⟩
  · obtain ⟨e1, e2, e3, h1, h2, h3, h12, h13, h23⟩ :=
      normalize_images_orthonormal hM
        (fun v =>
          (Mat3.mul (Mat3.mk (mem d).right (mem d).up (mem d).normal)
            (Mat3.mk self.right self.up self.normal)).mulVec v)
        (fun v w => rotMat_dot self (mem d) hs hd v w)
        camera.Front camera.Right camera.Up hff hrr huu hfr hfu hru
    simp only [Camera.OrthonormalBasis] at *
    simp only [e1, e2, e3]
    exact ⟨h1, h2, h3, h12, h13, h23⟩

/-- C9 over the reals at `Example.portalA` (linked to `Example.portalR`, whose
rotation effect is not negligible) and `Example.camera`. -/
theorem transformCamera_orthonormal_witness :
    ((Libm.mk Real.sqrt Real.cos Real.sin Real.arcsin (fun y x => Complex.arg ⟨x, y⟩)).Exact ∧
      (Example.memAR ℝ 0).destination = some 1 ∧
      (Example.memAR ℝ 0).OrthonormalBasis ∧ (Example.memAR ℝ 1).OrthonormalBasis ∧
      (Example.camera ℝ).OrthonormalBasis) ∧
    (Portal.transformCamera
        (Libm.mk Real.sqrt Real.cos Real.sin Real.arcsin (fun y x => Complex.arg ⟨x, y⟩))
      (Example.memAR ℝ) (Example.memAR ℝ 0) (Example.camera ℝ)).OrthonormalBasis := by
  have h0 : (Example.memAR ℝ 0).destination = some 1 := rfl
  have hA : (Example.memAR ℝ 0).OrthonormalBasis := by
    simp [Example.memAR, Example.portalA, Portal.OrthonormalBasis, Vec3.dot]
  have hB : (Example.memAR ℝ 1).OrthonormalBasis := by
    simp [Example.memAR, Example.portalR, Portal.OrthonormalBasis, Vec3.dot]
  have hC : (Example.camera ℝ).OrthonormalBasis := by
    simp [Example.camera, Camera.OrthonormalBasis, Vec3.dot]
  exact ⟨⟨real_libm_exact _ _, h0, hA, hB, hC⟩,
    transformCamera_orthonormal _ (real_libm_exact _ _) _ _ _ 1 h0 hA hB hC⟩

/-- The position written by `transformCamera` is `transformPosition` of the
camera position. -/
theorem transformCamera_position_eq (M : Libm K) (mem : Mem K) (self : Portal K)
    (camera : Camera K) :
    (Portal.transformCamera M mem self camera).Position =
      Portal.transformPosition mem self camera.Position := by
  unfold Portal.transformCamera Portal.transformPosition
  cases self.destination with
  | none => rfl
  | some d =>
    simp only []
    split_ifs <;> rfl

/-- With a negligible `rotationEffect` at the destination, `transformCamera`
applies the basis-change matrix and `glm::normalize` to each orientation
vector. -/
theorem transformCamera_negligible (M : Libm K) (mem : Mem K) (self : Portal K)
    (camera : Camera K) (d : Nat) (hlink : self.destination = some d)
    (hrot : ¬ (glm.length M (mem d).rotationEffect > (0.0001 : K))) :
    (Portal.transformCamera M mem self camera).Front =
        glm.normalize M ((Mat3.mul (mem d).basis self.basis).mulVec camera.Front) ∧
    (Portal.transformCamera M mem self camera).Right =
        glm.normalize M ((Mat3.mul (mem d).basis self.basis).mulVec camera.Right) ∧
    (Portal.transformCamera M mem self camera).Up =
        glm.normalize M ((Mat3.mul (mem d).basis self.basis).mulVec camera.Up) := by
  simp [Portal.transformCamera, hlink, hrot, Portal.basis]

theorem one_mulVec (v : Vec3 K) : (Mat3.one : Mat3 K).mulVec v = v := by
  ext <;> simp [Mat3.one, Mat3.mulVec]

/-- Orientation of the camera after a round trip through two linked portals
with negligible rotation effects: the matrix
`(mat3(A) * mat3(B)) * (mat3(B) * mat3(A))` applied to the original vectors. -/
theorem round_trip_orientation (M : Libm K) (hM : M.Exact) (mem : Mem K) (a b : Nat)
    (camera : Camera K)
    (hab : (mem a).destination = some b) (hba : (mem b).destination = some a)
    (hA : (mem a).OrthonormalBasis) (hB : (mem b).OrthonormalBasis)
    (hrA : ¬ (glm.length M (mem a).rotationEffect > (0.0001 : K)))
    (hrB : ¬ (glm.length M (mem b).rotationEffect > (0.0001 : K)))
    (hc : camera.OrthonormalBasis) :
    (Portal.transformCamera M mem (mem b) (Portal.transformCamera M mem (mem a) camera)).Front =
      (Mat3.mul (Mat3.mul (mem a).basis (mem b).basis)
        (Mat3.mul (mem b).basis (mem a).basis)).mulVec camera.Front ∧
    (Portal.transformCamera M mem (mem b) (Portal.transformCamera M mem (mem a) camera)).Right =
      (Mat3.mul (Mat3.mul (mem a).basis (mem b).basis)
        (Mat3.mul (mem b).basis (mem a).basis)).mulVec camera.Right ∧
    (Portal.transformCamera M mem (mem b) (Portal.transformCamera M mem (mem a) camera)).Up =
      (Mat3.mul (Mat3.mul (mem a).basis (mem b).basis)
        (Mat3.mul (mem b).basis (mem a).basis)).mulVec camera.Up := by
  obtain ⟨hff, hrr, huu, hfr, hfu, hru⟩ := hc
  obtain ⟨f1, r1, u1⟩ := transformCamera_negligible M mem (mem a) camera b hab hrB
  obtain ⟨f2, r2, u2⟩ := transformCamera_negligible M mem (mem b)
    (Portal.transformCamera M mem (mem a) camera) a hba hrA
  obtain ⟨e1, e2, e3, -⟩ := normalize_images_orthonormal hM
    (fun v => (Mat3.mul (mem b).basis (mem a).basis).mulVec v)
    (fun v w => rotMat_dot (mem a) (mem b) hA hB v w)
    camera.Front camera.Right camera.Up hff hrr huu hfr hfu hru
  obtain ⟨g1, g2, g3, -⟩ := normalize_images_orthonormal hM
    (fun v => (Mat3.mul (Mat3.mul (mem a).basis (mem b).basis)
      (Mat3.mul (mem b).basis (mem a).basis)).mulVec v)
    (fun v w => by
      simp only [mulVec_mul (Mat3.mul (mem a).basis (mem b).basis)]
      rw [rotMat_dot (mem b) (mem a) hB hA, rotMat_dot (mem a) (mem b) hA hB])
    camera.Front camera.Right camera.Up hff hrr huu hfr hfu hru
  rw [f2, r2, u2, f1, r1, u1, e1, e2, e3, ← mulVec_mul, ← mulVec_mul, ← mulVec_mul,
    g1, g2, g3]
  exact ⟨rfl, rfl, rfl⟩

/-- With a non-negligible `rotationEffect` at the destination, `transformCamera`
applies the fixed rotation, then the basis-change matrix, then
`glm::normalize`, to each orientation vector. -/
theorem transformCamera_rotated (M : Libm K) (mem : Mem K) (self : Portal K)
    (camera : Camera K) (d : Nat) (hlink : self.destination = some d)
    (hrot : glm.length M (mem d).rotationEffect > (0.0001 : K)) :
    (Portal.transformCamera M mem self camera).Front =
      glm.normalize M ((Mat3.mul (mem d).basis self.basis).mulVec
        ((glm.rotate M (glm.rotate M (glm.rotate M Mat4.one (mem d).rotationEffect.x
          ⟨1, 0, 0⟩) (mem d).rotationEffect.y ⟨0, 1, 0⟩)
          (mem d).rotationEffect.z ⟨0, 0, 1⟩).mulVec (Vec4.ofVec3 camera.Front 0)).xyz) := by
  simp [Portal.transformCamera, hlink, hrot, Portal.basis]

/-- C3 fails as stated, over the reals, at three linked pairs with orthonormal
bases and the orthonormal `Example.camera`: (1) `Example.portalA`,
`Example.portalB` (factors `2`, `3`) do not restore `Position`;
(2) `Example.portalFront`, `Example.portalSide` (factor `1`, no rotation effect)
do not restore `Front`; (3) `Example.portalUnit`, `Example.portalTurn π`
(factor `1`, mutually inverse bases, rotation effect `π` about `x`) do not
restore `Front`. -/
theorem transformCamera_round_trip_refuted :
    (((Example.memAB ℝ 0).destination = some 1 ∧ (Example.memAB ℝ 1).destination = some 0 ∧
        (Example.memAB ℝ 0).OrthonormalBasis ∧ (Example.memAB ℝ 1).OrthonormalBasis ∧
        (Example.camera ℝ).OrthonormalBasis) ∧
      (Portal.transformCamera
          (Libm.mk Real.sqrt Real.cos Real.sin Real.arcsin (fun y x => Complex.arg ⟨x, y⟩))
          (Example.memAB ℝ) (Example.memAB ℝ 1)
        (Portal.transformCamera
            (Libm.mk Real.sqrt Real.cos Real.sin Real.arcsin (fun y x => Complex.arg ⟨x, y⟩))
            (Example.memAB ℝ) (Example.memAB ℝ 0)
          (Example.camera ℝ))).Position ≠ (Example.camera ℝ).Position) ∧
    (((Example.memFS ℝ 0).destination = some 1 ∧ (Example.memFS ℝ 1).destination = some 0 ∧
        (Example.memFS ℝ 0).OrthonormalBasis ∧ (Example.memFS ℝ 1).OrthonormalBasis ∧
        (Example.camera ℝ).OrthonormalBasis) ∧
      (Portal.transformCamera
          (Libm.mk Real.sqrt Real.cos Real.sin Real.arcsin (fun y x => Complex.arg ⟨x, y⟩))
          (Example.memFS ℝ) (Example.memFS ℝ 1)
        (Portal.transformCamera
            (Libm.mk Real.sqrt Real.cos Real.sin Real.arcsin (fun y x => Complex.arg ⟨x, y⟩))
            (Example.memFS ℝ) (Example.memFS ℝ 0)
          (Example.camera ℝ))).Front ≠ (Example.camera ℝ).Front) ∧
    (((Example.memUT ℝ Real.pi 0).destination = some 1 ∧
        (Example.memUT ℝ Real.pi 1).destination = some 0 ∧
        (Example.memUT ℝ Real.pi 0).OrthonormalBasis ∧
        (Example.memUT ℝ Real.pi 1).OrthonormalBasis ∧
        (Example.camera ℝ).OrthonormalBasis) ∧
      (Portal.transformCamera
          (Libm.mk Real.sqrt Real.cos Real.sin Real.arcsin (fun y x => Complex.arg ⟨x, y⟩))
          (Example.memUT ℝ Real.pi) (Example.memUT ℝ Real.pi 1)
        (Portal.transformCamera
            (Libm.mk Real.sqrt Real.cos Real.sin Real.arcsin (fun y x => Complex.arg ⟨x, y⟩))
            (Example.memUT ℝ Real.pi) (Example.memUT ℝ Real.pi 0)
          (Example.camera ℝ))).Front ≠ (Example.camera ℝ).Front) := by
  have hC : (Example.camera ℝ).OrthonormalBasis := by
    simp [Example.camera, Camera.OrthonormalBasis, Vec3.dot]
  refine ⟨⟨⟨rfl, rfl, ?_, ?_, hC⟩, ?_⟩, ⟨⟨rfl, rfl, ?_, ?_, hC⟩, ?_⟩,
    ⟨⟨rfl, rfl, ?_, ?_, hC⟩, ?_⟩⟩
  · simp [Example.memAB, Example.portalA, Portal.OrthonormalBasis, Vec3.dot]
  · simp [Example.memAB, Example.portalB, Portal.OrthonormalBasis, Vec3.dot]
  · rw [transformCamera_position_eq, transformCamera_position_eq]
    intro h
    have hx := congrArg Vec3.x h
    simp [Portal.transformPosition, Example.memAB, Example.portalA, Example.portalB,
      Example.camera, Vec3.dot] at hx
    norm_num at hx
  · simp [Example.memFS, Example.portalFront, Portal.OrthonormalBasis, Vec3.dot]
  · simp [Example.memFS, Example.portalSide, Portal.OrthonormalBasis, Vec3.dot]
  · have hA : (Example.memFS ℝ 0).OrthonormalBasis := by
      simp [Example.memFS, Example.portalFront, Portal.OrthonormalBasis, Vec3.dot]
    have hB : (Example.memFS ℝ 1).OrthonormalBasis := by
      simp [Example.memFS, Example.portalSide, Portal.OrthonormalBasis, Vec3.dot]
    have hrA : ¬ (glm.length
        (Libm.mk Real.sqrt Real.cos Real.sin Real.arcsin (fun y x => Complex.arg ⟨x, y⟩))
        (Example.memFS ℝ 0).rotationEffect > (0.0001 : ℝ)) := by
      simp [Example.memFS, Example.portalFront, glm.length, Vec3.dot]
      norm_num
    norm_num
    have hrB : ¬ (glm.length
        (Libm.mk Real.sqrt Real.cos Real.sin Real.arcsin (fun y x => Complex.arg ⟨x, y⟩))
        (Example.memFS ℝ 1).rotationEffect > (0.0001 : ℝ)) := by
      simp [Example.memFS, Example.portalSide, glm.length, Vec3.dot]
      norm_num
    norm_num
    rw [(round_trip_orientation _ (real_libm_exact _ _) _ 0 1 _ rfl rfl hA hB hrA hrB hC).1]
    intro h
    have hz := congrArg Vec3.z h
    simp [Example.memFS, Example.portalFront, Example.portalSide, Example.camera,
      Mat3.mul, Mat3.mulVec] at hz
    norm_num at hz
  · simp [Example.memUT, Example.portalUnit, Portal.OrthonormalBasis, Vec3.dot]
  · simp [Example.memUT, Example.portalTurn, Portal.OrthonormalBasis, Vec3.dot]
  · have hrT : glm.length
      (Libm.mk Real.sqrt Real.cos Real.sin Real.arcsin (fun y x => Complex.arg ⟨x, y⟩))
      (Example.memUT ℝ Real.pi 1).rotationEffect > (0.0001 : ℝ) := by
      simp only [Example.memUT, Example.portalTurn, glm.length, Vec3.dot]
      norm_num
      rw [Real.sqrt_mul_self Real.pi_pos.le]
      linarith [Real.pi_gt_three]
    have hrU : ¬ (glm.length
        (Libm.mk Real.sqrt Real.cos Real.sin Real.arcsin (fun y x => Complex.arg ⟨x, y⟩))
        (Example.memUT ℝ Real.pi 0).rotationEffect > (0.0001 : ℝ)) := by
      simp [Example.memUT, Example.portalUnit, glm.length, Vec3.dot]
      norm_num
    have l0 : (Example.memUT ℝ Real.pi 0).destination = some 1 := rfl
    have l1 : (Example.memUT ℝ Real.pi 1).destination = some 0 := rfl
    have e2 := (transformCamera_negligible
        (Libm.mk Real.sqrt Real.cos Real.sin Real.arcsin (fun y x => Complex.arg ⟨x, y⟩))
        (Example.memUT ℝ Real.pi)
      (Example.memUT ℝ Real.pi 1)
      (Portal.transformCamera
          (Libm.mk Real.sqrt Real.cos Real.sin Real.arcsin (fun y x => Complex.arg ⟨x, y⟩))
          (Example.memUT ℝ Real.pi) (Example.memUT ℝ Real.pi 0)
        (Example.camera ℝ)) 0 l1 hrU).1
    have e1 := transformCamera_rotated
        (Libm.mk Real.sqrt Real.cos Real.sin Real.arcsin (fun y x => Complex.arg ⟨x, y⟩))
        (Example.memUT ℝ Real.pi)
      (Example.memUT ℝ Real.pi 0) (Example.camera ℝ) 1 l0 hrT
    have r1 := additionalRot_apply (real_libm_exact Real.arcsin (fun y x => Complex.arg ⟨x, y⟩))
      (Example.memUT ℝ Real.pi 1).rotationEffect (Example.camera ℝ).Front
    have r2 : (Mat3.rotX (Real.cos (Example.memUT ℝ Real.pi 1).rotationEffect.x)
          (Real.sin (Example.memUT ℝ Real.pi 1).rotationEffect.x)).mulVec
        ((Mat3.rotY (Real.cos (Example.memUT ℝ Real.pi 1).rotationEffect.y)
          (Real.sin (Example.memUT ℝ Real.pi 1).rotationEffect.y)).mulVec
          ((Mat3.rotZ (Real.cos (Example.memUT ℝ Real.pi 1).rotationEffect.z)
            (Real.sin (Example.memUT ℝ Real.pi 1).rotationEffect.z)).mulVec
            (Example.camera ℝ).Front)) = ⟨0, 0, 1⟩ := by
      ext <;> simp [Example.memUT, Example.portalTurn, Example.camera, Mat3.rotX, Mat3.rotY,
        Mat3.rotZ, Mat3.mulVec]
    have r3 : (Mat3.mul (Example.memUT ℝ Real.pi 1).basis
        (Example.memUT ℝ Real.pi 0).basis).mulVec ⟨0, 0, 1⟩ = ⟨0, 0, 1⟩ := by
      ext <;> simp [Example.memUT, Example.portalUnit, Example.portalTurn, Mat3.mul,
        Mat3.mulVec]
    have r4 : (Mat3.mul (Example.memUT ℝ Real.pi 0).basis
        (Example.memUT ℝ Real.pi 1).basis).mulVec ⟨0, 0, 1⟩ = ⟨0, 0, 1⟩ := by
      ext <;> simp [Example.memUT, Example.portalUnit, Example.portalTurn, Mat3.mul,
        Mat3.mulVec]
    have r5 : glm.normalize
        (Libm.mk Real.sqrt Real.cos Real.sin Real.arcsin (fun y x => Complex.arg ⟨x, y⟩))
        (⟨0, 0, 1⟩ : Vec3 ℝ) = ⟨0, 0, 1⟩ :=
      normalize_of_unit (real_libm_exact _ _) (by simp [Vec3.dot])
    have k1 : (Portal.transformCamera
        (Libm.mk Real.sqrt Real.cos Real.sin Real.arcsin (fun y x => Complex.arg ⟨x, y⟩))
        (Example.memUT ℝ Real.pi)
        (Example.memUT ℝ Real.pi 0) (Example.camera ℝ)).Front = ⟨0, 0, 1⟩ :=
      e1.trans ((congrArg (fun v => glm.normalize
          (Libm.mk Real.sqrt Real.cos Real.sin Real.arcsin (fun y x => Complex.arg ⟨x, y⟩))
        ((Mat3.mul (Example.memUT ℝ Real.pi 1).basis
          (Example.memUT ℝ Real.pi 0).basis).mulVec v)) (r1.trans r2)).trans
        ((congrArg (glm.normalize
              (Libm.mk Real.sqrt Real.cos Real.sin Real.arcsin (fun y x => Complex.arg ⟨x, y⟩)))
                r3).trans r5))
    have k2 := e2.trans ((congrArg (fun v => glm.normalize
        (Libm.mk Real.sqrt Real.cos Real.sin Real.arcsin (fun y x => Complex.arg ⟨x, y⟩))
        ((Mat3.mul (Example.memUT ℝ Real.pi 0).basis
          (Example.memUT ℝ Real.pi 1).basis).mulVec v)) k1).trans
        ((congrArg (glm.normalize
              (Libm.mk Real.sqrt Real.cos Real.sin Real.arcsin (fun y x => Complex.arg ⟨x, y⟩)))
                r4).trans r5))
    intro h
    have hz := congrArg Vec3.z (k2.symm.trans h)
    simp [Example.camera] at hz
    norm_num at hz

end PoseTransform

section Linking

variable {K : Type}

/-- The `destination` of every portal after `Portal::linkPortals(a, b)`. -/
theorem linkPortals_destination (mem : Mem K) (a b x : Nat) :
    (Portal.linkPortals mem a b x).destination =
      if x = b then some a else if x = a then some b else (mem x).destination := by
  unfold Portal.linkPortals Portal.linkTo
  by_cases hxb : x = b
  · subst hxb; simp
  · by_cases hxa : x = a
    · subst hxa; simp [Function.update, hxb]
    · simp [Function.update, hxb, hxa]

/-- The `destination` of every portal after `a->linkTo(dest)`. -/
theorem linkTo_destination (mem : Mem K) (a x : Nat) (dest : Option Nat) :
    (Portal.linkTo mem a dest x).destination =
      if x = a then dest else (mem x).destination := by
  unfold Portal.linkTo
  by_cases hxa : x = a
  · subst hxa; simp
  · simp [Function.update, hxa]

/-- One `linkPortals` call on a linkable pair keeps the link relation
symmetric. -/
theorem linkPortals_keeps_symmetry (mem : Mem K) (a b : Nat)
    (hsym : Portal.LinkSymmetric mem) (hl : Portal.Linkable mem a b) :
    Portal.LinkSymmetric (Portal.linkPortals mem a b) := by
  intro x y hxy
  rw [linkPortals_destination] at hxy ⊢
  by_cases hxb : x = b
  · rw [if_pos hxb] at hxy
    have hya : y = a := (Option.some.inj hxy).symm
    subst hya
    by_cases hyb : y = b
    · rw [if_pos hyb, hxb, hyb]
    · rw [if_neg hyb, if_pos rfl, hxb]
  · rw [if_neg hxb] at hxy
    by_cases hxa : x = a
    · rw [if_pos hxa] at hxy
      have hyb : y = b := (Option.some.inj hxy).symm
      rw [if_pos hyb, hxa]
    · rw [if_neg hxa] at hxy
      have hyx := hsym x y hxy
      have hyb : y ≠ b := by
        intro h
        rw [h] at hyx
        rcases hl.2 with h0 | h1
        · rw [h0] at hyx; exact Option.noConfusion hyx
        · rw [h1] at hyx; exact hxa (Option.some.inj hyx).symm
      have hya : y ≠ a := by
        intro h
        rw [h] at hyx
        rcases hl.1 with h0 | h1
        · rw [h0] at hyx; exact Option.noConfusion hyx
        · rw [h1] at hyx; exact hxb (Option.some.inj hyx).symm
      rw [if_neg hyb, if_neg hya]
      exact hyx

/-- A symmetric link relation stays symmetric along a sequence of `linkPortals`
calls on linkable pairs. -/
theorem linkPairs_keeps_symmetry (pairs : List (Nat × Nat)) :
    ∀ mem : Mem K, Portal.LinkSymmetric mem → Portal.PairsLinkable mem pairs →
      Portal.LinkSymmetric (Portal.linkPairs mem pairs) := by
  induction pairs with
  | nil => intro mem hsym _; exact hsym
  | cons p rest ih =>
    intro mem hsym hl
    exact ih _ (linkPortals_keeps_symmetry mem p.1 p.2 hsym hl.1) hl.2

/-- C11 fails as stated: from the fresh memory `Example.memFresh`, the single
call `linkTo` of portal `0` to portal `1` leaves portal `1` unlinked, and
`linkPortals(0, 1)` followed by the relinking `linkPortals(0, 2)` leaves
portal `1` pointing to portal `0`, which points to portal `2`. -/
theorem link_symmetry_refuted :
    Portal.Fresh (Example.memFresh ℚ) ∧
    ¬ Portal.LinkSymmetric
        (Portal.applyLinkCalls (Example.memFresh ℚ) [LinkCall.linkTo 0 (some 1)]) ∧
    ¬ Portal.LinkSymmetric
        (Portal.applyLinkCalls (Example.memFresh ℚ)
          [LinkCall.linkPortals 0 1, LinkCall.linkPortals 0 2]) := by
  refine ⟨fun _ => rfl, ?_, ?_⟩
  · intro h
    have h01 := h 0 1 (by
      simp [Portal.applyLinkCalls, Portal.applyLinkCall, linkTo_destination])
    simp [Portal.applyLinkCalls, Portal.applyLinkCall, linkTo_destination,
      Example.memFresh, Example.unitSurface] at h01
  · intro h
    have h10 := h 1 0 (by
      simp [Portal.applyLinkCalls, Portal.applyLinkCall, linkPortals_destination])
    simp [Portal.applyLinkCalls, Portal.applyLinkCall, linkPortals_destination] at h10

/-- C11 amended: in every state reached from freshly constructed portals by a
sequence of `Portal::linkPortals(a, b)` calls, each made when `a` and `b` are
unlinked or already linked to each other, `A.destination = B` implies
`B.destination = A` for all portals. -/
theorem linkPairs_symmetric (mem : Mem K) (pairs : List (Nat × Nat))
    (hfresh : Portal.Fresh mem) (hl : Portal.PairsLinkable mem pairs) :
    Portal.LinkSymmetric (Portal.linkPairs mem pairs) := by
  apply linkPairs_keeps_symmetry pairs mem _ hl
  intro a b hab
  rw [hfresh a] at hab
  exact Option.noConfusion hab

/-- C11 amended at the linking sequence of `main`: portals `0`, `1` and then
portals `2`, `3` of a fresh memory. -/
theorem linkPairs_symmetric_witness :
    (Portal.Fresh (Example.memFresh ℚ) ∧
      Portal.PairsLinkable (Example.memFresh ℚ) [(0, 1), (2, 3)]) ∧
    Portal.LinkSymmetric (Portal.linkPairs (Example.memFresh ℚ) [(0, 1), (2, 3)]) := by
  have hf : Portal.Fresh (Example.memFresh ℚ) := fun _ => rfl
  have hl : Portal.PairsLinkable (Example.memFresh ℚ) [(0, 1), (2, 3)] := by
    refine ⟨⟨Or.inl rfl, Or.inl rfl⟩, ⟨?_, ?_⟩, trivial⟩
    · left; simp [linkPortals_destination, Example.memFresh, Example.unitSurface]
    · left; simp [linkPortals_destination, Example.memFresh, Example.unitSurface]
  exact ⟨⟨hf, hl⟩, linkPairs_symmetric _ _ hf hl⟩

end Linking

section CrossingLoop

variable {K : Type} [LinearOrderedField K]

/-- The crossing loop from any state: it stops at the first portal of the list
whose `isCrossing` holds for the camera position of the state. -/
theorem crossingLoop_eq (M : Libm K) (mem : Mem K) (pre : Vec3 K) (portals : List Nat) :
    ∀ st : LoopState K, crossingLoop M mem pre portals st =
      match portals.find? (fun p => (mem p).isCrossing pre st.camera.Position (1 / 2)) with
      | none => { st with tested := st.tested ++ portals }
      | some p =>
        { camera := (mem p).transformCamera M mem st.camera
          prevPosition := ((mem p).transformCamera M mem st.camera).Position
          tested := st.tested ++
            (portals.takeWhile (fun q => !(mem q).isCrossing pre st.camera.Position (1 / 2)) ++
              [p])
          applied := st.applied ++ [p] } := by
  induction portals with
  | nil => intro st; simp [crossingLoop]
  | cons q rest ih =>
    intro st
    by_cases h : (mem q).isCrossing pre st.camera.Position (1 / 2) = true
    · simp only [crossingLoop, List.find?_cons, List.takeWhile_cons, h, if_true,
        Bool.not_true, Bool.false_eq_true, if_false, List.nil_append]
    · simp only [Bool.not_eq_true] at h
      rw [crossingLoop, if_neg (by rw [h]; exact Bool.false_ne_true), ih]
      simp only [List.find?_cons, List.takeWhile_cons, h, Bool.not_false, if_true]
      cases rest.find? (fun p => (mem p).isCrossing pre st.camera.Position (1 / 2)) with
      | none => simp only [List.append_assoc, List.singleton_append]
      | some p =>
        simp only [List.append_assoc, List.singleton_append, List.cons_append,
          List.nil_append]

/-- C12: the crossing loop of `processInput` calls `transformCamera` at most
once.  When some portal of the list reports `isCrossing(preMovementPos,
camera.Position)` for the untransformed position, the camera becomes
`transformCamera` of the first such portal in list order, `isCrossing` was
called on the portals up to and including that one and on no later one, and
`transformCamera` was called on that portal only; when none does, the camera
and `prevPosition` are unchanged. -/
theorem crossingLoop_single_crossing (M : Libm K) (mem : Mem K) (preMovementPos : Vec3 K)
    (portals : List Nat) (camera : Camera K) (prevPosition : Vec3 K) :
    (crossingLoop M mem preMovementPos portals ⟨camera, prevPosition, [], []⟩ =
      match portals.find?
        (fun p => (mem p).isCrossing preMovementPos camera.Position (1 / 2)) with
      | none => ⟨camera, prevPosition, portals, []⟩
      | some p =>
        ⟨(mem p).transformCamera M mem camera,
          ((mem p).transformCamera M mem camera).Position,
          portals.takeWhile
            (fun q => !(mem q).isCrossing preMovementPos camera.Position (1 / 2)) ++ [p],
          [p]⟩) ∧
    (crossingLoop M mem preMovementPos portals
      ⟨camera, prevPosition, [], []⟩).applied.length ≤ 1 := by
  have h := crossingLoop_eq M mem preMovementPos portals ⟨camera, prevPosition, [], []⟩
  simp only [List.nil_append] at h
  refine ⟨h, ?_⟩
  rw [h]
  cases portals.find?
    (fun p => (mem p).isCrossing preMovementPos camera.Position (1 / 2)) with
  | none => simp only [List.length_nil, Nat.zero_le]
  | some p => simp only [List.length_singleton, le_refl]

/-- A step from `(6,1,0)` to `(3,1,0)` pierces both portals of `Example.memAA`;
the loop over `[0, 1]` tests and transforms through portal `0` only. -/
theorem crossingLoop_two_hits (M : Libm ℚ) (camera : Camera ℚ) (prevPosition : Vec3 ℚ)
    (hpos : camera.Position = ⟨3, 1, 0⟩) :
    (Example.memAA ℚ 0).isCrossing ⟨6, 1, 0⟩ camera.Position (1 / 2) = true ∧
    (Example.memAA ℚ 1).isCrossing ⟨6, 1, 0⟩ camera.Position (1 / 2) = true ∧
    (crossingLoop M (Example.memAA ℚ) ⟨6, 1, 0⟩ [0, 1]
      ⟨camera, prevPosition, [], []⟩).applied = [0] ∧
    (crossingLoop M (Example.memAA ℚ) ⟨6, 1, 0⟩ [0, 1]
      ⟨camera, prevPosition, [], []⟩).tested = [0] := by
  have h0 : (Example.memAA ℚ 0).isCrossing ⟨6, 1, 0⟩ camera.Position (1 / 2) = true := by
    rw [hpos]
    simp [Portal.isCrossing, Example.memAA, Example.portalA, Vec3.dot]
    norm_num
  have h1 : (Example.memAA ℚ 1).isCrossing ⟨6, 1, 0⟩ camera.Position (1 / 2) = true := by
    rw [hpos]
    simp [Portal.isCrossing, Example.memAA, Example.portalBehindA, Vec3.dot]
    norm_num
  refine ⟨h0, h1, ?_, ?_⟩
  · simp only [crossingLoop, h0, if_true, List.nil_append]
  · simp only [crossingLoop, h0, if_true, List.nil_append]

end CrossingLoop

section Depth

variable {K : Type} [LinearOrderedField K]

/-- The depth along `n` of a point rebuilt in an orthonormal frame `(r, u, n)`
is its `n` coefficient. -/
theorem rebuilt_depth (pb rb ub nb : Vec3 K) (x y z : K)
    (hnn : Vec3.dot nb nb = 1) (hrn : Vec3.dot rb nb = 0) (hun : Vec3.dot ub nb = 0) :
    Vec3.dot ((pb + (x • nb + y • rb + z • ub)) - pb) nb = x := by
  simp only [Vec3.dot, Vec3.add_x, Vec3.add_y, Vec3.add_z, Vec3.smul_x, Vec3.smul_y,
    Vec3.smul_z, Vec3.sub_x, Vec3.sub_y, Vec3.sub_z] at *
  linear_combination x * hnn + y * hrn + z * hun

/-- The signed depth of a transformed point at the exit, for a destination with
an orthonormal basis. -/
theorem transformPosition_exit_depth (mem : Mem K) (entry : Portal K) (d : Nat) (p : Vec3 K)
    (hlink : entry.destination = some d) (hD : (mem d).OrthonormalBasis) :
    Vec3.dot (Portal.transformPosition mem entry p - (mem d).position) (mem d).normal =
      -(mem d).scaleEffect * Vec3.dot (p - entry.position) entry.normal := by
  obtain ⟨-, -, hnn, -, hrn, hun⟩ := hD
  simp only [Portal.transformPosition, hlink]
  rw [rebuilt_depth _ _ _ _ _ _ _ hnn hrn hun]
  ring

/-- C13: for a linked portal whose destination basis is orthonormal, the signed
depth of the transformed point along the exit normal is
`-(exit.scaleEffect) * dot(p - entry.position, entry.normal)`. -/
theorem transformPosition_depth (mem : Mem K) (entry : Portal K) (d : Nat) (p : Vec3 K)
    (hlink : entry.destination = some d) (hD : (mem d).OrthonormalBasis) :
    Vec3.dot (Portal.transformPosition mem entry p - (mem d).position) (mem d).normal =
      -(mem d).scaleEffect * Vec3.dot (p - entry.position) entry.normal :=
  transformPosition_exit_depth mem entry d p hlink hD

/-- C13 at `Example.portalA` (exit factor `3`): the point `(7,2,3)` at entry
depth `2` has signed depth `-6` at the exit. -/
theorem transformPosition_depth_witness :
    ((Example.memAB ℚ 0).destination = some 1 ∧ (Example.memAB ℚ 1).OrthonormalBasis) ∧
    Vec3.dot ((⟨7, 2, 3⟩ : Vec3 ℚ) - (Example.memAB ℚ 0).position)
      (Example.memAB ℚ 0).normal = 2 ∧
    Vec3.dot (Portal.transformPosition (Example.memAB ℚ) (Example.memAB ℚ 0) ⟨7, 2, 3⟩ -
      (Example.memAB ℚ 1).position) (Example.memAB ℚ 1).normal = -6 := by
  have h0 : (Example.memAB ℚ 0).destination = some 1 := rfl
  have hB : (Example.memAB ℚ 1).OrthonormalBasis := by
    simp [Example.memAB, Example.portalB, Portal.OrthonormalBasis, Vec3.dot]
  have hd : Vec3.dot ((⟨7, 2, 3⟩ : Vec3 ℚ) - (Example.memAB ℚ 0).position)
      (Example.memAB ℚ 0).normal = 2 := by
    simp [Example.memAB, Example.portalA, Vec3.dot]
    norm_num
  refine ⟨⟨h0, hB⟩, hd, ?_⟩
  rw [transformPosition_depth (Example.memAB ℚ) (Example.memAB ℚ 0) 1 ⟨7, 2, 3⟩ h0 hB, hd]
  simp [Example.memAB, Example.portalB]
  norm_num

/-- C14 fails as stated: at `Example.portalA`, linked to `Example.portalB` with
factor `3 > 0`, the point `(7,2,3)` in front of the entry is not mapped to a
point in front of the exit. -/
theorem front_to_front_refuted :
    ((Example.memAB ℚ 0).destination = some 1 ∧
      (Example.memAB ℚ 0).OrthonormalBasis ∧ (Example.memAB ℚ 1).OrthonormalBasis ∧
      (Example.memAB ℚ 1).scaleEffect > 0 ∧
      Vec3.dot ((⟨7, 2, 3⟩ : Vec3 ℚ) - (Example.memAB ℚ 0).position)
        (Example.memAB ℚ 0).normal > 0) ∧
    ¬ (Vec3.dot (Portal.transformPosition (Example.memAB ℚ) (Example.memAB ℚ 0) ⟨7, 2, 3⟩ -
      (Example.memAB ℚ 1).position) (Example.memAB ℚ 1).normal > 0) := by
  have h0 : (Example.memAB ℚ 0).destination = some 1 := rfl
  have hA : (Example.memAB ℚ 0).OrthonormalBasis := by
    simp [Example.memAB, Example.portalA, Portal.OrthonormalBasis, Vec3.dot]
  have hB : (Example.memAB ℚ 1).OrthonormalBasis := by
    simp [Example.memAB, Example.portalB, Portal.OrthonormalBasis, Vec3.dot]
  have hs : (Example.memAB ℚ 1).scaleEffect > 0 := by
    simp [Example.memAB, Example.portalB]
  have hd : Vec3.dot ((⟨7, 2, 3⟩ : Vec3 ℚ) - (Example.memAB ℚ 0).position)
      (Example.memAB ℚ 0).normal = 2 := by
    simp [Example.memAB, Example.portalA, Vec3.dot]
    norm_num
  refine ⟨⟨h0, hA, hB, hs, by rw [hd]; norm_num⟩, ?_⟩
  rw [transformPosition_exit_depth (Example.memAB ℚ) (Example.memAB ℚ 0) 1 ⟨7, 2, 3⟩ h0 hB,
    hd]
  simp [Example.memAB, Example.portalB]

/-- C14 amended: for a linked portal whose destination basis is orthonormal and
`exit.scaleEffect > 0`, every point in front of the entry surface is mapped by
`transformPosition` to a point behind the exit surface
(`dot(result - exit.position, exit.normal) < 0`). -/
theorem front_to_behind (mem : Mem K) (entry : Portal K) (d : Nat) (p : Vec3 K)
    (hlink : entry.destination = some d) (hD : (mem d).OrthonormalBasis)
    (hs : (mem d).scaleEffect > 0)
    (hfront : Vec3.dot (p - entry.position) entry.normal > 0) :
    Vec3.dot (Portal.transformPosition mem entry p - (mem d).position) (mem d).normal < 0 := by
  rw [transformPosition_exit_depth mem entry d p hlink hD]
  nlinarith [mul_pos hs hfront]

/-- C14 amended at `Example.portalA` and the point `(7,2,3)`. -/
theorem front_to_behind_witness :
    ((Example.memAB ℚ 0).destination = some 1 ∧ (Example.memAB ℚ 1).OrthonormalBasis ∧
      (Example.memAB ℚ 1).scaleEffect > 0 ∧
      Vec3.dot ((⟨7, 2, 3⟩ : Vec3 ℚ) - (Example.memAB ℚ 0).position)
        (Example.memAB ℚ 0).normal > 0) ∧
    Vec3.dot (Portal.transformPosition (Example.memAB ℚ) (Example.memAB ℚ 0) ⟨7, 2, 3⟩ -
      (Example.memAB ℚ 1).position) (Example.memAB ℚ 1).normal < 0 := by
  have h0 : (Example.memAB ℚ 0).destination = some 1 := rfl
  have hB : (Example.memAB ℚ 1).OrthonormalBasis := by
    simp [Example.memAB, Example.portalB, Portal.OrthonormalBasis, Vec3.dot]
  have hs : (Example.memAB ℚ 1).scaleEffect > 0 := by
    simp [Example.memAB, Example.portalB]
  have hd : Vec3.dot ((⟨7, 2, 3⟩ : Vec3 ℚ) - (Example.memAB ℚ 0).position)
      (Example.memAB ℚ 0).normal > 0 := by
    simp [Example.memAB, Example.portalA, Vec3.dot]
    norm_num
  exact ⟨⟨h0, hB, hs, hd⟩, front_to_behind _ _ 1 _ h0 hB hs hd⟩

end Depth

section PoseFields

variable {K : Type} [LinearOrderedField K]

/-- C15: for a portal with no destination, `transformCamera` returns the camera
unchanged in every field. -/
theorem transformCamera_unlinked (M : Libm K) (mem : Mem K) (self : Portal K)
    (camera : Camera K) (hnull : self.destination = none) :
    Portal.transformCamera M mem self camera = camera := by
  simp only [Portal.transformCamera, hnull]

/-- C15 over the reals at the unlinked `Example.unitSurface`. -/
theorem transformCamera_unlinked_witness :
    (Example.unitSurface ℝ).destination = none ∧
    Portal.transformCamera
        (Libm.mk Real.sqrt Real.cos Real.sin Real.arcsin (fun y x => Complex.arg ⟨x, y⟩))
        (Example.memFresh ℝ) (Example.unitSurface ℝ)
      (Example.camera ℝ) = Example.camera ℝ :=
  ⟨rfl, transformCamera_unlinked _ _ _ _ rfl⟩

/-- The eye position of the virtual view is `transformPosition` of the camera
position. -/
theorem getPortalViewCamera_position_eq (M : Libm K) (mem : Mem K) (self : Portal K)
    (d : Nat) (camera : Camera K) (hlink : self.destination = some d) :
    (Portal.getPortalViewCamera M mem self d camera).newCamPos =
      Portal.transformPosition mem self camera.Position := by
  simp only [Portal.getPortalViewCamera, Portal.transformPosition, hlink]
  split_ifs <;>
    (ext <;> simp only [Vec3.add_x, Vec3.add_y, Vec3.add_z, Vec3.smul_x, Vec3.smul_y,
      Vec3.smul_z, Vec3.scale_x, Vec3.scale_y, Vec3.scale_z] <;> ring)

/-- C17: for a linked portal, the `Position` assigned by `transformCamera` and
the eye position that `getPortalView` passes to `glm::lookAt` both equal
`transformPosition(camera.Position)`. -/
theorem position_computations_agree (M : Libm K) (GetViewMatrix : Camera K → Mat4 K)
    (mem : Mem K) (self : Portal K) (d : Nat) (camera : Camera K)
    (hlink : self.destination = some d) :
    (Portal.transformCamera M mem self camera).Position =
      Portal.transformPosition mem self camera.Position ∧
    (Portal.getPortalViewCamera M mem self d camera).newCamPos =
      Portal.transformPosition mem self camera.Position ∧
    Portal.getPortalView M GetViewMatrix mem self camera =
      glm.lookAt M (Portal.transformPosition mem self camera.Position)
        (Portal.transformPosition mem self camera.Position +
          (Portal.getPortalViewCamera M mem self d camera).newCamFront)
        (Portal.getPortalViewCamera M mem self d camera).newCamUp := by
  have h2 := getPortalViewCamera_position_eq M mem self d camera hlink
  refine ⟨transformCamera_position_eq M mem self camera, h2, ?_⟩
  simp only [Portal.getPortalView, hlink, h2]

/-- C17 over the reals at `Example.portalA` and `Example.camera`: both
positions are `(26,4,-9)`. -/
theorem position_computations_agree_witness :
    (Example.memAB ℝ 0).destination = some 1 ∧
    (Portal.transformCamera
        (Libm.mk Real.sqrt Real.cos Real.sin Real.arcsin (fun y x => Complex.arg ⟨x, y⟩))
        (Example.memAB ℝ) (Example.memAB ℝ 0)
      (Example.camera ℝ)).Position =
      Portal.transformPosition (Example.memAB ℝ) (Example.memAB ℝ 0)
        (Example.camera ℝ).Position ∧
    (Portal.getPortalViewCamera
        (Libm.mk Real.sqrt Real.cos Real.sin Real.arcsin (fun y x => Complex.arg ⟨x, y⟩))
        (Example.memAB ℝ) (Example.memAB ℝ 0) 1
      (Example.camera ℝ)).newCamPos =
      Portal.transformPosition (Example.memAB ℝ) (Example.memAB ℝ 0)
        (Example.camera ℝ).Position ∧
    Portal.transformPosition (Example.memAB ℝ) (Example.memAB ℝ 0)
      (Example.camera ℝ).Position = ⟨26, 4, -9⟩ := by
  have h := position_computations_agree
      (Libm.mk Real.sqrt Real.cos Real.sin Real.arcsin (fun y x => Complex.arg ⟨x, y⟩))
      (fun _ => Mat4.one) (Example.memAB ℝ)
    (Example.memAB ℝ 0) 1 (Example.camera ℝ) rfl
  refine ⟨rfl, h.1, h.2.1, ?_⟩
  ext <;> simp [Portal.transformPosition, Example.memAB, Example.portalA, Example.portalB,
    Example.camera, Vec3.dot] <;> norm_num

/-- C19: for a linked portal, after `transformCamera` the camera's
`MovementSpeed` is its previous `MovementSpeed` times
`destination.scaleEffect`, and `currentScale` is `destination.scaleEffect`. -/
theorem transformCamera_rescales (M : Libm K) (mem : Mem K) (self : Portal K) (d : Nat)
    (camera : Camera K) (hlink : self.destination = some d) :
    (Portal.transformCamera M mem self camera).MovementSpeed =
      camera.MovementSpeed * (mem d).scaleEffect ∧
    (Portal.transformCamera M mem self camera).currentScale = (mem d).scaleEffect := by
  simp [Portal.transformCamera, hlink]

/-- C19 over the reals at `Example.portalA` (exit factor `3`) and
`Example.camera` (speed `5/2`). -/
theorem transformCamera_rescales_witness :
    (Example.memAB ℝ 0).destination = some 1 ∧
    (Portal.transformCamera
        (Libm.mk Real.sqrt Real.cos Real.sin Real.arcsin (fun y x => Complex.arg ⟨x, y⟩))
        (Example.memAB ℝ) (Example.memAB ℝ 0)
      (Example.camera ℝ)).MovementSpeed = 15 / 2 ∧
    (Portal.transformCamera
        (Libm.mk Real.sqrt Real.cos Real.sin Real.arcsin (fun y x => Complex.arg ⟨x, y⟩))
        (Example.memAB ℝ) (Example.memAB ℝ 0)
      (Example.camera ℝ)).currentScale = 3 := by
  have h := transformCamera_rescales
      (Libm.mk Real.sqrt Real.cos Real.sin Real.arcsin (fun y x => Complex.arg ⟨x, y⟩))
      (Example.memAB ℝ) (Example.memAB ℝ 0) 1
    (Example.camera ℝ) rfl
  refine ⟨rfl, ?_, ?_⟩
  · rw [h.1]
    simp [Example.memAB, Example.portalB, Example.camera]
    norm_num
  · rw [h.2]
    simp [Example.memAB, Example.portalB]

end PoseFields

section Degenerate

variable {K : Type} [LinearOrderedField K]

/-- For degenerate input the `right` vector stored by the constructor has
`dot(right, right) = 0`, whatever `inversesqrt` returns. -/
theorem ctor_right_of_degenerate (M : Libm K) (pos norm upVec : Vec3 K) (w h scale : K)
    (rotation : Vec3 K)
    (hdeg : norm = 0 ∨ upVec = 0 ∨ Vec3.cross upVec norm = 0) :
    Vec3.dot (Portal.ctor M pos norm upVec w h scale rotation).right
      (Portal.ctor M pos norm upVec w h scale rotation).right = 0 := by
  have hcross : Vec3.cross upVec norm = 0 := by
    rcases hdeg with h | h | h
    · subst h; ext <;> simp [Vec3.cross]
    · subst h; ext <;> simp [Vec3.cross]
    · exact h
  simp only [Portal.ctor, glm.normalize, cross_scale_scale, hcross]
  simp [Vec3.dot]

/-- C16 fails as stated, over the reals: for a zero normal, for a zero up
vector and for an up vector parallel to the normal the constructor returns a
portal object, and its stored basis is not orthonormal. -/
theorem ctor_degenerate_refuted :
    (∃ P : Portal ℝ,
      Portal.ctor
      (Libm.mk Real.sqrt Real.cos Real.sin Real.arcsin (fun y x => Complex.arg ⟨x, y⟩))
      ⟨5, 1, 0⟩ ⟨0, 0, 0⟩ ⟨0, 1, 0⟩ 2 4 1 ⟨0, 0, 0⟩ = P ∧
        ¬ P.OrthonormalBasis) ∧
    (∃ P : Portal ℝ,
      Portal.ctor
      (Libm.mk Real.sqrt Real.cos Real.sin Real.arcsin (fun y x => Complex.arg ⟨x, y⟩))
      ⟨5, 1, 0⟩ ⟨1, 0, 0⟩ ⟨0, 0, 0⟩ 2 4 1 ⟨0, 0, 0⟩ = P ∧
        ¬ P.OrthonormalBasis) ∧
    (∃ P : Portal ℝ,
      Portal.ctor
      (Libm.mk Real.sqrt Real.cos Real.sin Real.arcsin (fun y x => Complex.arg ⟨x, y⟩))
      ⟨5, 1, 0⟩ ⟨1, 0, 0⟩ ⟨2, 0, 0⟩ 2 4 1 ⟨0, 0, 0⟩ = P ∧
        ¬ P.OrthonormalBasis) := by
  refine ⟨⟨_, rfl, ?_⟩, ⟨_, rfl, ?_⟩, ⟨_, rfl, ?_⟩⟩
  · intro hb
    have h0 := ctor_right_of_degenerate
      (Libm.mk Real.sqrt Real.cos Real.sin Real.arcsin (fun y x => Complex.arg ⟨x, y⟩))
      ⟨5, 1, 0⟩ ⟨0, 0, 0⟩ ⟨0, 1, 0⟩ 2 4 1 ⟨0, 0, 0⟩
      (Or.inl rfl)
    rw [hb.1] at h0
    exact one_ne_zero h0
  · intro hb
    have h0 := ctor_right_of_degenerate
      (Libm.mk Real.sqrt Real.cos Real.sin Real.arcsin (fun y x => Complex.arg ⟨x, y⟩))
      ⟨5, 1, 0⟩ ⟨1, 0, 0⟩ ⟨0, 0, 0⟩ 2 4 1 ⟨0, 0, 0⟩
      (Or.inr (Or.inl rfl))
    rw [hb.1] at h0
    exact one_ne_zero h0
  · intro hb
    have h0 := ctor_right_of_degenerate
      (Libm.mk Real.sqrt Real.cos Real.sin Real.arcsin (fun y x => Complex.arg ⟨x, y⟩))
      ⟨5, 1, 0⟩ ⟨1, 0, 0⟩ ⟨2, 0, 0⟩ 2 4 1 ⟨0, 0, 0⟩
      (Or.inr (Or.inr (by ext <;> simp [Vec3.cross])))
    rw [hb.1] at h0
    exact one_ne_zero h0

/-- C16 amended: the constructor has no error result; for a zero-length normal,
a zero-length up vector, or an up vector parallel to the normal it returns a
portal object whose stored `right`, `up`, `normal` are not an orthonormal
basis. -/
theorem ctor_degenerate_not_orthonormal (M : Libm K) (pos norm upVec : Vec3 K)
    (w h scale : K) (rotation : Vec3 K)
    (hdeg : norm = 0 ∨ upVec = 0 ∨ Vec3.cross upVec norm = 0) :
    ∃ P : Portal K, Portal.ctor M pos norm upVec w h scale rotation = P ∧
      ¬ P.OrthonormalBasis := by
  refine ⟨_, rfl, fun hb => ?_⟩
  have h0 := ctor_right_of_degenerate M pos norm upVec w h scale rotation hdeg
  rw [hb.1] at h0
  exact one_ne_zero h0

/-- C16 amended over the reals for the parallel input normal `(0,0,1)`, up
`(0,0,-3)`. -/
theorem ctor_degenerate_not_orthonormal_witness :
    ((⟨0, 0, 1⟩ : Vec3 ℝ) = 0 ∨ (⟨0, 0, -3⟩ : Vec3 ℝ) = 0 ∨
      Vec3.cross (⟨0, 0, -3⟩ : Vec3 ℝ) ⟨0, 0, 1⟩ = 0) ∧
    ∃ P : Portal ℝ,
      Portal.ctor
      (Libm.mk Real.sqrt Real.cos Real.sin Real.arcsin (fun y x => Complex.arg ⟨x, y⟩))
      ⟨5, 1, 0⟩ ⟨0, 0, 1⟩ ⟨0, 0, -3⟩ 2 4 1 ⟨0, 0, 0⟩ = P ∧
        ¬ P.OrthonormalBasis := by
  have hdeg : (⟨0, 0, 1⟩ : Vec3 ℝ) = 0 ∨ (⟨0, 0, -3⟩ : Vec3 ℝ) = 0 ∨
      Vec3.cross (⟨0, 0, -3⟩ : Vec3 ℝ) ⟨0, 0, 1⟩ = 0 :=
    Or.inr (Or.inr (by ext <;> simp [Vec3.cross]))
  exact ⟨hdeg, ctor_degenerate_not_orthonormal _ _ _ _ _ _ _ _ hdeg⟩

end Degenerate

section Visibility

variable {K : Type} [LinearOrderedField K]

/-- C20: `isVisible(camera, maxDistance)` is true exactly when
`length(camera.Position - position) <= maxDistance` and
`dot(camera.Front, normalize(position - camera.Position)) > 0.1`; the default
`maxDistance` is `50`; and a portal at distance exactly `maxDistance` passes
the distance test. -/
theorem isVisible_iff (M : Libm K) (self : Portal K) (camera : Camera K) (maxDistance : K) :
    (Portal.isVisible M self camera maxDistance = true ↔
      glm.length M (camera.Position - self.position) ≤ maxDistance ∧
      Vec3.dot camera.Front (glm.normalize M (self.position - camera.Position)) >
        (0.1 : K)) ∧
    Portal.isVisibleDefault M self camera = Portal.isVisible M self camera 50 ∧
    (glm.length M (camera.Position - self.position) = maxDistance →
      (Portal.isVisible M self camera maxDistance = true ↔
        Vec3.dot camera.Front (glm.normalize M (self.position - camera.Position)) >
          (0.1 : K))) := by
  have key : Portal.isVisible M self camera maxDistance = true ↔
      glm.length M (camera.Position - self.position) ≤ maxDistance ∧
      Vec3.dot camera.Front (glm.normalize M (self.position - camera.Position)) >
        (0.1 : K) := by
    unfold Portal.isVisible
    by_cases hd : glm.length M (camera.Position - self.position) > maxDistance
    · simp only [hd, if_true]
      constructor
      · intro h; exact absurd h Bool.false_ne_true
      · rintro ⟨hle, -⟩; exact absurd hd (not_lt.mpr hle)
    · simp only [hd, if_false, decide_eq_true_eq]
      exact ⟨fun h => ⟨not_lt.mp hd, h⟩, fun h => h.2⟩
  refine ⟨key, rfl, fun heq => ?_⟩
  rw [key]
  exact ⟨fun h => h.2, fun h => ⟨le_of_eq heq, h⟩⟩

end Visibility

section VirtualView

variable {K : Type} [LinearOrderedField K]

/-- With a non-negligible `rotationEffect` at the destination, `getPortalView`
applies the basis-change matrix first and the fixed rotation after it. -/
theorem getPortalViewCamera_rotated (M : Libm K) (mem : Mem K) (self : Portal K)
    (camera : Camera K) (d : Nat)
    (hrot : glm.length M (mem d).rotationEffect > (0.0001 : K)) :
    (Portal.getPortalViewCamera M mem self d camera).newCamFront =
      ((glm.rotate M (glm.rotate M (glm.rotate M Mat4.one (mem d).rotationEffect.x
        ⟨1, 0, 0⟩) (mem d).rotationEffect.y ⟨0, 1, 0⟩)
        (mem d).rotationEffect.z ⟨0, 0, 1⟩).mulVec
          (Vec4.ofVec3 ((Mat3.mul (mem d).basis self.basis).mulVec camera.Front) 0)).xyz := by
  simp [Portal.getPortalViewCamera, hrot, Portal.basis]

/-- With a negligible `rotationEffect`, orthonormal portal bases and a unit
`Front`, the virtual front of `getPortalView` is the `Front` that
`transformCamera` assigns. -/
theorem virtual_front_negligible (M : Libm K) (hM : M.Exact) (mem : Mem K)
    (self : Portal K) (camera : Camera K) (d : Nat) (hlink : self.destination = some d)
    (hs : self.OrthonormalBasis) (hd : (mem d).OrthonormalBasis)
    (hrot : ¬ (glm.length M (mem d).rotationEffect > (0.0001 : K)))
    (hF : Vec3.dot camera.Front camera.Front = 1) :
    (Portal.getPortalViewCamera M mem self d camera).newCamFront =
      (Portal.transformCamera M mem self camera).Front := by
  rw [(transformCamera_negligible M mem self camera d hlink hrot).1]
  have hunit : Vec3.dot ((Mat3.mul (mem d).basis self.basis).mulVec camera.Front)
      ((Mat3.mul (mem d).basis self.basis).mulVec camera.Front) = 1 := by
    rw [rotMat_dot self (mem d) hs hd, hF]
  rw [normalize_of_unit hM hunit]
  simp [Portal.getPortalViewCamera, hrot, Portal.basis]

/-- C18 at a failing input, over the reals: for `Example.portalFront` linked to
`Example.portalSideTurn π` (orthonormal bases, rotation effect `π` about `x`)
and `Example.camera` (unit `Front = (0,0,-1)`), `getPortalView` passes the
front `(-1,0,0)` to `glm::lookAt` while `transformCamera` assigns
`Front = (1,0,0)`. -/
theorem virtual_front_differs :
    ((Example.memFT ℝ Real.pi 0).destination = some 1 ∧
      (Example.memFT ℝ Real.pi 0).OrthonormalBasis ∧
      (Example.memFT ℝ Real.pi 1).OrthonormalBasis ∧
      Vec3.dot (Example.camera ℝ).Front (Example.camera ℝ).Front = 1) ∧
    (Portal.getPortalViewCamera
      (Libm.mk Real.sqrt Real.cos Real.sin Real.arcsin (fun y x => Complex.arg ⟨x, y⟩))
      (Example.memFT ℝ Real.pi) (Example.memFT ℝ Real.pi 0) 1
      (Example.camera ℝ)).newCamFront = ⟨-1, 0, 0⟩ ∧
    (Portal.transformCamera
      (Libm.mk Real.sqrt Real.cos Real.sin Real.arcsin (fun y x => Complex.arg ⟨x, y⟩))
      (Example.memFT ℝ Real.pi) (Example.memFT ℝ Real.pi 0)
      (Example.camera ℝ)).Front = ⟨1, 0, 0⟩ := by
  have hE := real_libm_exact Real.arcsin (fun y x => Complex.arg ⟨x, y⟩)
  have hrT : glm.length
      (Libm.mk Real.sqrt Real.cos Real.sin Real.arcsin (fun y x => Complex.arg ⟨x, y⟩))
      (Example.memFT ℝ Real.pi 1).rotationEffect > (0.0001 : ℝ) := by
    simp only [Example.memFT, Example.portalSideTurn, glm.length, Vec3.dot]
    norm_num
    rw [Real.sqrt_mul_self Real.pi_pos.le]
    linarith [Real.pi_gt_three]
  have l0 : (Example.memFT ℝ Real.pi 0).destination = some 1 := rfl
  refine ⟨⟨l0, ?_, ?_, ?_⟩, ?_, ?_⟩
  · simp [Example.memFT, Example.portalFront, Portal.OrthonormalBasis, Vec3.dot]
  · simp [Example.memFT, Example.portalSideTurn, Portal.OrthonormalBasis, Vec3.dot]
  · simp [Example.camera, Vec3.dot]
  · have e1 := getPortalViewCamera_rotated
      (Libm.mk Real.sqrt Real.cos Real.sin Real.arcsin (fun y x => Complex.arg ⟨x, y⟩))
      (Example.memFT ℝ Real.pi)
      (Example.memFT ℝ Real.pi 0) (Example.camera ℝ) 1 hrT
    have r1 := additionalRot_apply hE (Example.memFT ℝ Real.pi 1).rotationEffect
      ((Mat3.mul (Example.memFT ℝ Real.pi 1).basis
        (Example.memFT ℝ Real.pi 0).basis).mulVec (Example.camera ℝ).Front)
    refine e1.trans (r1.trans ?_)
    ext <;> simp [Example.memFT, Example.portalFront, Example.portalSideTurn,
      Example.camera, Mat3.rotX, Mat3.rotY, Mat3.rotZ, Mat3.mul, Mat3.mulVec]
  · have e1 := transformCamera_rotated
      (Libm.mk Real.sqrt Real.cos Real.sin Real.arcsin (fun y x => Complex.arg ⟨x, y⟩))
      (Example.memFT ℝ Real.pi)
      (Example.memFT ℝ Real.pi 0) (Example.camera ℝ) 1 l0 hrT
    have r1 := additionalRot_apply hE (Example.memFT ℝ Real.pi 1).rotationEffect
      (Example.camera ℝ).Front
    have r2 : (Mat3.rotX (Real.cos (Example.memFT ℝ Real.pi 1).rotationEffect.x)
          (Real.sin (Example.memFT ℝ Real.pi 1).rotationEffect.x)).mulVec
        ((Mat3.rotY (Real.cos (Example.memFT ℝ Real.pi 1).rotationEffect.y)
          (Real.sin (Example.memFT ℝ Real.pi 1).rotationEffect.y)).mulVec
          ((Mat3.rotZ (Real.cos (Example.memFT ℝ Real.pi 1).rotationEffect.z)
            (Real.sin (Example.memFT ℝ Real.pi 1).rotationEffect.z)).mulVec
            (Example.camera ℝ).Front)) = ⟨0, 0, 1⟩ := by
      ext <;> simp [Example.memFT, Example.portalSideTurn, Example.camera, Mat3.rotX,
        Mat3.rotY, Mat3.rotZ, Mat3.mulVec]
    have r3 : (Mat3.mul (Example.memFT ℝ Real.pi 1).basis
        (Example.memFT ℝ Real.pi 0).basis).mulVec ⟨0, 0, 1⟩ = ⟨1, 0, 0⟩ := by
      ext <;> simp [Example.memFT, Example.portalFront, Example.portalSideTurn, Mat3.mul,
        Mat3.mulVec]
    have r5 : glm.normalize
      (Libm.mk Real.sqrt Real.cos Real.sin Real.arcsin (fun y x => Complex.arg ⟨x, y⟩))
      (⟨1, 0, 0⟩ : Vec3 ℝ) = ⟨1, 0, 0⟩ :=
      normalize_of_unit hE (by simp [Vec3.dot])
    exact e1.trans ((congrArg (fun v => glm.normalize
      (Libm.mk Real.sqrt Real.cos Real.sin Real.arcsin (fun y x => Complex.arg ⟨x, y⟩))
      ((Mat3.mul (Example.memFT ℝ Real.pi 1).basis
        (Example.memFT ℝ Real.pi 0).basis).mulVec v)) (r1.trans r2)).trans
      ((congrArg (glm.normalize
          (Libm.mk Real.sqrt Real.cos Real.sin Real.arcsin (fun y x => Complex.arg ⟨x, y⟩)))
          r3).trans r5))

end VirtualView

section Handedness

variable {K : Type} [LinearOrderedField K]

/-- The members stored by the constructor for non-degenerate input: `up` is
exactly `cross(normal, right)`, `right` and `normal` are unit and orthogonal. -/
theorem ctor_basis_facts (M : Libm K) (hM : M.Exact) (pos norm upVec : Vec3 K)
    (w h scale : K) (rotation : Vec3 K)
    (hnorm : norm ≠ 0) (hup : upVec ≠ 0) (hpar : Vec3.cross upVec norm ≠ 0) :
    (Portal.ctor M pos norm upVec w h scale rotation).up =
      Vec3.cross (Portal.ctor M pos norm upVec w h scale rotation).normal
        (Portal.ctor M pos norm upVec w h scale rotation).right ∧
    Vec3.dot (Portal.ctor M pos norm upVec w h scale rotation).right
      (Portal.ctor M pos norm upVec w h scale rotation).right = 1 ∧
    Vec3.dot (Portal.ctor M pos norm upVec w h scale rotation).right
      (Portal.ctor M pos norm upVec w h scale rotation).normal = 0 ∧
    Vec3.dot (Portal.ctor M pos norm upVec w h scale rotation).normal
      (Portal.ctor M pos norm upVec w h scale rotation).normal = 1 := by
  have hn1 : Vec3.dot (glm.normalize M norm) (glm.normalize M norm) = 1 :=
    normalize_dot_self hM (dot_self_pos hnorm)
  have ha : 0 < glm.inversesqrt M (Vec3.dot norm norm) :=
    one_div_pos.mpr (hM.sqrt_pos (dot_self_pos hnorm))
  have hb : 0 < glm.inversesqrt M (Vec3.dot upVec upVec) :=
    one_div_pos.mpr (hM.sqrt_pos (dot_self_pos hup))
  have hc : 0 < Vec3.dot (Vec3.cross (glm.normalize M upVec) (glm.normalize M norm))
      (Vec3.cross (glm.normalize M upVec) (glm.normalize M norm)) := by
    rw [glm.normalize, glm.normalize, cross_scale_scale, dot_scale_left, dot_scale_right]
    have := dot_self_pos hpar
    positivity
  have hr1 := normalize_dot_self hM hc
  have hrn : Vec3.dot
      (glm.normalize M (Vec3.cross (glm.normalize M upVec) (glm.normalize M norm)))
      (glm.normalize M norm) = 0 := by
    rw [dot_normalize_left, dot_cross_self_right, mul_zero]
  have hw : Vec3.dot
      (Vec3.cross (glm.normalize M norm)
        (glm.normalize M (Vec3.cross (glm.normalize M upVec) (glm.normalize M norm))))
      (Vec3.cross (glm.normalize M norm)
        (glm.normalize M (Vec3.cross (glm.normalize M upVec) (glm.normalize M norm)))) = 1 := by
    rw [dot_cross_cross, hn1, hr1, dot_comm, hrn]; ring
  have hupeq := normalize_of_unit hM hw
  simp only [Portal.ctor, hupeq]
  exact ⟨trivial, hr1, hrn, hn1⟩

/-- For a unit `r` orthogonal to `n`: `cross(r, cross(n, r)) = n`. -/
theorem cross_cross_unit (r n : Vec3 K) (hrr : Vec3.dot r r = 1) (hrn : Vec3.dot r n = 0) :
    Vec3.cross r (Vec3.cross n r) = n := by
  simp only [Vec3.dot] at hrr hrn
  ext <;> simp only [Vec3.cross]
  · linear_combination n.x * hrr - r.x * hrn
  · linear_combination n.y * hrr - r.y * hrn
  · linear_combination n.z * hrr - r.z * hrn

/-- C21: for constructor input with non-zero, non-parallel normal and up, the
stored vectors satisfy `cross(right, up) = normal`, and the determinant
`dot(cross(right, up), normal)` is `1`. -/
theorem ctor_right_handed (M : Libm K) (hM : M.Exact) (pos norm upVec : Vec3 K)
    (w h scale : K) (rotation : Vec3 K)
    (hnorm : norm ≠ 0) (hup : upVec ≠ 0) (hpar : Vec3.cross upVec norm ≠ 0) :
    Vec3.cross (Portal.ctor M pos norm upVec w h scale rotation).right
        (Portal.ctor M pos norm upVec w h scale rotation).up =
      (Portal.ctor M pos norm upVec w h scale rotation).normal ∧
    Vec3.dot
      (Vec3.cross (Portal.ctor M pos norm upVec w h scale rotation).right
        (Portal.ctor M pos norm upVec w h scale rotation).up)
      (Portal.ctor M pos norm upVec w h scale rotation).normal = 1 := by
  obtain ⟨hu, hrr, hrn, hnn⟩ :=
    ctor_basis_facts M hM pos norm upVec w h scale rotation hnorm hup hpar
  have hx : Vec3.cross (Portal.ctor M pos norm upVec w h scale rotation).right
      (Portal.ctor M pos norm upVec w h scale rotation).up =
      (Portal.ctor M pos norm upVec w h scale rotation).normal := by
    rw [hu]
    exact cross_cross_unit _ _ hrr hrn
  exact ⟨hx, by rw [hx, hnn]⟩

/-- C21 over the reals, for the input normal `(2,0,0)` and up `(0,3,0)`. -/
theorem ctor_right_handed_witness :
    ((Libm.mk Real.sqrt Real.cos Real.sin Real.arcsin (fun y x => Complex.arg ⟨x, y⟩)).Exact ∧
      (⟨2, 0, 0⟩ : Vec3 ℝ) ≠ 0 ∧ (⟨0, 3, 0⟩ : Vec3 ℝ) ≠ 0 ∧
      Vec3.cross (⟨0, 3, 0⟩ : Vec3 ℝ) ⟨2, 0, 0⟩ ≠ 0) ∧
    Vec3.cross
        (Portal.ctor
            (Libm.mk Real.sqrt Real.cos Real.sin Real.arcsin (fun y x => Complex.arg ⟨x, y⟩))
            ⟨5, 1, 0⟩ ⟨2, 0, 0⟩ ⟨0, 3, 0⟩ 2 4 1 ⟨0, 0, 0⟩).right
        (Portal.ctor
            (Libm.mk Real.sqrt Real.cos Real.sin Real.arcsin (fun y x => Complex.arg ⟨x, y⟩))
            ⟨5, 1, 0⟩ ⟨2, 0, 0⟩ ⟨0, 3, 0⟩ 2 4 1 ⟨0, 0, 0⟩).up =
      (Portal.ctor
          (Libm.mk Real.sqrt Real.cos Real.sin Real.arcsin (fun y x => Complex.arg ⟨x, y⟩))
          ⟨5, 1, 0⟩ ⟨2, 0, 0⟩ ⟨0, 3, 0⟩ 2 4 1 ⟨0, 0, 0⟩).normal := by
  have h1 : (⟨2, 0, 0⟩ : Vec3 ℝ) ≠ 0 := by
    intro h; have := congrArg Vec3.x h; simp at this
  have h2 : (⟨0, 3, 0⟩ : Vec3 ℝ) ≠ 0 := by
    intro h; have := congrArg Vec3.y h; simp at this
  have h3 : Vec3.cross (⟨0, 3, 0⟩ : Vec3 ℝ) ⟨2, 0, 0⟩ ≠ 0 := by
    intro h; have := congrArg Vec3.z h; simp [Vec3.cross] at this
  exact ⟨⟨real_libm_exact _ _, h1, h2, h3⟩,
    (ctor_right_handed _ (real_libm_exact _ _) _ _ _ _ _ _ _ h1 h2 h3).1⟩

end Handedness

section BasisChange

variable {K : Type} [LinearOrderedField K]

/-- The coordinates of `E * w` along the columns of a matrix `E` with
orthonormal columns are the components of `w`. -/
theorem mulVec_coordinates (r u n w : Vec3 K)
    (hrr : Vec3.dot r r = 1) (huu : Vec3.dot u u = 1) (hnn : Vec3.dot n n = 1)
    (hru : Vec3.dot r u = 0) (hrn : Vec3.dot r n = 0) (hun : Vec3.dot u n = 0) :
    Vec3.dot ((Mat3.mk r u n).mulVec w) r = w.x ∧
    Vec3.dot ((Mat3.mk r u n).mulVec w) u = w.y ∧
    Vec3.dot ((Mat3.mk r u n).mulVec w) n = w.z := by
  simp only [Vec3.dot, Mat3.mulVec] at *
  refine ⟨?_, ?_, ?_⟩
  · linear_combination w.x * hrr + w.y * hru + w.z * hrn
  · linear_combination w.x * hru + w.y * huu + w.z * hun
  · linear_combination w.x * hrn + w.y * hun + w.z * hnn

/-- The exit-local coordinates of `rotMat * v` are the components of
`mat3(self.right, self.up, self.normal) * v`. -/
theorem rotMat_coordinates (self dst : Portal K) (v : Vec3 K) (hD : dst.OrthonormalBasis) :
    Vec3.dot ((Portal.rotMat self dst).mulVec v) dst.right = (self.basis.mulVec v).x ∧
    Vec3.dot ((Portal.rotMat self dst).mulVec v) dst.up = (self.basis.mulVec v).y ∧
    Vec3.dot ((Portal.rotMat self dst).mulVec v) dst.normal = (self.basis.mulVec v).z := by
  obtain ⟨hrr, huu, hnn, hru, hrn, hun⟩ := hD
  rw [Portal.rotMat, mulVec_mul]
  exact mulVec_coordinates _ _ _ _ hrr huu hnn hru hrn hun

/-- C22 fails as stated: for `Example.portalSide` linked to `Example.portalFront`
(both bases orthonormal) and `v = (1,0,0)`, `dot(R*v, exit.normal) = -1` while
`dot(v, entry.normal) = 1`. -/
theorem rotMat_basis_change_refuted :
    ((Example.memFS ℚ 1).destination = some 0 ∧
      (Example.memFS ℚ 1).OrthonormalBasis ∧ (Example.memFS ℚ 0).OrthonormalBasis) ∧
    ¬ (Vec3.dot ((Portal.rotMat (Example.memFS ℚ 1) (Example.memFS ℚ 0)).mulVec ⟨1, 0, 0⟩)
          (Example.memFS ℚ 0).right = Vec3.dot ⟨1, 0, 0⟩ (Example.memFS ℚ 1).right ∧
      Vec3.dot ((Portal.rotMat (Example.memFS ℚ 1) (Example.memFS ℚ 0)).mulVec ⟨1, 0, 0⟩)
          (Example.memFS ℚ 0).up = Vec3.dot ⟨1, 0, 0⟩ (Example.memFS ℚ 1).up ∧
      Vec3.dot ((Portal.rotMat (Example.memFS ℚ 1) (Example.memFS ℚ 0)).mulVec ⟨1, 0, 0⟩)
          (Example.memFS ℚ 0).normal = Vec3.dot ⟨1, 0, 0⟩ (Example.memFS ℚ 1).normal) := by
  refine ⟨⟨rfl, ?_, ?_⟩, ?_⟩
  · simp [Example.memFS, Example.portalSide, Portal.OrthonormalBasis, Vec3.dot]
  · simp [Example.memFS, Example.portalFront, Portal.OrthonormalBasis, Vec3.dot]
  · rintro ⟨-, -, h⟩
    simp [Portal.rotMat, Example.memFS, Example.portalFront, Example.portalSide, Mat3.mul,
      Mat3.mulVec, Vec3.dot] at h
    norm_num at h

/-- C22 amended: for a portal whose destination basis is orthonormal and every
vector `v`, the exit-local coordinates of `R*v` are the components of
`mat3(entry.right, entry.up, entry.normal) * v` (for `exit.right`:
`v.x*entry.right.x + v.y*entry.up.x + v.z*entry.normal.x`); they are
`dot(v, entry.right)`, `dot(v, entry.up)`, `dot(v, entry.normal)` when that
matrix is symmetric. -/
theorem rotMat_exit_coordinates (self dst : Portal K) (v : Vec3 K)
    (hD : dst.OrthonormalBasis) :
    (Vec3.dot ((Portal.rotMat self dst).mulVec v) dst.right =
        v.x * self.right.x + v.y * self.up.x + v.z * self.normal.x ∧
      Vec3.dot ((Portal.rotMat self dst).mulVec v) dst.up =
        v.x * self.right.y + v.y * self.up.y + v.z * self.normal.y ∧
      Vec3.dot ((Portal.rotMat self dst).mulVec v) dst.normal =
        v.x * self.right.z + v.y * self.up.z + v.z * self.normal.z) ∧
    (self.right.y = self.up.x → self.right.z = self.normal.x → self.up.z = self.normal.y →
      Vec3.dot ((Portal.rotMat self dst).mulVec v) dst.right = Vec3.dot v self.right ∧
      Vec3.dot ((Portal.rotMat self dst).mulVec v) dst.up = Vec3.dot v self.up ∧
      Vec3.dot ((Portal.rotMat self dst).mulVec v) dst.normal = Vec3.dot v self.normal) := by
  obtain ⟨h1, h2, h3⟩ := rotMat_coordinates self dst v hD
  have b1 : (self.basis.mulVec v).x =
      v.x * self.right.x + v.y * self.up.x + v.z * self.normal.x := by
    simp only [Portal.basis, Mat3.mulVec]; ring
  have b2 : (self.basis.mulVec v).y =
      v.x * self.right.y + v.y * self.up.y + v.z * self.normal.y := by
    simp only [Portal.basis, Mat3.mulVec]; ring
  have b3 : (self.basis.mulVec v).z =
      v.x * self.right.z + v.y * self.up.z + v.z * self.normal.z := by
    simp only [Portal.basis, Mat3.mulVec]; ring
  refine ⟨⟨h1.trans b1, h2.trans b2, h3.trans b3⟩, fun e1 e2 e3 => ⟨?_, ?_, ?_⟩⟩
  · rw [h1, b1, Vec3.dot, ← e1, ← e2]
  · rw [h2, b2, Vec3.dot, e1, ← e3]
  · rw [h3, b3, Vec3.dot, e2, e3]

/-- C22 amended at `Example.portalFront` (identity basis matrix) with exit
`Example.portalSide` and `v = (1,2,3)`. -/
theorem rotMat_exit_coordinates_witness :
    (Example.memFS ℚ 1).OrthonormalBasis ∧
    Vec3.dot ((Portal.rotMat (Example.memFS ℚ 0) (Example.memFS ℚ 1)).mulVec ⟨1, 2, 3⟩)
      (Example.memFS ℚ 1).normal = Vec3.dot ⟨1, 2, 3⟩ (Example.memFS ℚ 0).normal := by
  have hD : (Example.memFS ℚ 1).OrthonormalBasis := by
    simp [Example.memFS, Example.portalSide, Portal.OrthonormalBasis, Vec3.dot]
  exact ⟨hD, ((rotMat_exit_coordinates (Example.memFS ℚ 0) (Example.memFS ℚ 1) ⟨1, 2, 3⟩
    hD).2 rfl rfl rfl).2.2⟩

end BasisChange

section RotationOrder

variable {K : Type} [LinearOrderedField K]

/-- For a linked portal the orientation written by `transformCamera` is that of
the general branch when `length(destination.rotationEffect) > 0.0001` and that
of the shortcut branch otherwise. -/
theorem transformCamera_orientation_eq (M : Libm K) (mem : Mem K) (self : Portal K)
    (camera : Camera K) (d : Nat) (hlink : self.destination = some d) :
    (glm.length M (mem d).rotationEffect > (0.0001 : K) →
      (Portal.transformCamera M mem self camera).Front =
        (Portal.rotatedOrientation M (Portal.rotMat self (mem d)) (mem d).rotationEffect
          camera).Front ∧
      (Portal.transformCamera M mem self camera).Right =
        (Portal.rotatedOrientation M (Portal.rotMat self (mem d)) (mem d).rotationEffect
          camera).Right ∧
      (Portal.transformCamera M mem self camera).Up =
        (Portal.rotatedOrientation M (Portal.rotMat self (mem d)) (mem d).rotationEffect
          camera).Up) ∧
    (¬ (glm.length M (mem d).rotationEffect > (0.0001 : K)) →
      (Portal.transformCamera M mem self camera).Front =
        (Portal.directOrientation M (Portal.rotMat self (mem d)) camera).Front ∧
      (Portal.transformCamera M mem self camera).Right =
        (Portal.directOrientation M (Portal.rotMat self (mem d)) camera).Right ∧
      (Portal.transformCamera M mem self camera).Up =
        (Portal.directOrientation M (Portal.rotMat self (mem d)) camera).Up) := by
  constructor
  · intro hrot
    simp [Portal.transformCamera, hlink, hrot, Portal.rotatedOrientation, Portal.rotMat]
  · intro hrot
    simp [Portal.transformCamera, hlink, hrot, Portal.directOrientation, Portal.rotMat]

/-- The general branch applies `Rx * Ry * Rz`, then `rotMat`, then
`glm::normalize`. -/
theorem rotatedOrientation_fields {M : Libm K} (hM : M.Exact) (R : Mat3 K) (r : Vec3 K)
    (camera : Camera K) :
    (Portal.rotatedOrientation M R r camera).Front =
      glm.normalize M (R.mulVec
        ((Mat3.mul (Mat3.mul (Mat3.rotX (M.cos r.x) (M.sin r.x))
          (Mat3.rotY (M.cos r.y) (M.sin r.y)))
          (Mat3.rotZ (M.cos r.z) (M.sin r.z))).mulVec camera.Front)) ∧
    (Portal.rotatedOrientation M R r camera).Right =
      glm.normalize M (R.mulVec
        ((Mat3.mul (Mat3.mul (Mat3.rotX (M.cos r.x) (M.sin r.x))
          (Mat3.rotY (M.cos r.y) (M.sin r.y)))
          (Mat3.rotZ (M.cos r.z) (M.sin r.z))).mulVec camera.Right)) ∧
    (Portal.rotatedOrientation M R r camera).Up =
      glm.normalize M (R.mulVec
        ((Mat3.mul (Mat3.mul (Mat3.rotX (M.cos r.x) (M.sin r.x))
          (Mat3.rotY (M.cos r.y) (M.sin r.y)))
          (Mat3.rotZ (M.cos r.z) (M.sin r.z))).mulVec camera.Up)) := by
  simp only [Portal.rotatedOrientation, additionalRot_apply hM, mulVec_mul]
  exact ⟨trivial, trivial, trivial⟩

/-- C23: for a linked portal with `length(destination.rotationEffect) > 0.0001`,
the new `Front` is `normalize(R * (Rx(rx) * Ry(ry) * Rz(rz) * Front))` with
`(rx, ry, rz) = destination.rotationEffect` and `R` the `rotMat` of
`transformCamera`; the same holds for `Right` and `Up`. -/
theorem transformCamera_rotation_order (M : Libm K) (hM : M.Exact) (mem : Mem K)
    (self : Portal K) (camera : Camera K) (d : Nat) (hlink : self.destination = some d)
    (hrot : glm.length M (mem d).rotationEffect > (0.0001 : K)) :
    (Portal.transformCamera M mem self camera).Front =
      glm.normalize M ((Portal.rotMat self (mem d)).mulVec
        ((Mat3.mul (Mat3.mul
            (Mat3.rotX (M.cos (mem d).rotationEffect.x) (M.sin (mem d).rotationEffect.x))
            (Mat3.rotY (M.cos (mem d).rotationEffect.y) (M.sin (mem d).rotationEffect.y)))
          (Mat3.rotZ (M.cos (mem d).rotationEffect.z)
            (M.sin (mem d).rotationEffect.z))).mulVec camera.Front)) ∧
    (Portal.transformCamera M mem self camera).Right =
      glm.normalize M ((Portal.rotMat self (mem d)).mulVec
        ((Mat3.mul (Mat3.mul
            (Mat3.rotX (M.cos (mem d).rotationEffect.x) (M.sin (mem d).rotationEffect.x))
            (Mat3.rotY (M.cos (mem d).rotationEffect.y) (M.sin (mem d).rotationEffect.y)))
          (Mat3.rotZ (M.cos (mem d).rotationEffect.z)
            (M.sin (mem d).rotationEffect.z))).mulVec camera.Right)) ∧
    (Portal.transformCamera M mem self camera).Up =
      glm.normalize M ((Portal.rotMat self (mem d)).mulVec
        ((Mat3.mul (Mat3.mul
            (Mat3.rotX (M.cos (mem d).rotationEffect.x) (M.sin (mem d).rotationEffect.x))
            (Mat3.rotY (M.cos (mem d).rotationEffect.y) (M.sin (mem d).rotationEffect.y)))
          (Mat3.rotZ (M.cos (mem d).rotationEffect.z)
            (M.sin (mem d).rotationEffect.z))).mulVec camera.Up)) := by
  obtain ⟨hF, hR, hU⟩ := (transformCamera_orientation_eq M mem self camera d hlink).1 hrot
  obtain ⟨gF, gR, gU⟩ := rotatedOrientation_fields hM (Portal.rotMat self (mem d))
    (mem d).rotationEffect camera
  exact ⟨hF.trans gF, hR.trans gR, hU.trans gU⟩

/-- C23 over the reals at `Example.portalFront` linked to
`Example.portalSideTurn π` and `Example.camera`, for `Front`. -/
theorem transformCamera_rotation_order_witness :
    ((Libm.mk Real.sqrt Real.cos Real.sin Real.arcsin (fun y x => Complex.arg ⟨x, y⟩)).Exact ∧
      (Example.memFT ℝ Real.pi 0).destination = some 1 ∧
      glm.length
          (Libm.mk Real.sqrt Real.cos Real.sin Real.arcsin (fun y x => Complex.arg ⟨x, y⟩))
          (Example.memFT ℝ Real.pi 1).rotationEffect > (0.0001 : ℝ)) ∧
    (Portal.transformCamera
        (Libm.mk Real.sqrt Real.cos Real.sin Real.arcsin (fun y x => Complex.arg ⟨x, y⟩))
        (Example.memFT ℝ Real.pi) (Example.memFT ℝ Real.pi 0)
      (Example.camera ℝ)).Front =
      glm.normalize
          (Libm.mk Real.sqrt Real.cos Real.sin Real.arcsin (fun y x => Complex.arg ⟨x, y⟩))
        ((Portal.rotMat (Example.memFT ℝ Real.pi 0) (Example.memFT ℝ Real.pi 1)).mulVec
          ((Mat3.mul (Mat3.mul
              (Mat3.rotX (Real.cos (Example.memFT ℝ Real.pi 1).rotationEffect.x)
                (Real.sin (Example.memFT ℝ Real.pi 1).rotationEffect.x))
              (Mat3.rotY (Real.cos (Example.memFT ℝ Real.pi 1).rotationEffect.y)
                (Real.sin (Example.memFT ℝ Real.pi 1).rotationEffect.y)))
            (Mat3.rotZ (Real.cos (Example.memFT ℝ Real.pi 1).rotationEffect.z)
              (Real.sin (Example.memFT ℝ Real.pi 1).rotationEffect.z))).mulVec
            (Example.camera ℝ).Front)) := by
  have hrT : glm.length
      (Libm.mk Real.sqrt Real.cos Real.sin Real.arcsin (fun y x => Complex.arg ⟨x, y⟩))
      (Example.memFT ℝ Real.pi 1).rotationEffect > (0.0001 : ℝ) := by
    simp only [Example.memFT, Example.portalSideTurn, glm.length, Vec3.dot]
    norm_num
    rw [Real.sqrt_mul_self Real.pi_pos.le]
    linarith [Real.pi_gt_three]
  have l0 : (Example.memFT ℝ Real.pi 0).destination = some 1 := rfl
  exact ⟨⟨real_libm_exact _ _, l0, hrT⟩,
    (transformCamera_rotation_order
        (Libm.mk Real.sqrt Real.cos Real.sin Real.arcsin (fun y x => Complex.arg ⟨x, y⟩))
        (real_libm_exact _ _) (Example.memFT ℝ Real.pi)
      (Example.memFT ℝ Real.pi 0) (Example.camera ℝ) 1 l0 hrT).1⟩

/-- With `cos 0 = 1` and `sin 0 = 0` the elementary rotations by the zero
vector are the identity. -/
theorem rotations_zero_apply (M : Libm K) (hcos : M.cos 0 = 1) (hsin : M.sin 0 = 0)
    (v : Vec3 K) :
    (Mat3.mul (Mat3.mul (Mat3.rotX (M.cos 0) (M.sin 0)) (Mat3.rotY (M.cos 0) (M.sin 0)))
      (Mat3.rotZ (M.cos 0) (M.sin 0))).mulVec v = v := by
  rw [hcos, hsin]
  ext <;> simp [Mat3.mul, Mat3.rotX, Mat3.rotY, Mat3.rotZ, Mat3.mulVec]

/-- C24: for a linked portal whose destination has `rotationEffect = (0,0,0)`,
`transformCamera` takes the shortcut branch, and the `Front`, `Right`, `Up` it
writes equal those of the general branch run on the same camera (with
`cos 0 = 1`, `sin 0 = 0`). -/
theorem shortcut_equals_general (M : Libm K) (hM : M.Exact) (hcos : M.cos 0 = 1)
    (hsin : M.sin 0 = 0) (mem : Mem K) (self : Portal K) (camera : Camera K) (d : Nat)
    (hlink : self.destination = some d) (hzero : (mem d).rotationEffect = ⟨0, 0, 0⟩) :
    ¬ (glm.length M (mem d).rotationEffect > (0.0001 : K)) ∧
    (Portal.transformCamera M mem self camera).Front =
      (Portal.rotatedOrientation M (Portal.rotMat self (mem d)) (mem d).rotationEffect
        camera).Front ∧
    (Portal.transformCamera M mem self camera).Right =
      (Portal.rotatedOrientation M (Portal.rotMat self (mem d)) (mem d).rotationEffect
        camera).Right ∧
    (Portal.transformCamera M mem self camera).Up =
      (Portal.rotatedOrientation M (Portal.rotMat self (mem d)) (mem d).rotationEffect
        camera).Up := by
  have hneg : ¬ (glm.length M (mem d).rotationEffect > (0.0001 : K)) := by
    rw [hzero, glm.length]
    have h0 : Vec3.dot (⟨0, 0, 0⟩ : Vec3 K) ⟨0, 0, 0⟩ = 0 := by simp [Vec3.dot]
    rw [h0, hM.sqrt_zero]
    norm_num
  obtain ⟨hF, hR, hU⟩ := (transformCamera_orientation_eq M mem self camera d hlink).2 hneg
  obtain ⟨gF, gR, gU⟩ := rotatedOrientation_fields hM (Portal.rotMat self (mem d))
    (mem d).rotationEffect camera
  rw [hzero] at gF gR gU
  simp only [rotations_zero_apply M hcos hsin] at gF gR gU
  rw [hzero]
  exact ⟨by rw [← hzero]; exact hneg, hF.trans gF.symm, hR.trans gR.symm, hU.trans gU.symm⟩

/-- C24 over the reals at `Example.portalA` linked to `Example.portalB` (no
rotation effect) and `Example.camera`, for `Front`. -/
theorem shortcut_equals_general_witness :
    ((Libm.mk Real.sqrt Real.cos Real.sin Real.arcsin (fun y x => Complex.arg ⟨x, y⟩)).Exact ∧
      Real.cos 0 = 1 ∧ Real.sin 0 = 0 ∧
      (Example.memAB ℝ 0).destination = some 1 ∧
      (Example.memAB ℝ 1).rotationEffect = ⟨0, 0, 0⟩) ∧
    (Portal.transformCamera
        (Libm.mk Real.sqrt Real.cos Real.sin Real.arcsin (fun y x => Complex.arg ⟨x, y⟩))
        (Example.memAB ℝ) (Example.memAB ℝ 0)
      (Example.camera ℝ)).Front =
      (Portal.rotatedOrientation
          (Libm.mk Real.sqrt Real.cos Real.sin Real.arcsin (fun y x => Complex.arg ⟨x, y⟩))
        (Portal.rotMat (Example.memAB ℝ 0) (Example.memAB ℝ 1))
        (Example.memAB ℝ 1).rotationEffect (Example.camera ℝ)).Front := by
  have l0 : (Example.memAB ℝ 0).destination = some 1 := rfl
  have hz : (Example.memAB ℝ 1).rotationEffect = ⟨0, 0, 0⟩ := rfl
  exact ⟨⟨real_libm_exact _ _, Real.cos_zero, Real.sin_zero, l0, hz⟩,
    (shortcut_equals_general
        (Libm.mk Real.sqrt Real.cos Real.sin Real.arcsin (fun y x => Complex.arg ⟨x, y⟩))
        (real_libm_exact _ _) Real.cos_zero Real.sin_zero
      (Example.memAB ℝ) (Example.memAB ℝ 0) (Example.camera ℝ) 1 l0 hz).2.1⟩

/-- C25: for a linked portal whose destination has `scaleEffect = 0`, every
point is mapped to `exit.position`, which lies on the exit plane:
`dot(transformPosition(p) - exit.position, exit.normal) = 0`. -/
theorem transformPosition_scale_zero (mem : Mem K) (self : Portal K) (d : Nat) (p : Vec3 K)
    (hlink : self.destination = some d) (hzero : (mem d).scaleEffect = 0) :
    Portal.transformPosition mem self p = (mem d).position ∧
    Vec3.dot (Portal.transformPosition mem self p - (mem d).position) (mem d).normal = 0 := by
  have h : Portal.transformPosition mem self p = (mem d).position := by
    simp only [Portal.transformPosition, hlink, hzero]
    ext <;> simp
  refine ⟨h, ?_⟩
  rw [h]
  simp [Vec3.dot]

/-- C25 at `Example.portalA` linked to `Example.portalFlat` (factor `0`) and the
point `(7,2,3)`. -/
theorem transformPosition_scale_zero_witness :
    ((Example.memAF ℚ 0).destination = some 1 ∧ (Example.memAF ℚ 1).scaleEffect = 0) ∧
    Vec3.dot (Portal.transformPosition (Example.memAF ℚ) (Example.memAF ℚ 0) ⟨7, 2, 3⟩ -
      (Example.memAF ℚ 1).position) (Example.memAF ℚ 1).normal = 0 :=
  ⟨⟨rfl, rfl⟩,
    (transformPosition_scale_zero (Example.memAF ℚ) (Example.memAF ℚ 0) 1 ⟨7, 2, 3⟩
      rfl rfl).2⟩

end RotationOrder

section EulerAngles

variable {K : Type} [LinearOrderedField K]

/-- The laws of `Libm.ExactAngles` hold for the real `arcsin` and for `atan2`
given by the argument of a complex number. -/
theorem real_libm_exact_angles :
    (Libm.mk Real.sqrt Real.cos Real.sin Real.arcsin (fun y x => Complex.arg ⟨x, y⟩)).ExactAngles
    where
  sin_asin := fun _ h1 h2 => Real.sin_arcsin h1 h2
  cos_asin := fun y _ _ => by
    show Real.cos (Real.arcsin y) = Real.sqrt (1 - y * y)
    rw [Real.cos_arcsin, pow_two]
  cos_atan2 := fun y x => by
    show Real.cos (Complex.arg ⟨x, y⟩) * Real.sqrt (x * x + y * y) = x
    by_cases hz : (⟨x, y⟩ : ℂ) = 0
    · have hx : x = 0 := congrArg Complex.re hz
      have hy : y = 0 := congrArg Complex.im hz
      subst hx; subst hy
      simp
    · rw [Complex.cos_arg hz, Complex.abs_apply, Complex.normSq_apply]
      have hpos : Real.sqrt (x * x + y * y) ≠ 0 := by
        intro h0
        apply hz
        have h1 : x * x + y * y = 0 := by
          have := Real.sqrt_eq_zero'.mp h0
          nlinarith [mul_self_nonneg x, mul_self_nonneg y]
        have hx : x = 0 := by nlinarith [mul_self_nonneg x, mul_self_nonneg y]
        have hy : y = 0 := by nlinarith [mul_self_nonneg x, mul_self_nonneg y]
        subst hx; subst hy
        rfl
      show x / Real.sqrt (x * x + y * y) * Real.sqrt (x * x + y * y) = x
      field_simp
  sin_atan2 := fun y x => by
    show Real.sin (Complex.arg ⟨x, y⟩) * Real.sqrt (x * x + y * y) = y
    rw [Complex.sin_arg, Complex.abs_apply, Complex.normSq_apply]
    show y / Real.sqrt (x * x + y * y) * Real.sqrt (x * x + y * y) = y
    by_cases h0 : Real.sqrt (x * x + y * y) = 0
    · have h1 : x * x + y * y = 0 := by
        have := Real.sqrt_eq_zero'.mp h0
        nlinarith [mul_self_nonneg x, mul_self_nonneg y]
      have hy : y = 0 := by nlinarith [mul_self_nonneg x, mul_self_nonneg y]
      rw [h0, hy]; simp
    · field_simp

/-- After `transformCamera` through a linked portal with orthonormal bases, the
`Front` of an orthonormal camera is a unit vector. -/
theorem transformCamera_front_unit (M : Libm K) (hM : M.Exact) (mem : Mem K)
    (self : Portal K) (camera : Camera K) (d : Nat)
    (hlink : self.destination = some d)
    (hs : self.OrthonormalBasis) (hd : (mem d).OrthonormalBasis)
    (hc : camera.OrthonormalBasis) :
    Vec3.dot (Portal.transformCamera M mem self camera).Front
      (Portal.transformCamera M mem self camera).Front = 1 := by
  obtain ⟨hff, hrr, huu, hfr, hfu, hru⟩ := hc
  by_cases hcond : glm.length M (mem d).rotationEffect > (0.0001 : K)
  · obtain ⟨e1, -, -, h1, -⟩ :=
      normalize_images_orthonormal hM
        (fun v =>
          (Mat3.mul (Mat3.mk (mem d).right (mem d).up (mem d).normal)
            (Mat3.mk self.right self.up self.normal)).mulVec
            (((glm.rotate M (glm.rotate M (glm.rotate M Mat4.one (mem d).rotationEffect.x
              ⟨1, 0, 0⟩) (mem d).rotationEffect.y ⟨0, 1, 0⟩)
              (mem d).rotationEffect.z ⟨0, 0, 1⟩).mulVec (Vec4.ofVec3 v 0)).xyz))
        (fun v w => by
          rw [rotMat_dot self (mem d) hs hd, additionalRot_dot hM])
        camera.Front camera.Right camera.Up hff hrr huu hfr hfu hru
    rw [transformCamera_rotated M mem self camera d hlink hcond]
    exact (congrArg (fun v => Vec3.dot v v) e1).trans h1
  · obtain ⟨e1, -, -, h1, -⟩ :=
      normalize_images_orthonormal hM
        (fun v =>
          (Mat3.mul (Mat3.mk (mem d).right (mem d).up (mem d).normal)
            (Mat3.mk self.right self.up self.normal)).mulVec v)
        (fun v w => rotMat_dot self (mem d) hs hd v w)
        camera.Front camera.Right camera.Up hff hrr huu hfr hfu hru
    rw [(transformCamera_negligible M mem self camera d hlink hcond).1]
    exact (congrArg (fun v => Vec3.dot v v) e1).trans h1

/-- The Euler angles written by `transformCamera` for a linked portal. -/
theorem transformCamera_angles (M : Libm K) (mem : Mem K) (self : Portal K)
    (camera : Camera K) (d : Nat) (hlink : self.destination = some d) :
    (Portal.transformCamera M mem self camera).Pitch =
      glm.degrees (M.asin (Portal.transformCamera M mem self camera).Front.y) ∧
    (Portal.transformCamera M mem self camera).Yaw =
      glm.degrees (M.atan2 (Portal.transformCamera M mem self camera).Front.z
        (Portal.transformCamera M mem self camera).Front.x) := by
  simp [Portal.transformCamera, hlink]

/-- A unit vector is rebuilt from `asin` of its `y` and `atan2` of its `z`, `x`. -/
theorem direction_of_angles (M : Libm K) (hA : M.ExactAngles) (f : Vec3 K)
    (hf : Vec3.dot f f = 1) :
    (⟨M.cos (M.atan2 f.z f.x) * M.cos (M.asin f.y), M.sin (M.asin f.y),
      M.sin (M.atan2 f.z f.x) * M.cos (M.asin f.y)⟩ : Vec3 K) = f := by
  simp only [Vec3.dot] at hf
  have hy1 : -1 ≤ f.y := by nlinarith [mul_self_nonneg f.x, mul_self_nonneg f.z]
  have hy2 : f.y ≤ 1 := by nlinarith [mul_self_nonneg f.x, mul_self_nonneg f.z]
  have harg : 1 - f.y * f.y = f.x * f.x + f.z * f.z := by linear_combination -hf
  have hc := hA.cos_asin f.y hy1 hy2
  rw [harg] at hc
  ext
  · show M.cos (M.atan2 f.z f.x) * M.cos (M.asin f.y) = f.x
    rw [hc]; exact hA.cos_atan2 f.z f.x
  · exact hA.sin_asin f.y hy1 hy2
  · show M.sin (M.atan2 f.z f.x) * M.cos (M.asin f.y) = f.z
    rw [hc]; exact hA.sin_atan2 f.z f.x

theorem degrees_injective (a b : K) (h : glm.degrees a = glm.degrees b) : a = b := by
  unfold glm.degrees at h
  have hc : (57.295779513082320876798154814105 : K) ≠ 0 := by norm_num
  exact mul_right_cancel₀ hc h

/-- C26: for a linked portal and a camera with orthonormal bases, after
`transformCamera` `Pitch = degrees(asin(Front.y))` and
`Yaw = degrees(atan2(Front.z, Front.x))` for the new `Front`, and the direction
`(cos(yaw)*cos(pitch), sin(pitch), sin(yaw)*cos(pitch))` rebuilt from the
angles whose degree values are the stored `Yaw` and `Pitch` is the new
`Front`. -/
theorem transformCamera_euler_angles (M : Libm K) (hM : M.Exact) (hA : M.ExactAngles)
    (mem : Mem K) (self : Portal K) (camera : Camera K) (d : Nat)
    (hlink : self.destination = some d)
    (hs : self.OrthonormalBasis) (hd : (mem d).OrthonormalBasis)
    (hc : camera.OrthonormalBasis) :
    (Portal.transformCamera M mem self camera).Pitch =
      glm.degrees (M.asin (Portal.transformCamera M mem self camera).Front.y) ∧
    (Portal.transformCamera M mem self camera).Yaw =
      glm.degrees (M.atan2 (Portal.transformCamera M mem self camera).Front.z
        (Portal.transformCamera M mem self camera).Front.x) ∧
    ∀ yaw pitch : K,
      glm.degrees yaw = (Portal.transformCamera M mem self camera).Yaw →
      glm.degrees pitch = (Portal.transformCamera M mem self camera).Pitch →
      (⟨M.cos yaw * M.cos pitch, M.sin pitch, M.sin yaw * M.cos pitch⟩ : Vec3 K) =
        (Portal.transformCamera M mem self camera).Front := by
  obtain ⟨hP, hY⟩ := transformCamera_angles M mem self camera d hlink
  refine ⟨hP, hY, fun yaw pitch hy hp => ?_⟩
  have hyaw := degrees_injective _ _ (hy.trans hY)
  have hpitch := degrees_injective _ _ (hp.trans hP)
  rw [hyaw, hpitch]
  exact direction_of_angles M hA _
    (transformCamera_front_unit M hM mem self camera d hlink hs hd hc)

/-- C26 over the reals at `Example.portalA` linked to `Example.portalR` and
`Example.camera`. -/
theorem transformCamera_euler_angles_witness :
    ((Libm.mk Real.sqrt Real.cos Real.sin Real.arcsin (fun y x => Complex.arg ⟨x, y⟩)).Exact ∧
      (Libm.mk Real.sqrt Real.cos Real.sin Real.arcsin
        (fun y x => Complex.arg ⟨x, y⟩)).ExactAngles ∧
      (Example.memAR ℝ 0).destination = some 1 ∧
      (Example.memAR ℝ 0).OrthonormalBasis ∧ (Example.memAR ℝ 1).OrthonormalBasis ∧
      (Example.camera ℝ).OrthonormalBasis) ∧
    (Portal.transformCamera
        (Libm.mk Real.sqrt Real.cos Real.sin Real.arcsin (fun y x => Complex.arg ⟨x, y⟩))
        (Example.memAR ℝ) (Example.memAR ℝ 0)
      (Example.camera ℝ)).Pitch =
      glm.degrees (Real.arcsin (Portal.transformCamera
          (Libm.mk Real.sqrt Real.cos Real.sin Real.arcsin (fun y x => Complex.arg ⟨x, y⟩))
          (Example.memAR ℝ)
        (Example.memAR ℝ 0) (Example.camera ℝ)).Front.y) := by
  have h0 : (Example.memAR ℝ 0).destination = some 1 := rfl
  have hA : (Example.memAR ℝ 0).OrthonormalBasis := by
    simp [Example.memAR, Example.portalA, Portal.OrthonormalBasis, Vec3.dot]
  have hB : (Example.memAR ℝ 1).OrthonormalBasis := by
    simp [Example.memAR, Example.portalR, Portal.OrthonormalBasis, Vec3.dot]
  have hC : (Example.camera ℝ).OrthonormalBasis := by
    simp [Example.camera, Camera.OrthonormalBasis, Vec3.dot]
  exact ⟨⟨real_libm_exact _ _, real_libm_exact_angles, h0, hA, hB, hC⟩,
    (transformCamera_euler_angles
        (Libm.mk Real.sqrt Real.cos Real.sin Real.arcsin (fun y x => Complex.arg ⟨x, y⟩))
        (real_libm_exact _ _) real_libm_exact_angles
      (Example.memAR ℝ) (Example.memAR ℝ 0) (Example.camera ℝ) 1 h0 hA hB hC).1⟩

end EulerAngles

section Straddle

variable {K : Type} [LinearOrderedField K]

/-- What a true `isCrossing` passed on its way: `dn < 0` and `0 <= t <= 1`. -/
theorem isCrossing_true_guards (self : Portal K) (prevPos newPos : Vec3 K) (radius : K)
    (h : Portal.isCrossing self prevPos newPos radius = true) :
    Vec3.dot self.normal (newPos - prevPos) < 0 ∧
    0 ≤ (-Vec3.dot self.normal (prevPos - self.position)) /
          Vec3.dot self.normal (newPos - prevPos) ∧
    (-Vec3.dot self.normal (prevPos - self.position)) /
          Vec3.dot self.normal (newPos - prevPos) ≤ 1 := by
  unfold Portal.isCrossing at h
  by_cases hdn : Vec3.dot self.normal (newPos - prevPos) ≥ 0
  · simp only [hdn, if_true] at h
    exact absurd h Bool.false_ne_true
  · simp only [hdn, if_false] at h
    by_cases ht : (-Vec3.dot self.normal (prevPos - self.position)) /
        Vec3.dot self.normal (newPos - prevPos) < 0 ∨
        (-Vec3.dot self.normal (prevPos - self.position)) /
        Vec3.dot self.normal (newPos - prevPos) > 1
    · simp only [ht, if_true] at h
      exact absurd h Bool.false_ne_true
    · push_neg at ht hdn
      exact ⟨hdn, ht.1, ht.2⟩

/-- The depths of the end points of a detected crossing, and the plane equation
of the intersection point. -/
theorem isCrossing_depths (self : Portal K) (prevPos newPos : Vec3 K) (radius : K)
    (h : Portal.isCrossing self prevPos newPos radius = true) :
    0 ≤ Vec3.dot self.normal (prevPos - self.position) ∧
    Vec3.dot self.normal (newPos - self.position) ≤ 0 ∧
    Vec3.dot self.normal
      ((prevPos + ((-Vec3.dot self.normal (prevPos - self.position)) /
        Vec3.dot self.normal (newPos - prevPos)) • (newPos - prevPos)) - self.position) = 0 := by
  obtain ⟨hdn, ht0, ht1⟩ := isCrossing_true_guards self prevPos newPos radius h
  have hne : Vec3.dot self.normal (newPos - prevPos) ≠ 0 := ne_of_lt hdn
  have ha : 0 ≤ Vec3.dot self.normal (prevPos - self.position) := by
    have := (div_nonneg_iff.mp ht0)
    rcases this with ⟨_, h2⟩ | ⟨h1, _⟩
    · exact absurd hdn (not_lt.mpr h2)
    · linarith
  have hsplit : Vec3.dot self.normal (newPos - self.position) =
      Vec3.dot self.normal (prevPos - self.position) +
        Vec3.dot self.normal (newPos - prevPos) := by
    simp only [Vec3.dot, Vec3.sub_x, Vec3.sub_y, Vec3.sub_z]; ring
  have hb : Vec3.dot self.normal (newPos - self.position) ≤ 0 := by
    rw [hsplit]
    have h1 := (div_le_one_of_neg hdn).mp ht1
    linarith
  refine ⟨ha, hb, ?_⟩
  have hplane : Vec3.dot self.normal
      ((prevPos + ((-Vec3.dot self.normal (prevPos - self.position)) /
        Vec3.dot self.normal (newPos - prevPos)) • (newPos - prevPos)) - self.position) =
      Vec3.dot self.normal (prevPos - self.position) +
        ((-Vec3.dot self.normal (prevPos - self.position)) /
          Vec3.dot self.normal (newPos - prevPos)) *
          Vec3.dot self.normal (newPos - prevPos) := by
    simp only [Vec3.dot, Vec3.sub_x, Vec3.sub_y, Vec3.sub_z, Vec3.add_x, Vec3.add_y,
      Vec3.add_z, Vec3.smul_x, Vec3.smul_y, Vec3.smul_z]
    ring
  rw [hplane, div_mul_cancel₀ _ hne]
  ring

/-- C27: if `isCrossing(prevPos, newPos, radius)` is true then
`dot(normal, prevPos - position) >= 0`, `dot(normal, newPos - position) <= 0`,
and the intersection point `prevPos + t*(newPos - prevPos)` lies on the portal
plane. -/
theorem isCrossing_straddles (self : Portal K) (prevPos newPos : Vec3 K) (radius : K)
    (h : Portal.isCrossing self prevPos newPos radius = true) :
    0 ≤ Vec3.dot self.normal (prevPos - self.position) ∧
    Vec3.dot self.normal (newPos - self.position) ≤ 0 ∧
    Vec3.dot self.normal
      ((prevPos + ((-Vec3.dot self.normal (prevPos - self.position)) /
        Vec3.dot self.normal (newPos - prevPos)) • (newPos - prevPos)) - self.position) = 0 :=
  isCrossing_depths self prevPos newPos radius h

/-- C27 at `Example.unitSurface` and the step from `(1,0,0)` to `(-1,0,0)`. -/
theorem isCrossing_straddles_witness :
    Portal.isCrossing (Example.unitSurface ℚ) ⟨1, 0, 0⟩ ⟨-1, 0, 0⟩ (1 / 2) = true ∧
    0 ≤ Vec3.dot (Example.unitSurface ℚ).normal
      ((⟨1, 0, 0⟩ : Vec3 ℚ) - (Example.unitSurface ℚ).position) ∧
    Vec3.dot (Example.unitSurface ℚ).normal
      ((⟨-1, 0, 0⟩ : Vec3 ℚ) - (Example.unitSurface ℚ).position) ≤ 0 := by
  have h : Portal.isCrossing (Example.unitSurface ℚ) ⟨1, 0, 0⟩ ⟨-1, 0, 0⟩ (1 / 2) = true := by
    simp [Portal.isCrossing, Example.unitSurface, Vec3.dot]
    norm_num
  have hs := isCrossing_straddles (Example.unitSurface ℚ) ⟨1, 0, 0⟩ ⟨-1, 0, 0⟩ (1 / 2) h
  exact ⟨h, hs.1, hs.2.1⟩

/-- C28: for a linked portal whose destination basis is orthonormal with
`destination.scaleEffect > 0`, if `isCrossing(prevPos, newPos, radius)` holds on
the entry portal then the transformed `newPos`, by `transformPosition` and as
the `Position` written by `transformCamera`, has
`dot(result - exit.position, exit.normal) >= 0`. -/
theorem crossing_emerges_in_front (mem : Mem K) (entry : Portal K) (d : Nat)
    (prevPos newPos : Vec3 K) (radius : K)
    (hlink : entry.destination = some d) (hD : (mem d).OrthonormalBasis)
    (hs : (mem d).scaleEffect > 0)
    (hcross : Portal.isCrossing entry prevPos newPos radius = true) :
    0 ≤ Vec3.dot (Portal.transformPosition mem entry newPos - (mem d).position)
      (mem d).normal ∧
    ∀ (M : Libm K) (camera : Camera K), camera.Position = newPos →
      0 ≤ Vec3.dot ((Portal.transformCamera M mem entry camera).Position - (mem d).position)
        (mem d).normal := by
  have hdepth := (isCrossing_depths entry prevPos newPos radius hcross).2.1
  have key : 0 ≤ Vec3.dot (Portal.transformPosition mem entry newPos - (mem d).position)
      (mem d).normal := by
    rw [transformPosition_exit_depth mem entry d newPos hlink hD, dot_comm]
    nlinarith [mul_nonneg hs.le (neg_nonneg.mpr hdepth)]
  refine ⟨key, fun M camera hpos => ?_⟩
  rw [transformCamera_position_eq, hpos]
  exact key

/-- C28 at `Example.portalA` (exit factor `3`) and the step from `(6,1,0)` to
`(4,1,0)`. -/
theorem crossing_emerges_in_front_witness :
    ((Example.memAB ℚ 0).destination = some 1 ∧ (Example.memAB ℚ 1).OrthonormalBasis ∧
      (Example.memAB ℚ 1).scaleEffect > 0 ∧
      Portal.isCrossing (Example.memAB ℚ 0) ⟨6, 1, 0⟩ ⟨4, 1, 0⟩ (1 / 2) = true) ∧
    0 ≤ Vec3.dot (Portal.transformPosition (Example.memAB ℚ) (Example.memAB ℚ 0) ⟨4, 1, 0⟩ -
      (Example.memAB ℚ 1).position) (Example.memAB ℚ 1).normal := by
  have h0 : (Example.memAB ℚ 0).destination = some 1 := rfl
  have hB : (Example.memAB ℚ 1).OrthonormalBasis := by
    simp [Example.memAB, Example.portalB, Portal.OrthonormalBasis, Vec3.dot]
  have hs : (Example.memAB ℚ 1).scaleEffect > 0 := by
    simp [Example.memAB, Example.portalB]
  have hc : Portal.isCrossing (Example.memAB ℚ 0) ⟨6, 1, 0⟩ ⟨4, 1, 0⟩ (1 / 2) = true := by
    simp [Portal.isCrossing, Example.memAB, Example.portalA, Vec3.dot]
    norm_num
  exact ⟨⟨h0, hB, hs, hc⟩,
    (crossing_emerges_in_front (Example.memAB ℚ) (Example.memAB ℚ 0) 1 ⟨6, 1, 0⟩ ⟨4, 1, 0⟩
      (1 / 2) h0 hB hs hc).1⟩

end Straddle

section Similarity

variable {K : Type} [LinearOrderedField K]

/-- The square root is the only non-negative number with the given square. -/
theorem Libm.Exact.sqrt_unique {M : Libm K} (hM : M.Exact) {a x : K} (ha : 0 ≤ a)
    (hax : a * a = x) : M.sqrt x = a := by
  have hx : 0 ≤ x := by rw [← hax]; exact mul_self_nonneg a
  have h0 := hM.sqrt_nonneg x hx
  have h1 := hM.sqrt_mul_self x hx
  have h2 : (M.sqrt x - a) * (M.sqrt x + a) = 0 := by linear_combination h1 - hax
  rcases mul_eq_zero.mp h2 with h | h
  · linarith
  · have hs : M.sqrt x = 0 := by linarith
    have ha0 : a = 0 := by linarith
    rw [hs, ha0]

/-- The squared coordinates of a vector in an orthonormal frame add up to its
squared length. -/
theorem orthonormal_sum_squares (r u n v : Vec3 K)
    (hrr : Vec3.dot r r = 1) (huu : Vec3.dot u u = 1) (hnn : Vec3.dot n n = 1)
    (hru : Vec3.dot r u = 0) (hrn : Vec3.dot r n = 0) (hun : Vec3.dot u n = 0) :
    Vec3.dot v n * Vec3.dot v n + Vec3.dot v r * Vec3.dot v r +
      Vec3.dot v u * Vec3.dot v u = Vec3.dot v v := by
  have hexp := orthonormal_expand r u n v hrr huu hnn hru hrn hun
  have h := congrArg (fun w => Vec3.dot w v) hexp
  simp only [Vec3.dot, Vec3.add_x, Vec3.add_y, Vec3.add_z, Vec3.smul_x, Vec3.smul_y,
    Vec3.smul_z] at h ⊢
  linear_combination h

/-- The squared distance of two transformed points. -/
theorem transformPosition_dist_sq (mem : Mem K) (self : Portal K) (d : Nat) (p q : Vec3 K)
    (hlink : self.destination = some d)
    (hE : self.OrthonormalBasis) (hD : (mem d).OrthonormalBasis) :
    Vec3.dot (Portal.transformPosition mem self p - Portal.transformPosition mem self q)
        (Portal.transformPosition mem self p - Portal.transformPosition mem self q) =
      (mem d).scaleEffect * (mem d).scaleEffect * Vec3.dot (p - q) (p - q) := by
  obtain ⟨hrr, huu, hnn, hru, hrn, hun⟩ := hE
  obtain ⟨hRR, hUU, hNN, hRU, hRN, hUN⟩ := hD
  have hdiff : Portal.transformPosition mem self p - Portal.transformPosition mem self q =
      (-(Vec3.dot (p - q) self.normal * (mem d).scaleEffect)) • (mem d).normal +
        (Vec3.dot (p - q) self.right * (mem d).scaleEffect) • (mem d).right +
        (Vec3.dot (p - q) self.up * (mem d).scaleEffect) • (mem d).up := by
    simp only [Portal.transformPosition, hlink]
    ext <;> simp only [Vec3.dot, Vec3.add_x, Vec3.add_y, Vec3.add_z, Vec3.smul_x,
      Vec3.smul_y, Vec3.smul_z, Vec3.sub_x, Vec3.sub_y, Vec3.sub_z] <;> ring
  rw [hdiff, dot_combination (mem d).normal (mem d).right (mem d).up _ _ _ _ _ _ hNN hRR hUU
    ((dot_comm _ _).trans hRN) ((dot_comm _ _).trans hUN) hRU]
  have hsum := orthonormal_sum_squares self.right self.up self.normal (p - q)
    hrr huu hnn hru hrn hun
  linear_combination ((mem d).scaleEffect * (mem d).scaleEffect) * hsum

/-- C29: for a linked portal whose own basis and destination basis are
orthonormal, `length(transformPosition(p) - transformPosition(q)) =
|destination.scaleEffect| * length(p - q)` for all points, and
`transformPosition` maps `entry.position` to `exit.position`. -/
theorem transformPosition_similarity (M : Libm K) (hM : M.Exact) (mem : Mem K)
    (self : Portal K) (d : Nat) (p q : Vec3 K)
    (hlink : self.destination = some d)
    (hE : self.OrthonormalBasis) (hD : (mem d).OrthonormalBasis) :
    glm.length M (Portal.transformPosition mem self p - Portal.transformPosition mem self q) =
      |(mem d).scaleEffect| * glm.length M (p - q) ∧
    Portal.transformPosition mem self self.position = (mem d).position := by
  constructor
  · unfold glm.length
    rw [transformPosition_dist_sq mem self d p q hlink hE hD]
    apply hM.sqrt_unique
    · exact mul_nonneg (abs_nonneg _) (hM.sqrt_nonneg _ (dot_self_nonneg _))
    · have h1 := hM.sqrt_mul_self _ (dot_self_nonneg (p - q))
      have h2 := abs_mul_abs_self (mem d).scaleEffect
      linear_combination ((mem d).scaleEffect * (mem d).scaleEffect) * h1 +
        (M.sqrt (Vec3.dot (p - q) (p - q)) * M.sqrt (Vec3.dot (p - q) (p - q))) * h2
  · simp only [Portal.transformPosition, hlink]
    ext <;> simp [Vec3.dot]

/-- C29 over the reals at `Example.portalA` linked to `Example.portalB`
(factor `3`), for the points `(7,2,3)` and `(5,1,0)`. -/
theorem transformPosition_similarity_witness :
    ((Libm.mk Real.sqrt Real.cos Real.sin Real.arcsin (fun y x => Complex.arg ⟨x, y⟩)).Exact ∧
      (Example.memAB ℝ 0).destination = some 1 ∧
      (Example.memAB ℝ 0).OrthonormalBasis ∧ (Example.memAB ℝ 1).OrthonormalBasis) ∧
    glm.length (Libm.mk Real.sqrt Real.cos Real.sin Real.arcsin (fun y x => Complex.arg ⟨x, y⟩))
      (Portal.transformPosition (Example.memAB ℝ) (Example.memAB ℝ 0) ⟨7, 2, 3⟩ -
        Portal.transformPosition (Example.memAB ℝ) (Example.memAB ℝ 0) ⟨5, 1, 0⟩) =
      |(Example.memAB ℝ 1).scaleEffect| *
        glm.length
            (Libm.mk Real.sqrt Real.cos Real.sin Real.arcsin (fun y x => Complex.arg ⟨x, y⟩))
            ((⟨7, 2, 3⟩ : Vec3 ℝ) - ⟨5, 1, 0⟩) := by
  have h0 : (Example.memAB ℝ 0).destination = some 1 := rfl
  have hA : (Example.memAB ℝ 0).OrthonormalBasis := by
    simp [Example.memAB, Example.portalA, Portal.OrthonormalBasis, Vec3.dot]
  have hB : (Example.memAB ℝ 1).OrthonormalBasis := by
    simp [Example.memAB, Example.portalB, Portal.OrthonormalBasis, Vec3.dot]
  exact ⟨⟨real_libm_exact _ _, h0, hA, hB⟩,
    (transformPosition_similarity
        (Libm.mk Real.sqrt Real.cos Real.sin Real.arcsin (fun y x => Complex.arg ⟨x, y⟩))
        (real_libm_exact _ _) (Example.memAB ℝ)
      (Example.memAB ℝ 0) 1 ⟨7, 2, 3⟩ ⟨5, 1, 0⟩ h0 hA hB).1⟩

end Similarity

section Teleport

variable {K : Type} [LinearOrderedField K]

/-- For a non-negative `int` the conversion to `size_t` keeps the value. -/
theorem toSizeT_of_nonneg (i : Int) (h0 : 0 ≤ i) (h1 : i < 2 ^ 31) :
    toSizeT i = i.toNat := by
  unfold toSizeT
  rw [Int.emod_eq_of_lt h0 (by omega)]

/-- C30: for `roomIndex < 0` or `roomIndex >= getRoomCount()`,
`teleportToRoom` leaves `currentRoom`, the camera, `nonEuclideanFactor`,
`flightMode` and `verticalVelocity` unchanged; for an in-range index it reads
`rooms[roomIndex]` inside the vector, sets `currentRoom = roomIndex`, the
camera to `updateCameraVectors` of the camera with the room's spawn position,
yaw and pitch (which are the camera's `Position`, `Yaw`, `Pitch` afterwards
when `updateCameraVectors` does not write them), `nonEuclideanFactor` to the
room's intensity, `flightMode` to `!hasGravity` and `verticalVelocity` to `0`. -/
theorem teleportToRoom_spec (updateCameraVectors : Camera K → Camera K) (roomIndex : Int)
    (st : TeleportState K) (hint : -2 ^ 31 ≤ roomIndex ∧ roomIndex < 2 ^ 31) :
    ((roomIndex < 0 ∨ roomIndex ≥ (st.manager.getRoomCount : Int)) →
      RoomManager.teleportToRoom updateCameraVectors roomIndex st = some st) ∧
    (0 ≤ roomIndex → roomIndex < (st.manager.getRoomCount : Int) →
      ∃ room st2, st.manager.rooms[roomIndex.toNat]? = some room ∧
        RoomManager.teleportToRoom updateCameraVectors roomIndex st = some st2 ∧
        st2.manager = { rooms := st.manager.rooms, currentRoom := roomIndex } ∧
        st2.camera = updateCameraVectors
          { st.camera with
            Position := room.spawnPosition
            Yaw := room.spawnYaw
            Pitch := room.spawnPitch } ∧
        st2.nonEuclideanFactor = room.nonEuclideanIntensity ∧
        st2.flightMode = !room.hasGravity ∧
        st2.verticalVelocity = 0 ∧
        ((∀ c, (updateCameraVectors c).Position = c.Position ∧
            (updateCameraVectors c).Yaw = c.Yaw ∧ (updateCameraVectors c).Pitch = c.Pitch) →
          st2.camera.Position = room.spawnPosition ∧ st2.camera.Yaw = room.spawnYaw ∧
            st2.camera.Pitch = room.spawnPitch)) := by
  constructor
  · intro hbad
    unfold RoomManager.teleportToRoom
    rw [if_neg]
    rintro ⟨h0, hlt⟩
    rcases hbad with hneg | hge
    · omega
    · rw [toSizeT_of_nonneg roomIndex h0 hint.2] at hlt
      unfold RoomManager.getRoomCount at hge
      omega
  · intro h0 hlt
    unfold RoomManager.getRoomCount at hlt
    have hidx : roomIndex.toNat < st.manager.rooms.length := by omega
    have hts := toSizeT_of_nonneg roomIndex h0 hint.2
    have hget : st.manager.rooms[roomIndex.toNat]? =
        some (st.manager.rooms[roomIndex.toNat]) := List.getElem?_eq_getElem hidx
    refine ⟨st.manager.rooms[roomIndex.toNat],
      { manager := { rooms := st.manager.rooms, currentRoom := roomIndex }
        camera := updateCameraVectors
          { st.camera with
            Position := (st.manager.rooms[roomIndex.toNat]).spawnPosition
            Yaw := (st.manager.rooms[roomIndex.toNat]).spawnYaw
            Pitch := (st.manager.rooms[roomIndex.toNat]).spawnPitch }
        nonEuclideanFactor := (st.manager.rooms[roomIndex.toNat]).nonEuclideanIntensity
        flightMode := !(st.manager.rooms[roomIndex.toNat]).hasGravity
        verticalVelocity := 0 },
      hget, ?_, rfl, rfl, rfl, rfl, rfl, ?_⟩
    · unfold RoomManager.teleportToRoom
      rw [if_pos ⟨h0, by rw [hts]; exact hidx⟩]
      simp only [hts, hget]
    · intro hframe
      obtain ⟨hp, hy, hpi⟩ := hframe
        { st.camera with
          Position := (st.manager.rooms[roomIndex.toNat]).spawnPosition
          Yaw := (st.manager.rooms[roomIndex.toNat]).spawnYaw
          Pitch := (st.manager.rooms[roomIndex.toNat]).spawnPitch }
      exact ⟨hp, hy, hpi⟩

/-- C30 at `Example.teleportState` (two rooms) and the index `5`: nothing
changes. -/
theorem teleportToRoom_spec_witness :
    ((-2 ^ 31 : Int) ≤ 5 ∧ (5 : Int) < 2 ^ 31) ∧
    RoomManager.teleportToRoom (fun c => c) 5
        (Example.teleportState ℚ (Example.camera ℚ)) =
      some (Example.teleportState ℚ (Example.camera ℚ)) :=
  ⟨⟨by norm_num, by norm_num⟩,
    (teleportToRoom_spec (fun c => c) 5 (Example.teleportState ℚ (Example.camera ℚ))
      ⟨by norm_num, by norm_num⟩).1
      (Or.inr (by simp [RoomManager.getRoomCount, Example.teleportState, Example.rooms]))⟩

/-- At `Example.teleportState` the index `1` moves the camera to the spawn pose
of the second room, sets the factor to `3/2`, switches to flight and clears the
vertical velocity; the index `-1` changes nothing. -/
theorem teleportToRoom_examples :
    RoomManager.teleportToRoom (fun c => c) 1 (Example.teleportState ℚ (Example.camera ℚ)) =
      some
        { manager := ⟨Example.rooms ℚ, 1⟩
          camera := { Example.camera ℚ with Position := ⟨100, 1, 100⟩, Yaw := -90, Pitch := 0 }
          nonEuclideanFactor := 3 / 2
          flightMode := true
          verticalVelocity := 0 } ∧
    RoomManager.teleportToRoom (fun c => c) (-1)
        (Example.teleportState ℚ (Example.camera ℚ)) =
      some (Example.teleportState ℚ (Example.camera ℚ)) := by
  constructor
  · simp [RoomManager.teleportToRoom, toSizeT, Example.teleportState, Example.rooms]
  · simp [RoomManager.teleportToRoom]

end Teleport

section PoseRoundTrip

variable {K : Type} [LinearOrderedField K]

/-- The product `Rx * Ry * Rz` of elementary rotations preserves dot products. -/
theorem rotations_dot {M : Libm K} (hM : M.Exact) (r v w : Vec3 K) :
    Vec3.dot
      ((Mat3.mul (Mat3.mul (Mat3.rotX (M.cos r.x) (M.sin r.x))
        (Mat3.rotY (M.cos r.y) (M.sin r.y))) (Mat3.rotZ (M.cos r.z) (M.sin r.z))).mulVec v)
      ((Mat3.mul (Mat3.mul (Mat3.rotX (M.cos r.x) (M.sin r.x))
        (Mat3.rotY (M.cos r.y) (M.sin r.y))) (Mat3.rotZ (M.cos r.z) (M.sin r.z))).mulVec w) =
      Vec3.dot v w := by
  simp only [mulVec_mul]
  rw [← additionalRot_apply hM r v, ← additionalRot_apply hM r w]
  exact additionalRot_dot hM r v w

/-- For a linked portal, `transformCamera` writes `glm::normalize` of
`orientationMat` times the old vector into `Front`, `Right` and `Up`, in
either branch. -/
theorem transformCamera_orientation_mat (M : Libm K) (hM : M.Exact) (mem : Mem K)
    (self : Portal K) (camera : Camera K) (d : Nat) (hlink : self.destination = some d) :
    (Portal.transformCamera M mem self camera).Front =
      glm.normalize M ((Portal.orientationMat M self (mem d)).mulVec camera.Front) ∧
    (Portal.transformCamera M mem self camera).Right =
      glm.normalize M ((Portal.orientationMat M self (mem d)).mulVec camera.Right) ∧
    (Portal.transformCamera M mem self camera).Up =
      glm.normalize M ((Portal.orientationMat M self (mem d)).mulVec camera.Up) := by
  by_cases hrot : glm.length M (mem d).rotationEffect > (0.0001 : K)
  · obtain ⟨hF, hR, hU⟩ := (transformCamera_orientation_eq M mem self camera d hlink).1 hrot
    obtain ⟨gF, gR, gU⟩ := rotatedOrientation_fields hM (Portal.rotMat self (mem d))
      (mem d).rotationEffect camera
    simp only [Portal.orientationMat, if_pos hrot]
    refine ⟨?_, ?_, ?_⟩
    · rw [mulVec_mul]; exact hF.trans gF
    · rw [mulVec_mul]; exact hR.trans gR
    · rw [mulVec_mul]; exact hU.trans gU
  · obtain ⟨hF, hR, hU⟩ := (transformCamera_orientation_eq M mem self camera d hlink).2 hrot
    simp only [Portal.orientationMat, if_neg hrot]
    exact ⟨hF, hR, hU⟩

/-- With both portal bases orthonormal, `orientationMat` preserves dot
products. -/
theorem orientationMat_dot {M : Libm K} (hM : M.Exact) (self dst : Portal K)
    (hs : self.OrthonormalBasis) (hd : dst.OrthonormalBasis) (v w : Vec3 K) :
    Vec3.dot ((Portal.orientationMat M self dst).mulVec v)
      ((Portal.orientationMat M self dst).mulVec w) = Vec3.dot v w := by
  by_cases hrot : glm.length M dst.rotationEffect > (0.0001 : K)
  · simp only [Portal.orientationMat, if_pos hrot]
    rw [mulVec_mul _ _ v, mulVec_mul _ _ w, Portal.rotMat, rotMat_dot self dst hs hd,
      rotations_dot hM]
  · simp only [Portal.orientationMat, if_neg hrot]
    rw [Portal.rotMat, rotMat_dot self dst hs hd]

/-- Orientation of the camera after a round trip through two portals linked to
each other with orthonormal bases, for any rotation effects: the product of the
two `orientationMat` matrices applied to the original vectors. -/
theorem round_trip_orientation_mat (M : Libm K) (hM : M.Exact) (mem : Mem K) (a b : Nat)
    (camera : Camera K)
    (hab : (mem a).destination = some b) (hba : (mem b).destination = some a)
    (hA : (mem a).OrthonormalBasis) (hB : (mem b).OrthonormalBasis)
    (hc : camera.OrthonormalBasis) :
    (Portal.transformCamera M mem (mem b) (Portal.transformCamera M mem (mem a) camera)).Front =
      (Mat3.mul (Portal.orientationMat M (mem b) (mem a))
        (Portal.orientationMat M (mem a) (mem b))).mulVec camera.Front ∧
    (Portal.transformCamera M mem (mem b) (Portal.transformCamera M mem (mem a) camera)).Right =
      (Mat3.mul (Portal.orientationMat M (mem b) (mem a))
        (Portal.orientationMat M (mem a) (mem b))).mulVec camera.Right ∧
    (Portal.transformCamera M mem (mem b) (Portal.transformCamera M mem (mem a) camera)).Up =
      (Mat3.mul (Portal.orientationMat M (mem b) (mem a))
        (Portal.orientationMat M (mem a) (mem b))).mulVec camera.Up := by
  obtain ⟨hff, hrr, huu, hfr, hfu, hru⟩ := hc
  obtain ⟨f1, r1, u1⟩ := transformCamera_orientation_mat M hM mem (mem a) camera b hab
  obtain ⟨f2, r2, u2⟩ := transformCamera_orientation_mat M hM mem (mem b)
    (Portal.transformCamera M mem (mem a) camera) a hba
  obtain ⟨e1, e2, e3, -⟩ := normalize_images_orthonormal hM
    (fun v => (Portal.orientationMat M (mem a) (mem b)).mulVec v)
    (fun v w => orientationMat_dot hM (mem a) (mem b) hA hB v w)
    camera.Front camera.Right camera.Up hff hrr huu hfr hfu hru
  obtain ⟨g1, g2, g3, -⟩ := normalize_images_orthonormal hM
    (fun v => (Mat3.mul (Portal.orientationMat M (mem b) (mem a))
      (Portal.orientationMat M (mem a) (mem b))).mulVec v)
    (fun v w => by
      simp only [mulVec_mul (Portal.orientationMat M (mem b) (mem a))]
      rw [orientationMat_dot hM (mem b) (mem a) hB hA,
        orientationMat_dot hM (mem a) (mem b) hA hB])
    camera.Front camera.Right camera.Up hff hrr huu hfr hfu hru
  rw [f2, r2, u2, f1, r1, u1, e1, e2, e3, ← mulVec_mul, ← mulVec_mul, ← mulVec_mul,
    g1, g2, g3]
  exact ⟨rfl, rfl, rfl⟩

theorem mulVec_combination (T : Mat3 K) (x y z : K) (a b c : Vec3 K) :
    T.mulVec (x • a + y • b + z • c) = x • T.mulVec a + y • T.mulVec b + z • T.mulVec c := by
  ext <;> simp only [Mat3.mulVec, Vec3.add_x, Vec3.add_y, Vec3.add_z, Vec3.smul_x,
    Vec3.smul_y, Vec3.smul_z] <;> ring

/-- A matrix that fixes the three vectors of an orthonormal triple is the
identity. -/
theorem mat_eq_one_of_fixes (T : Mat3 K) (f r u : Vec3 K)
    (hff : Vec3.dot f f = 1) (hrr : Vec3.dot r r = 1) (huu : Vec3.dot u u = 1)
    (hfr : Vec3.dot f r = 0) (hfu : Vec3.dot f u = 0) (hru : Vec3.dot r u = 0)
    (hf : T.mulVec f = f) (hr : T.mulVec r = r) (hu : T.mulVec u = u) :
    T = Mat3.one := by
  have hfix : ∀ v : Vec3 K, T.mulVec v = v := by
    intro v
    have hexp := orthonormal_expand f r u v hff hrr huu hfr hfu hru
    have h := congrArg T.mulVec hexp
    rw [mulVec_combination, hf, hr, hu, hexp] at h
    exact h.symm
  have h1 := hfix ⟨1, 0, 0⟩
  have h2 := hfix ⟨0, 1, 0⟩
  have h3 := hfix ⟨0, 0, 1⟩
  simp only [Mat3.mulVec, mul_one, mul_zero, add_zero, zero_add] at h1 h2 h3
  obtain ⟨a1, a2, a3⟩ := Vec3.mk.inj h1
  obtain ⟨b1, b2, b3⟩ := Vec3.mk.inj h2
  obtain ⟨c1, c2, c3⟩ := Vec3.mk.inj h3
  ext <;> simp only [Mat3.one] <;> assumption

/-- The round trip restores a position exactly when the product of the two
factors is `1` or the position is the position of the first portal. -/
theorem scaled_offset_fixed (a p : Vec3 K) (s : K) :
    a + s • (p - a) = p ↔ s = 1 ∨ p = a := by
  constructor
  · intro h
    by_cases hs : s = 1
    · exact Or.inl hs
    · right
      have hx := congrArg Vec3.x h
      have hy := congrArg Vec3.y h
      have hz := congrArg Vec3.z h
      simp only [Vec3.add_x, Vec3.add_y, Vec3.add_z, Vec3.smul_x, Vec3.smul_y, Vec3.smul_z,
        Vec3.sub_x, Vec3.sub_y, Vec3.sub_z] at hx hy hz
      have hs1 : s - 1 ≠ 0 := sub_ne_zero.mpr hs
      have ex : (s - 1) * (p.x - a.x) = 0 := by linear_combination hx
      have ey : (s - 1) * (p.y - a.y) = 0 := by linear_combination hy
      have ez : (s - 1) * (p.z - a.z) = 0 := by linear_combination hz
      ext
      · exact sub_eq_zero.mp ((mul_eq_zero.mp ex).resolve_left hs1)
      · exact sub_eq_zero.mp ((mul_eq_zero.mp ey).resolve_left hs1)
      · exact sub_eq_zero.mp ((mul_eq_zero.mp ez).resolve_left hs1)
  · rintro (hs | hp)
    · rw [hs]; ext <;> simp
    · rw [hp]; ext <;> simp

theorem mat3_one_mul (m : Mat3 K) : Mat3.mul Mat3.one m = m := by
  ext <;> simp [Mat3.mul, Mat3.one]

theorem mat3_mul_one (m : Mat3 K) : Mat3.mul m Mat3.one = m := by
  ext <;> simp [Mat3.mul, Mat3.one]

theorem rotX_zero : Mat3.rotX (1 : K) 0 = Mat3.one := by
  simp [Mat3.rotX, Mat3.one]

theorem rotZ_zero : Mat3.rotZ (1 : K) 0 = Mat3.one := by
  simp [Mat3.rotZ, Mat3.one]

/-- The constructor and `linkPortals` calls of `main` (main.cpp 126-147, 172)
produce `Example.mainA` at address `0` and `Example.mainB` at address `1`. -/
theorem main_pair_constructed (M : Libm K) (hM : M.Exact) (mem : Mem K)
    (h0 : mem 0 = Portal.ctor M ⟨5, 3 / 2, 0⟩ ⟨1, 0, 0⟩ ⟨0, 1, 0⟩ (5 / 2) 4 (1 / 5)
      ⟨0, glm.radians 5, 0⟩)
    (h1 : mem 1 = Portal.ctor M ⟨15, 3 / 2, 0⟩ ⟨-1, 0, 0⟩ ⟨0, 1, 0⟩ (5 / 2) 4 5
      ⟨0, glm.radians (-5), 0⟩) :
    Portal.linkPortals mem 0 1 0 = Example.mainA K ∧
    Portal.linkPortals mem 0 1 1 = Example.mainB K := by
  have hx : glm.normalize M (⟨1, 0, 0⟩ : Vec3 K) = ⟨1, 0, 0⟩ :=
    normalize_of_unit hM (by simp [Vec3.dot])
  have hnx : glm.normalize M (⟨-1, 0, 0⟩ : Vec3 K) = ⟨-1, 0, 0⟩ :=
    normalize_of_unit hM (by simp [Vec3.dot])
  have hy : glm.normalize M (⟨0, 1, 0⟩ : Vec3 K) = ⟨0, 1, 0⟩ :=
    normalize_of_unit hM (by simp [Vec3.dot])
  have hz : glm.normalize M (⟨0, 0, 1⟩ : Vec3 K) = ⟨0, 0, 1⟩ :=
    normalize_of_unit hM (by simp [Vec3.dot])
  have hnz : glm.normalize M (⟨0, 0, -1⟩ : Vec3 K) = ⟨0, 0, -1⟩ :=
    normalize_of_unit hM (by simp [Vec3.dot])
  have c1 : Vec3.cross (⟨0, 1, 0⟩ : Vec3 K) ⟨1, 0, 0⟩ = ⟨0, 0, -1⟩ := by
    ext <;> simp [Vec3.cross]
  have c2 : Vec3.cross (⟨1, 0, 0⟩ : Vec3 K) ⟨0, 0, -1⟩ = ⟨0, 1, 0⟩ := by
    ext <;> simp [Vec3.cross]
  have c3 : Vec3.cross (⟨0, 1, 0⟩ : Vec3 K) ⟨-1, 0, 0⟩ = ⟨0, 0, 1⟩ := by
    ext <;> simp [Vec3.cross]
  have c4 : Vec3.cross (⟨-1, 0, 0⟩ : Vec3 K) ⟨0, 0, 1⟩ = ⟨0, 1, 0⟩ := by
    ext <;> simp [Vec3.cross]
  constructor
  · simp only [Portal.linkPortals, Portal.linkTo, Function.update, h0, Portal.ctor, hx, hy,
      c1, hnz, c2]
    simp [Example.mainA]
  · simp only [Portal.linkPortals, Portal.linkTo, Function.update, h1, Portal.ctor, hnx, hy,
      c3, hz, c4]
    simp [Example.mainB]

/-- For the pair of `main` both rotation effects pass the length test, and the
product of the two `orientationMat` matrices is the identity when
`cos(-x) = cos x`, `sin(-x) = -sin x`, `cos 0 = 1` and `sin 0 = 0`. -/
theorem main_pair_round_trip_mat (M : Libm K) (hM : M.Exact)
    (hcos : M.cos 0 = 1) (hsin : M.sin 0 = 0)
    (hcn : M.cos (glm.radians (-5)) = M.cos (glm.radians 5))
    (hsn : M.sin (glm.radians (-5)) = -M.sin (glm.radians 5)) :
    glm.length M (Example.memMain K 0).rotationEffect > (0.0001 : K) ∧
    glm.length M (Example.memMain K 1).rotationEffect > (0.0001 : K) ∧
    Mat3.mul (Portal.orientationMat M (Example.memMain K 1) (Example.memMain K 0))
      (Portal.orientationMat M (Example.memMain K 0) (Example.memMain K 1)) = Mat3.one := by
  have hr : (0 : K) ≤ glm.radians 5 := by unfold glm.radians; norm_num
  have hlen : (glm.radians 5 : K) > 0.0001 := by unfold glm.radians; norm_num
  have hA : glm.length M (Example.memMain K 0).rotationEffect = glm.radians 5 := by
    unfold glm.length
    apply hM.sqrt_unique hr
    simp [Example.memMain, Example.mainA, Vec3.dot]
  have hB : glm.length M (Example.memMain K 1).rotationEffect = glm.radians 5 := by
    unfold glm.length
    apply hM.sqrt_unique hr
    simp [Example.memMain, Example.mainB, Vec3.dot, glm.radians]
  have hrA : glm.length M (Example.memMain K 0).rotationEffect > (0.0001 : K) := by
    rw [hA]; exact hlen
  have hrB : glm.length M (Example.memMain K 1).rotationEffect > (0.0001 : K) := by
    rw [hB]; exact hlen
  refine ⟨hrA, hrB, ?_⟩
  have hcs := hM.cos_sq_add_sin_sq (glm.radians 5)
  have eAB : Portal.rotMat (Example.memMain K 0) (Example.memMain K 1) = Mat3.one := by
    simp only [Portal.rotMat, Example.memMain, Example.mainA, Example.mainB, if_true,
      one_ne_zero, if_false]
    ext <;> simp [Mat3.mul, Mat3.one]
  have eBA : Portal.rotMat (Example.memMain K 1) (Example.memMain K 0) = Mat3.one := by
    simp only [Portal.rotMat, Example.memMain, Example.mainA, Example.mainB, if_true,
      one_ne_zero, if_false]
    ext <;> simp [Mat3.mul, Mat3.one]
  have hxA : (Example.memMain K 0).rotationEffect = ⟨0, glm.radians 5, 0⟩ := rfl
  have hxB : (Example.memMain K 1).rotationEffect = ⟨0, glm.radians (-5), 0⟩ := rfl
  simp only [Portal.orientationMat, if_pos hrA, if_pos hrB]
  simp only [eAB, eBA, hxA, hxB, hcos, hsin, hcn, hsn, rotX_zero, rotZ_zero, mat3_one_mul,
    mat3_mul_one]
  generalize M.cos (glm.radians 5) = c at hcs
  generalize M.sin (glm.radians 5) = s at hcs
  ext <;> simp only [Mat3.mul, Mat3.rotY, Mat3.one, mul_zero, zero_mul, add_zero, zero_add,
    mul_one, one_mul, neg_neg, mul_neg, neg_mul, neg_zero] <;>
    first | ring1 | linear_combination hcs

/-- C3 amended: for portals `A`, `B` linked to each other with orthonormal bases
(any rotation effects, any factors) and a camera with orthonormal
`Front`/`Right`/`Up`, the round trip `A.transformCamera` then
`B.transformCamera` gives `Position = A.position + (sA * sB) * (Position -
A.position)` and `Front`, `Right`, `Up` equal to `T` times the original
vectors, where `T = orientationMat(B, A) * orientationMat(A, B)`; the pose has
its original `Position`, `Front`, `Right` and `Up` exactly when `T` is the
identity and `sA * sB = 1` or the camera is at `A.position`. -/
theorem transformCamera_round_trip (M : Libm K) (hM : M.Exact) (mem : Mem K) (a b : Nat)
    (camera : Camera K)
    (hab : (mem a).destination = some b) (hba : (mem b).destination = some a)
    (hA : (mem a).OrthonormalBasis) (hB : (mem b).OrthonormalBasis)
    (hc : camera.OrthonormalBasis) :
    (Portal.transformCamera M mem (mem b)
        (Portal.transformCamera M mem (mem a) camera)).Position =
      (mem a).position +
        ((mem a).scaleEffect * (mem b).scaleEffect) • (camera.Position - (mem a).position) ∧
    ((Portal.transformCamera M mem (mem b)
          (Portal.transformCamera M mem (mem a) camera)).Front =
        (Mat3.mul (Portal.orientationMat M (mem b) (mem a))
          (Portal.orientationMat M (mem a) (mem b))).mulVec camera.Front ∧
      (Portal.transformCamera M mem (mem b)
          (Portal.transformCamera M mem (mem a) camera)).Right =
        (Mat3.mul (Portal.orientationMat M (mem b) (mem a))
          (Portal.orientationMat M (mem a) (mem b))).mulVec camera.Right ∧
      (Portal.transformCamera M mem (mem b)
          (Portal.transformCamera M mem (mem a) camera)).Up =
        (Mat3.mul (Portal.orientationMat M (mem b) (mem a))
          (Portal.orientationMat M (mem a) (mem b))).mulVec camera.Up) ∧
    (((Portal.transformCamera M mem (mem b)
          (Portal.transformCamera M mem (mem a) camera)).Position = camera.Position ∧
      (Portal.transformCamera M mem (mem b)
          (Portal.transformCamera M mem (mem a) camera)).Front = camera.Front ∧
      (Portal.transformCamera M mem (mem b)
          (Portal.transformCamera M mem (mem a) camera)).Right = camera.Right ∧
      (Portal.transformCamera M mem (mem b)
          (Portal.transformCamera M mem (mem a) camera)).Up = camera.Up) ↔
      (((mem a).scaleEffect * (mem b).scaleEffect = 1 ∨
          camera.Position = (mem a).position) ∧
        Mat3.mul (Portal.orientationMat M (mem b) (mem a))
          (Portal.orientationMat M (mem a) (mem b)) = Mat3.one)) := by
  have hpos : (Portal.transformCamera M mem (mem b)
        (Portal.transformCamera M mem (mem a) camera)).Position =
      (mem a).position +
        ((mem a).scaleEffect * (mem b).scaleEffect) •
          (camera.Position - (mem a).position) := by
    rw [transformCamera_position_eq, transformCamera_position_eq]
    obtain ⟨hArr, hAuu, hAnn, hAru, hArn, hAun⟩ := hA
    obtain ⟨hBrr, hBuu, hBnn, hBru, hBrn, hBun⟩ := hB
    simp only [Portal.transformPosition, hab, hba]
    exact mirror_round_trip _ _ _ _ _ _ _ _ camera.Position _ _ hArr hAuu hAnn hAru hArn
      hAun hBrr hBuu hBnn hBru hBrn hBun _ rfl
  obtain ⟨hF, hR, hU⟩ := round_trip_orientation_mat M hM mem a b camera hab hba hA hB hc
  obtain ⟨hff, hrr, huu, hfr, hfu, hru⟩ := hc
  refine ⟨hpos, ⟨hF, hR, hU⟩, ?_⟩
  constructor
  · rintro ⟨eP, eF, eR, eU⟩
    exact ⟨(scaled_offset_fixed _ _ _).mp (hpos.symm.trans eP),
      mat_eq_one_of_fixes _ camera.Front camera.Right camera.Up hff hrr huu hfr hfu hru
        (hF.symm.trans eF) (hR.symm.trans eR) (hU.symm.trans eU)⟩
  · rintro ⟨hs, hT⟩
    refine ⟨hpos.trans ((scaled_offset_fixed _ _ _).mpr hs), ?_, ?_, ?_⟩
    · rw [hF, hT, one_mulVec]
    · rw [hR, hT, one_mulVec]
    · rw [hU, hT, one_mulVec]

/-- C3 amended, over the reals at the pair of `main` (`Example.mainA`,
`Example.mainB`: factors `0.2` and `5`, rotation effects `radians(5)` and
`radians(-5)` about `y`, both above the length threshold): the round trip
restores `Example.camera`. -/
theorem transformCamera_round_trip_witness :
    ((Libm.mk Real.sqrt Real.cos Real.sin Real.arcsin (fun y x => Complex.arg ⟨x, y⟩)).Exact ∧
      (Example.memMain ℝ 0).destination = some 1 ∧
      (Example.memMain ℝ 1).destination = some 0 ∧
      (Example.memMain ℝ 0).OrthonormalBasis ∧ (Example.memMain ℝ 1).OrthonormalBasis ∧
      (Example.camera ℝ).OrthonormalBasis) ∧
    (glm.length (Libm.mk Real.sqrt Real.cos Real.sin Real.arcsin (fun y x => Complex.arg ⟨x, y⟩))
        (Example.memMain ℝ 0).rotationEffect > (0.0001 : ℝ) ∧
      glm.length (Libm.mk Real.sqrt Real.cos Real.sin Real.arcsin (fun y x => Complex.arg ⟨x, y⟩))
        (Example.memMain ℝ 1).rotationEffect > (0.0001 : ℝ)) ∧
    ((Portal.transformCamera
          (Libm.mk Real.sqrt Real.cos Real.sin Real.arcsin (fun y x => Complex.arg ⟨x, y⟩))
          (Example.memMain ℝ) (Example.memMain ℝ 1)
          (Portal.transformCamera
            (Libm.mk Real.sqrt Real.cos Real.sin Real.arcsin (fun y x => Complex.arg ⟨x, y⟩))
            (Example.memMain ℝ) (Example.memMain ℝ 0) (Example.camera ℝ))).Position =
        (Example.camera ℝ).Position ∧
      (Portal.transformCamera
          (Libm.mk Real.sqrt Real.cos Real.sin Real.arcsin (fun y x => Complex.arg ⟨x, y⟩))
          (Example.memMain ℝ) (Example.memMain ℝ 1)
          (Portal.transformCamera
            (Libm.mk Real.sqrt Real.cos Real.sin Real.arcsin (fun y x => Complex.arg ⟨x, y⟩))
            (Example.memMain ℝ) (Example.memMain ℝ 0) (Example.camera ℝ))).Front =
        (Example.camera ℝ).Front ∧
      (Portal.transformCamera
          (Libm.mk Real.sqrt Real.cos Real.sin Real.arcsin (fun y x => Complex.arg ⟨x, y⟩))
          (Example.memMain ℝ) (Example.memMain ℝ 1)
          (Portal.transformCamera
            (Libm.mk Real.sqrt Real.cos Real.sin Real.arcsin (fun y x => Complex.arg ⟨x, y⟩))
            (Example.memMain ℝ) (Example.memMain ℝ 0) (Example.camera ℝ))).Right =
        (Example.camera ℝ).Right ∧
      (Portal.transformCamera
          (Libm.mk Real.sqrt Real.cos Real.sin Real.arcsin (fun y x => Complex.arg ⟨x, y⟩))
          (Example.memMain ℝ) (Example.memMain ℝ 1)
          (Portal.transformCamera
            (Libm.mk Real.sqrt Real.cos Real.sin Real.arcsin (fun y x => Complex.arg ⟨x, y⟩))
            (Example.memMain ℝ) (Example.memMain ℝ 0) (Example.camera ℝ))).Up =
        (Example.camera ℝ).Up) := by
  have h0 : (Example.memMain ℝ 0).destination = some 1 := rfl
  have h1 : (Example.memMain ℝ 1).destination = some 0 := rfl
  have hA : (Example.memMain ℝ 0).OrthonormalBasis := by
    simp [Example.memMain, Example.mainA, Portal.OrthonormalBasis, Vec3.dot]
  have hB : (Example.memMain ℝ 1).OrthonormalBasis := by
    simp [Example.memMain, Example.mainB, Portal.OrthonormalBasis, Vec3.dot]
  have hC : (Example.camera ℝ).OrthonormalBasis := by
    simp [Example.camera, Camera.OrthonormalBasis, Vec3.dot]
  have hs : (Example.memMain ℝ 0).scaleEffect * (Example.memMain ℝ 1).scaleEffect = 1 := by
    simp [Example.memMain, Example.mainA, Example.mainB]
  have hneg : (glm.radians (-5) : ℝ) = -glm.radians 5 := by
    unfold glm.radians; ring
  obtain ⟨hrA, hrB, hT⟩ := main_pair_round_trip_mat
    (Libm.mk Real.sqrt Real.cos Real.sin Real.arcsin (fun y x => Complex.arg ⟨x, y⟩))
    (real_libm_exact _ _) Real.cos_zero Real.sin_zero
    (by show Real.cos (glm.radians (-5)) = Real.cos (glm.radians 5)
        rw [hneg, Real.cos_neg])
    (by show Real.sin (glm.radians (-5)) = -Real.sin (glm.radians 5)
        rw [hneg, Real.sin_neg])
  exact ⟨⟨real_libm_exact _ _, h0, h1, hA, hB, hC⟩, ⟨hrA, hrB⟩,
    (transformCamera_round_trip _ (real_libm_exact _ _) _ 0 1 _ h0 h1 hA hB hC).2.2.mpr
      ⟨Or.inl hs, hT⟩⟩

end PoseRoundTrip

end Endless
